import Mathlib

/-! # Verification of `common/cairo_canvas.c` (spice-common)

A shallow embedding of the raster backend in `common/cairo_canvas.c`.

* A pixel buffer (`pixman_image_t`) is a record of its geometry, the pixel
  plane `pix x y`, and the per-image attributes the code mutates (transform,
  clip region, repeat, filter, reference count).
* C `int` coordinates are `Int`; 32-bit colour words are `Nat` with explicit
  reduction modulo `2 ^ 32` where the C type truncates.
* A `double` is an IEEE 754 binary64 value: every operation on doubles rounds
  its exact result to the nearest double, a tie going to the even significand.
* The index loops of `copy_region` and the pointer loop of `canvas_read_bits`
  are written with explicit fuel and the same variables as the source; running
  out of fuel or reading a rectangle outside the list yields `none`.  The
  plain loops `for (i = 0; i < n_rects; i++)` over a rectangle array are left
  folds over the rectangle list.
* A failed `ASSERT` and `CANVAS_ERROR` end the process; functions that can
  reach one return `Except Abort`.
* The rectangle primitives of `pixman_utils.c`, the base canvas and pixman are
  not part of the file; their models are marked as such, and what the
  verification does not need of them is a parameter.
* Two images passed to one call are distinct objects: a source image is never
  the destination surface of the same call.
* The statics `need_init` and `cairo_canvas_ops` are an explicit state that
  `cairo_canvas_init` maps to the next state; a returned `NULL` is `none`.
-/

namespace Spice

/-! ## Data model -/

/-- A rectangle `pixman_box32_t`: the half-open box `[x1, x2) × [y1, y2)`. -/
structure pixman_box32_t where
  x1 : Int
  y1 : Int
  x2 : Int
  y2 : Int
  deriving DecidableEq, Repr

/-- The value of `pixman_transform_t` as far as the code builds it: a diagonal
scale in 16.16 fixed point, or a translation in 16.16 fixed point. -/
inductive pixman_transform_t where
  | scale (sx sy : Int)
  | translate (tx ty : Int)
  deriving DecidableEq, Repr

/-- The value `pixman_fixed_1`, the number one in 16.16 fixed point. -/
def pixman_fixed_1 : Int := 65536

/-- The result of `pixman_transform_init_identity`. -/
def pixman_transform_identity : pixman_transform_t :=
  pixman_transform_t.scale pixman_fixed_1 pixman_fixed_1

/-- The repeat modes of pixman used by the file. -/
inductive pixman_repeat_t where
  | PIXMAN_REPEAT_NONE
  | PIXMAN_REPEAT_NORMAL
  deriving DecidableEq, Repr

/-- The filters of pixman used by the file. -/
inductive pixman_filter_t where
  | PIXMAN_FILTER_NEAREST
  | PIXMAN_FILTER_GOOD
  deriving DecidableEq, Repr

/-- A pixel buffer `pixman_image_t` of 32-bit pixels.  `stride` is the row
pitch in bytes (`pixman_image_get_stride`), `pix x y` the pixel word of column
`x` in row `y`; `clip = none` is the unset clip region; `ref_count` is the
reference count moved by `pixman_image_ref` and `pixman_image_unref`. -/
structure Image where
  width : Int
  height : Int
  stride : Int
  pix : Int → Int → Nat
  transform : pixman_transform_t
  clip : Option (List pixman_box32_t)
  repeat_mode : pixman_repeat_t
  filter : pixman_filter_t
  ref_count : Nat

/-- Membership of the pixel `(x, y)` in a rectangle. -/
def box_contains (r : pixman_box32_t) (x y : Int) : Bool :=
  decide (r.x1 ≤ x) && decide (x < r.x2) && decide (r.y1 ≤ y) && decide (y < r.y2)

/-- Membership of the pixel `(x, y)` in the region given by a rectangle list. -/
def region_contains (rects : List pixman_box32_t) (x y : Int) : Bool :=
  rects.any (fun r => box_contains r x y)

/-- Reading `rects[i]` for a C index: `none` outside `0 .. n_rects - 1`. -/
def rect_at (rects : List pixman_box32_t) (i : Int) : Option pixman_box32_t :=
  if i < 0 then none else rects[i.toNat]?

/-! ## Rectangle primitives (`pixman_utils.c`, not part of the file) -/

/-- Modelled from the spec: `spice_pixman_copy_rect` of `pixman_utils.c`, the
self-copy of the `width × height` block at `(src_x, src_y)` to
`(dest_x, dest_y)` with memmove semantics (section 4.3: "handled by the
primitive's own safe-copy semantics, assumed memmove-safe"): every pixel of the
destination block receives the value its source pixel had before the call. -/
def spice_pixman_copy_rect (image : Image) (src_x src_y width height dest_x dest_y : Int) :
    Image :=
  { image with
    pix := fun x y =>
      if dest_x ≤ x ∧ x < dest_x + width ∧ dest_y ≤ y ∧ y < dest_y + height then
        image.pix (x - dest_x + src_x) (y - dest_y + src_y)
      else image.pix x y }

/-! ## `copy_region` -/

/-- The loop `for (i = n_rects - 1; i >= 0; i--)` of the south-east branch:
the indices for which the body runs, in order. -/
def copy_region_se : Nat → Int → Option (List Int)
  | 0, _ => none
  | fuel + 1, i =>
    if i ≥ 0 then (copy_region_se fuel (i - 1)).map (fun rest => i :: rest)
    else some []

/-- The scan `for (end_line = i - 1; end_line >= 0 &&
dest_rects[end_line].y1 == dest_rects[i].y1; end_line--) {}` of the south-west
branch; the result is the final value of `end_line`. -/
def sw_end_line (rects : List pixman_box32_t) (i : Int) : Nat → Int → Option Int
  | 0, _ => none
  | fuel + 1, end_line =>
    if end_line ≥ 0 then
      (rect_at rects end_line).bind fun re =>
      (rect_at rects i).bind fun ri =>
      if re.y1 = ri.y1 then sw_end_line rects i fuel (end_line - 1) else some end_line
    else some end_line

/-- The loop `for (j = end_line + 1; j <= i; j++)`: the indices `j` for which
the body runs, in order. -/
def for_up : Nat → Int → Int → Option (List Int)
  | 0, _, _ => none
  | fuel + 1, j, i =>
    if j ≤ i then (for_up fuel (j + 1) i).map (fun rest => j :: rest)
    else some []

/-- The loop `while (i >= 0)` of the south-west branch. -/
def copy_region_sw (rects : List pixman_box32_t) : Nat → Int → Option (List Int)
  | 0, _ => none
  | fuel + 1, i =>
    if i ≥ 0 then
      (sw_end_line rects i (rects.length + 1) (i - 1)).bind fun end_line =>
      (for_up (rects.length + 1) (end_line + 1) i).bind fun group =>
      (copy_region_sw rects fuel end_line).map fun rest => group ++ rest
    else some []

/-- The scan `for (end_line = i; end_line < n_rects &&
dest_rects[end_line].y1 == dest_rects[i].y1; end_line++) {}` of the north-east
branch; the result is the final value of `end_line`. -/
def ne_end_line (rects : List pixman_box32_t) (i : Int) : Nat → Int → Option Int
  | 0, _ => none
  | fuel + 1, end_line =>
    if end_line < (rects.length : Int) then
      (rect_at rects end_line).bind fun re =>
      (rect_at rects i).bind fun ri =>
      if re.y1 = ri.y1 then ne_end_line rects i fuel (end_line + 1) else some end_line
    else some end_line

/-- The loop `for (j = end_line - 1; j >= i; j--)`: the indices `j` for which
the body runs, in order. -/
def for_down : Nat → Int → Int → Option (List Int)
  | 0, _, _ => none
  | fuel + 1, j, i =>
    if j ≥ i then (for_down fuel (j - 1) i).map (fun rest => j :: rest)
    else some []

/-- The loop `while (i < n_rects)` of the north-east branch. -/
def copy_region_ne (rects : List pixman_box32_t) : Nat → Int → Option (List Int)
  | 0, _ => none
  | fuel + 1, i =>
    if i < (rects.length : Int) then
      (ne_end_line rects i (rects.length + 1) i).bind fun end_line =>
      (for_down (rects.length + 1) (end_line - 1) i).bind fun group =>
      (copy_region_ne rects fuel end_line).map fun rest => group ++ rest
    else some []

/-- The loop `for (i = 0; i < n_rects; i++)` of the north-west branch. -/
def copy_region_nw (n_rects : Int) : Nat → Int → Option (List Int)
  | 0, _ => none
  | fuel + 1, i =>
    if i < n_rects then (copy_region_nw n_rects fuel (i + 1)).map (fun rest => i :: rest)
    else some []

/-- The control flow of `copy_region`: the rectangle indices for which
`spice_pixman_copy_rect` is called, in call order.  The branch is chosen from
the signs of `dx` and `dy` exactly as in the source. -/
def copy_region_order (rects : List pixman_box32_t) (dx dy : Int) : Option (List Int) :=
  let n_rects : Int := rects.length
  if dy > 0 then
    if dx ≥ 0 then copy_region_se (rects.length + 1) (n_rects - 1)
    else copy_region_sw rects (rects.length + 1) (n_rects - 1)
  else
    if dx > 0 then copy_region_ne rects (rects.length + 1) 0
    else copy_region_nw n_rects (rects.length + 1) 0

/-- The body shared by the four loops of `copy_region`: the call
`spice_pixman_copy_rect(canvas->image, r.x1 - dx, r.y1 - dy, r.x2 - r.x1,
r.y2 - r.y1, r.x1, r.y1)` for `r = dest_rects[i]`. -/
def copy_region_body (rects : List pixman_box32_t) (dx dy : Int) (image : Image) (i : Int) :
    Option Image :=
  (rect_at rects i).map fun r =>
    spice_pixman_copy_rect image (r.x1 - dx) (r.y1 - dy) (r.x2 - r.x1) (r.y2 - r.y1) r.x1 r.y1

/-- Running the loop body over a sequence of indices. -/
def copy_region_run (rects : List pixman_box32_t) (dx dy : Int) :
    Image → List Int → Option Image
  | image, [] => some image
  | image, i :: rest =>
    (copy_region_body rects dx dy image i).bind fun image' =>
      copy_region_run rects dx dy image' rest

/-- The function `copy_region`: the surface after the self-copy of the region
`dest_rects` shifted by `(dx, dy)`; `none` if a loop does not finish or reads
outside the rectangle list. -/
def copy_region (image : Image) (dest_rects : List pixman_box32_t) (dx dy : Int) :
    Option Image :=
  (copy_region_order dest_rects dx dy).bind fun order =>
    copy_region_run dest_rects dx dy image order

/-- The ground-truth copy of section 8: the surface is first copied into a
disjoint scratch buffer, then every pixel of the region is written back from
the scratch pixel `(dx, dy)` before it. -/
def copy_region_ground_truth (image : Image) (dest_rects : List pixman_box32_t)
    (dx dy : Int) : Image :=
  let scratch : Int → Int → Nat := image.pix
  { image with
    pix := fun x y =>
      if region_contains dest_rects x y then scratch (x - dx) (y - dy) else image.pix x y }

/-- The order of two rectangles `a`, `b` that follow each other (not necessarily
adjacently) in a y-x banded rectangle list: either both lie in one band (same
`y1` and `y2`) with `a` entirely to the left of `b`, or the band of `a` ends
before the band of `b` begins. -/
def band_order (a b : pixman_box32_t) : Prop :=
  (a.y1 = b.y1 ∧ a.y2 = b.y2 ∧ a.x2 ≤ b.x1) ∨ a.y2 ≤ b.y1

instance band_order_decidable : DecidableRel band_order := fun a b => by
  unfold band_order; exact inferInstance

/-- The rectangle list of a region in pixman's y-x banded order: every
rectangle is non-empty and the rectangles are listed band by band, each band
from left to right. -/
def banded (rects : List pixman_box32_t) : Prop :=
  (∀ r ∈ rects, r.x1 < r.x2 ∧ r.y1 < r.y2) ∧ rects.Pairwise band_order

instance banded_decidable (rects : List pixman_box32_t) : Decidable (banded rects) := by
  unfold banded; exact inferInstance

/-- A rectangle lies inside the surface `[0, width) × [0, height)`. -/
def box_inside (image : Image) (r : pixman_box32_t) : Prop :=
  0 ≤ r.x1 ∧ r.x1 ≤ r.x2 ∧ r.x2 ≤ image.width ∧ 0 ≤ r.y1 ∧ r.y1 ≤ r.y2 ∧ r.y2 ≤ image.height

instance box_inside_decidable (image : Image) (r : pixman_box32_t) :
    Decidable (box_inside image r) := by
  unfold box_inside; exact inferInstance

/-- The rectangle `r` moved by `(-dx, -dy)`: the source block of the copy that
writes `r`. -/
def source_box (r : pixman_box32_t) (dx dy : Int) : pixman_box32_t :=
  { x1 := r.x1 - dx, y1 := r.y1 - dy, x2 := r.x2 - dx, y2 := r.y2 - dy }

/-- The source block of the copy that writes `rb` does not meet `ra`. -/
def source_clear (dx dy : Int) (ra rb : pixman_box32_t) : Prop :=
  ∀ x y, box_contains rb x y = true → box_contains ra (x - dx) (y - dy) = false

/-- The relation `source_clear` on rectangle indices. -/
def source_clear_at (rects : List pixman_box32_t) (dx dy : Int) (a b : Int) : Prop :=
  ∀ ra rb, rect_at rects a = some ra → rect_at rects b = some rb → source_clear dx dy ra rb

/-- Membership of the pixel `(x, y)` in one of the rectangles with index in
`order`. -/
def covered (rects : List pixman_box32_t) (order : List Int) (x y : Int) : Bool :=
  order.any fun k =>
    match rect_at rects k with
    | some r => box_contains r x y
    | none => false

/-- A surface used by the concrete checks: 4 × 4 pixels, pixel `(x, y)` holding
`10 * y + x` (reduced modulo 256 away from the surface). -/
def demo_image : Image :=
  { width := 4, height := 4, stride := 16, pix := fun x y => ((10 * y + x) % 256).toNat,
    transform := pixman_transform_identity, clip := none,
    repeat_mode := pixman_repeat_t.PIXMAN_REPEAT_NONE,
    filter := pixman_filter_t.PIXMAN_FILTER_NEAREST, ref_count := 1 }

/-! ## Canvas, colour conversion and solid fills -/

/-- The canvas `CairoCanvas`: of the base canvas the fields the drawing code
reads, `base.color_shift` and `base.color_mask`; the auxiliary buffer
`private_data` (`none` is the null pointer) with its size; and the pixel buffer
`image`. -/
structure CairoCanvas where
  color_shift : Int
  color_mask : Nat
  private_data : Option (List Nat)
  private_data_size : Int
  image : Image

/-- The rectangle `SpiceRect`. -/
structure SpiceRect where
  left : Int
  top : Int
  right : Int
  bottom : Int
  deriving DecidableEq, Repr

/-- The function `get_color`: a colour of the canvas depth converted to a
32-bit pixel word.  All operands are `uint32_t`. -/
def get_color (canvas : CairoCanvas) (color : Nat) : Nat :=
  let shift : Int := if canvas.color_shift = 8 then 0 else 3
  if shift = 0 then color
  else
    let ret := (((color &&& 0x001f) <<< 3) ||| ((color &&& 0x001c) >>> 2)) % 2 ^ 32
    let ret := ret ||| ((((color &&& 0x03e0) <<< 6) ||| ((color &&& 0x0380) <<< 1)) % 2 ^ 32)
    let ret := ret ||| ((((color &&& 0x7c00) <<< 9) ||| ((color &&& 0x7000) <<< 4)) % 2 ^ 32)
    ret

/-- Modelled from the spec: `spice_pixman_fill_rect` of `pixman_utils.c`, the
"rectangle fill" primitive of section 2: every pixel of the `width × height`
block at `(x, y)` is set to `value`. -/
def spice_pixman_fill_rect (dest : Image) (x y width height : Int) (value : Nat) : Image :=
  { dest with
    pix := fun px py =>
      if x ≤ px ∧ px < x + width ∧ y ≤ py ∧ py < y + height then value else dest.pix px py }

/-- The function `fill_solid_rects`: one `spice_pixman_fill_rect` call per
rectangle, in list order. -/
def fill_solid_rects (canvas : CairoCanvas) (rects : List pixman_box32_t) (color : Nat) :
    CairoCanvas :=
  { canvas with
    image := rects.foldl
      (fun image r =>
        spice_pixman_fill_rect image r.x1 r.y1 (r.x2 - r.x1) (r.y2 - r.y1)
          (get_color canvas color))
      canvas.image }

/-! ## `canvas_read_bits` -/

/-- The byte at offset `o` from `pixman_image_get_data(image)`: rows are
`stride` bytes apart, a pixel is four bytes, least significant byte first. -/
def image_byte (image : Image) (o : Int) : Nat :=
  let row := o / image.stride
  let col := o % image.stride
  (image.pix (col / 4) row / 256 ^ (col % 4).toNat) % 256

/-- The call `memcpy(dest, src, n)` from the surface bytes at offset `src` into
the caller buffer `out` at offset `dest`. -/
def memcpy_from_image (image : Image) (out : Int → Nat) (dest src n : Int) : Int → Nat :=
  fun a => if dest ≤ a ∧ a < dest + n then image_byte image (src + (a - dest)) else out a

/-- The loop `for (; dest != dest_end; dest += dest_stride, src += src_stride)
memcpy(dest, src, dest_stride);` of `canvas_read_bits`. -/
def canvas_read_bits_loop (image : Image) (dest_stride src_stride dest_end : Int) :
    Nat → (Int → Nat) → Int → Int → Option (Int → Nat)
  | 0, _, _, _ => none
  | fuel + 1, out, dest, src =>
    if dest ≠ dest_end then
      canvas_read_bits_loop image dest_stride src_stride dest_end fuel
        (memcpy_from_image image out dest src dest_stride) (dest + dest_stride) (src + src_stride)
    else some out

/-- The function `canvas_read_bits`: `out` is the caller buffer, addressed by
byte offset from the pointer `dest`; the result is the buffer after the call,
`none` if the loop does not reach `dest_end`.  The pointers `canvas` and `area`
are not null, so `ASSERT(canvas && area)` passes. -/
def canvas_read_bits (canvas : CairoCanvas) (out : Int → Nat) (dest_stride : Int)
    (area : SpiceRect) : Option (Int → Nat) :=
  let surface := canvas.image
  let src_stride := surface.stride
  let src := area.top * src_stride + area.left * 4
  let dest_end := 0 + (area.bottom - area.top) * dest_stride
  canvas_read_bits_loop surface dest_stride src_stride dest_end
    ((area.bottom - area.top).toNat + 1) out 0 src

/-- The 32-bit word stored at byte offset `a` of a buffer, least significant
byte first. -/
def word_at (out : Int → Nat) (a : Int) : Nat :=
  out a + 256 * out (a + 1) + 65536 * out (a + 2) + 16777216 * out (a + 3)

/-- The area of a full-surface readback. -/
def full_area (image : Image) : SpiceRect :=
  { left := 0, top := 0, right := image.width, bottom := image.height }

/-- A well-formed 32-bit surface: positive size, rows at least `4 * width`
bytes apart on a 4-byte boundary, every pixel a 32-bit word. -/
def image_valid (image : Image) : Prop :=
  0 < image.width ∧ 0 < image.height ∧ 4 * image.width ≤ image.stride ∧
    image.stride % 4 = 0 ∧ ∀ x y, image.pix x y < 2 ^ 32

/-- A canvas of depth 32 on the surface `demo_image`. -/
def demo_canvas : CairoCanvas :=
  { color_shift := 8, color_mask := 0xff, private_data := none, private_data_size := 0,
    image := demo_image }

/-- A canvas of depth 16 on the surface `demo_image`. -/
def demo_canvas16 : CairoCanvas :=
  { color_shift := 5, color_mask := 0x1f, private_data := none, private_data_size := 0,
    image := demo_image }

/-! ## Colour-key blit -/

/-- Modelled from the spec: `spice_pixman_blit_colorkey` of `pixman_utils.c`,
the "blit with color-key" primitive (section 8: "pixels in the source exactly
equal to the transparent color are not written to the destination; all others
are copied exactly"), from the block of `src` at `(src_x, src_y)` to the block
of `dest` at `(dest_x, dest_y)`. -/
def spice_pixman_blit_colorkey (dest src : Image) (src_x src_y dest_x dest_y width height : Int)
    (transparent_color : Nat) : Image :=
  { dest with
    pix := fun x y =>
      if dest_x ≤ x ∧ x < dest_x + width ∧ dest_y ≤ y ∧ y < dest_y + height then
        if src.pix (x - dest_x + src_x) (y - dest_y + src_y) = transparent_color then
          dest.pix x y
        else src.pix (x - dest_x + src_x) (y - dest_y + src_y)
      else dest.pix x y }

/-- The function `__colorkey_image`: one `spice_pixman_blit_colorkey` call per
rectangle of the region, in list order, with `src_x = x1 - offset_x`,
`src_y = y1 - offset_y`, `width = x2 - x1`, `height = y2 - y1`. -/
def __colorkey_image (canvas : CairoCanvas) (region : List pixman_box32_t) (src_image : Image)
    (offset_x offset_y : Int) (transparent_color : Nat) : CairoCanvas :=
  { canvas with
    image := region.foldl
      (fun image r =>
        let dest_x := r.x1
        let dest_y := r.y1
        let width := r.x2 - r.x1
        let height := r.y2 - r.y1
        let src_x := r.x1 - offset_x
        let src_y := r.y1 - offset_y
        spice_pixman_blit_colorkey image src_image src_x src_y dest_x dest_y width height
          transparent_color)
      canvas.image }

/-! ## Fatal exits and protocol constants -/

/-- The two ways a call ends the process: a failed `ASSERT` and
`CANVAS_ERROR`. -/
inductive Abort where
  | ASSERT
  | CANVAS_ERROR
  deriving DecidableEq, Repr

/-- Modelled from the spec: the brush type "none" (`SPICE_BRUSH_TYPE_NONE` of
the protocol headers, which are not part of the file). -/
def SPICE_BRUSH_TYPE_NONE : Nat := 0

/-- Modelled from the spec: the brush type "solid color"
(`SPICE_BRUSH_TYPE_SOLID` of the protocol headers). -/
def SPICE_BRUSH_TYPE_SOLID : Nat := 1

/-- Modelled from the spec: the brush type "pattern"
(`SPICE_BRUSH_TYPE_PATTERN` of the protocol headers). -/
def SPICE_BRUSH_TYPE_PATTERN : Nat := 2

/-- Modelled from the spec: the scale mode "interpolated"
(`SPICE_IMAGE_SCALE_MODE_INTERPOLATE` of the protocol headers). -/
def SPICE_IMAGE_SCALE_MODE_INTERPOLATE : Int := 0

/-- Modelled from the spec: the scale mode "nearest"
(`SPICE_IMAGE_SCALE_MODE_NEAREST` of the protocol headers). -/
def SPICE_IMAGE_SCALE_MODE_NEAREST : Int := 1

/-! ## Brush resolver -/

/-- The colour `pixman_color_t`: four `uint16_t` channels. -/
structure pixman_color_t where
  red : Nat
  green : Nat
  blue : Nat
  alpha : Nat
  deriving DecidableEq, Repr

/-- The pattern of a brush: `u.pattern.pat` and `u.pattern.pos`. -/
structure SpicePattern where
  pat : Nat
  pos_x : Int
  pos_y : Int
  deriving DecidableEq, Repr

/-- The brush `SpiceBrush`: the tag `type` and the two members of the union
`u`, of which the one selected by `type` is meaningful. -/
structure SpiceBrush where
  type : Nat
  color : Nat
  pattern : SpicePattern
  deriving DecidableEq, Repr

/-- A paint source `pixman_image_t *` as the brush resolver returns it: a solid
fill (`pixman_image_create_solid_fill`) or a pixel buffer. -/
inductive Source where
  | solid (color : pixman_color_t)
  | bits (image : Image)

/-- The value `(i + 2 ^ 31) mod 2 ^ 32 - 2 ^ 31`: an integer as stored in a
32-bit signed variable. -/
def wrap32 (i : Int) : Int := (i + 2 ^ 31) % 2 ^ 32 - 2 ^ 31

/-- The macro `pixman_int_to_fixed`: `i << 16` as a 32-bit signed value. -/
def pixman_int_to_fixed (i : Int) : Int := wrap32 (i * 65536)

/-- The call `pixman_image_ref`. -/
def pixman_image_ref (image : Image) : Image :=
  { image with ref_count := image.ref_count + 1 }

/-- The call `pixman_image_unref`. -/
def pixman_image_unref (image : Image) : Image :=
  { image with ref_count := image.ref_count - 1 }

/-- The call `pixman_image_set_transform`. -/
def pixman_image_set_transform (image : Image) (t : pixman_transform_t) : Image :=
  { image with transform := t }

/-- The call `pixman_image_set_repeat`. -/
def pixman_image_set_repeat (image : Image) (r : pixman_repeat_t) : Image :=
  { image with repeat_mode := r }

/-- The call `pixman_image_set_filter(image, f, NULL, 0)`. -/
def pixman_image_set_filter (image : Image) (f : pixman_filter_t) : Image :=
  { image with filter := f }

/-- The call `pixman_image_set_clip_region32`; `none` is the `NULL` region. -/
def pixman_image_set_clip_region32 (image : Image) (region : Option (List pixman_box32_t)) :
    Image :=
  { image with clip := region }

/-- The function `canvas_get_pixman_brush`.  The lookups `canvas_get_surface`
(the pixel buffer of the surface registered for a reference, if any) and
`canvas_get_image` of the base canvas are parameters.  The result is the
returned paint source, `none` for `NULL`. -/
def canvas_get_pixman_brush (canvas_get_surface : Nat → Option Image)
    (canvas_get_image : Nat → Image) (canvas : CairoCanvas) (brush : SpiceBrush) :
    Except Abort (Option Source) :=
  if brush.type = SPICE_BRUSH_TYPE_SOLID then
    let color := brush.color
    let blue := (((color &&& canvas.color_mask) * 0xffff) % 2 ^ 32 / canvas.color_mask) % 2 ^ 16
    let color := color >>> canvas.color_shift.toNat
    let green := (((color &&& canvas.color_mask) * 0xffff) % 2 ^ 32 / canvas.color_mask) % 2 ^ 16
    let color := color >>> canvas.color_shift.toNat
    let red := (((color &&& canvas.color_mask) * 0xffff) % 2 ^ 32 / canvas.color_mask) % 2 ^ 16
    let alpha := 0xffff
    Except.ok (some (Source.solid { red := red, green := green, blue := blue, alpha := alpha }))
  else if brush.type = SPICE_BRUSH_TYPE_PATTERN then
    let surface :=
      match canvas_get_surface brush.pattern.pat with
      | some surface_image => pixman_image_ref surface_image
      | none => canvas_get_image brush.pattern.pat
    let t := pixman_transform_t.translate (pixman_int_to_fixed (-brush.pattern.pos_x))
      (pixman_int_to_fixed (-brush.pattern.pos_y))
    let surface := pixman_image_set_transform surface t
    let surface := pixman_image_set_repeat surface pixman_repeat_t.PIXMAN_REPEAT_NORMAL
    Except.ok (some (Source.bits surface))
  else if brush.type = SPICE_BRUSH_TYPE_NONE then
    Except.ok none
  else
    Except.error Abort.CANVAS_ERROR

/-! ## pixman: compositing and regions (external library) -/

/-- The pixman operators the file uses. -/
inductive pixman_op_t where
  | PIXMAN_OP_SRC
  | PIXMAN_OP_OVER
  deriving DecidableEq, Repr

/-- The pixel arithmetic the verification leaves uninterpreted:
`sample_good image u v` is the `PIXMAN_FILTER_GOOD` sample of `image` at the
16.16 fixed-point position `(u, v)`, `solid_pixel` the pixel of a solid fill,
`combine` a pixman operator applied to source, optional mask and destination
pixel, and `rop` a raster operation of `pixman_utils.c` applied to source and
destination pixel. -/
structure Externals where
  sample_good : Image → Int → Int → Nat
  solid_pixel : pixman_color_t → Nat
  combine : pixman_op_t → Nat → Option Nat → Nat → Nat
  rop : Nat → Nat → Nat → Nat

/-- The image of a 16.16 fixed-point position under a transform of pixman:
each product is shifted right by 16 bits. -/
def pixman_transform_point (t : pixman_transform_t) (u v : Int) : Int × Int :=
  match t with
  | pixman_transform_t.scale sx sy => ((sx * u) / 65536, (sy * v) / 65536)
  | pixman_transform_t.translate tx ty => (u + tx, v + ty)

/-- The pixel of a pixel buffer at integer position `(ix, iy)` under its repeat
mode: without repeat a position outside the buffer reads as 0, with the normal
repeat the buffer is tiled. -/
def pixman_fetch (image : Image) (ix iy : Int) : Nat :=
  match image.repeat_mode with
  | pixman_repeat_t.PIXMAN_REPEAT_NONE =>
    if 0 ≤ ix ∧ ix < image.width ∧ 0 ≤ iy ∧ iy < image.height then image.pix ix iy else 0
  | pixman_repeat_t.PIXMAN_REPEAT_NORMAL => image.pix (ix % image.width) (iy % image.height)

/-- The sample pixman takes from a pixel buffer for the source position
`(sx, sy)`: the centre of that pixel is sent through the transform of the
image, then the nearest filter reads the pixel that contains the point. -/
def pixman_sample (ext : Externals) (image : Image) (sx sy : Int) : Nat :=
  let p := pixman_transform_point image.transform ((2 * sx + 1) * 32768) ((2 * sy + 1) * 32768)
  match image.filter with
  | pixman_filter_t.PIXMAN_FILTER_NEAREST =>
    pixman_fetch image ((p.1 - 1) / 65536) ((p.2 - 1) / 65536)
  | pixman_filter_t.PIXMAN_FILTER_GOOD => ext.sample_good image p.1 p.2

/-- The sample of a paint source. -/
def source_sample (ext : Externals) : Source → Int → Int → Nat
  | Source.solid c, _, _ => ext.solid_pixel c
  | Source.bits image, sx, sy => pixman_sample ext image sx sy

/-- A pixel passes the clip of an image: an unset clip passes every pixel. -/
def clip_allows (clip : Option (List pixman_box32_t)) (x y : Int) : Bool :=
  match clip with
  | none => true
  | some region => region_contains region x y

/-- The entry point `pixman_image_composite32` of pixman (an external library):
every pixel of the `width × height` block of `dest` at `(dest_x, dest_y)` that
lies in the buffer and passes its clip is combined with the sample of `src` at
the same offset from `(src_x, src_y)` and of the mask at the same offset from
`(mask_x, mask_y)`; the operator `SRC` without mask stores the source sample. -/
def pixman_image_composite32 (ext : Externals) (op : pixman_op_t) (src : Source)
    (mask : Option Source) (dest : Image)
    (src_x src_y mask_x mask_y dest_x dest_y width height : Int) : Image :=
  { dest with
    pix := fun x y =>
      if dest_x ≤ x ∧ x < dest_x + width ∧ dest_y ≤ y ∧ y < dest_y + height ∧
          0 ≤ x ∧ x < dest.width ∧ 0 ≤ y ∧ y < dest.height ∧ clip_allows dest.clip x y = true
      then
        let s := source_sample ext src (x - dest_x + src_x) (y - dest_y + src_y)
        let m := mask.map fun ms => source_sample ext ms (x - dest_x + mask_x) (y - dest_y + mask_y)
        match op, m with
        | pixman_op_t.PIXMAN_OP_SRC, none => s
        | _, _ => ext.combine op s m (dest.pix x y)
      else dest.pix x y }

/-- The call `pixman_image_create_bits(PIXMAN_x8r8g8b8, width, height, NULL,
0)`: a fresh zero-filled buffer with one reference. -/
def pixman_image_create_bits (width height : Int) : Image :=
  { width := width, height := height, stride := 4 * width, pix := fun _ _ => 0,
    transform := pixman_transform_identity, clip := none,
    repeat_mode := pixman_repeat_t.PIXMAN_REPEAT_NONE,
    filter := pixman_filter_t.PIXMAN_FILTER_NEAREST, ref_count := 1 }

/-- The call `pixman_region32_translate`. -/
def pixman_region32_translate (region : List pixman_box32_t) (x y : Int) :
    List pixman_box32_t :=
  region.map fun r => { x1 := r.x1 + x, y1 := r.y1 + y, x2 := r.x2 + x, y2 := r.y2 + y }

/-- The call `pixman_transform_init_scale`. -/
def pixman_transform_init_scale (sx sy : Int) : pixman_transform_t :=
  pixman_transform_t.scale sx sy

/-! ## The type `double` (IEEE 754 binary64) -/

/-- A value of the C type `double` (IEEE 754 binary64).  A finite value is a
sign and a magnitude counted in units of `2 ^ (-1074)`, the smallest positive
double, of which every finite double is a whole multiple; the other values are
the two infinities and NaN. -/
inductive double where
  | finite (negative : Bool) (units : Nat)
  | infinite (negative : Bool)
  | nan
  deriving DecidableEq, Repr

/-- The integer nearest to the rational `n / d`, a tie going to the even
integer. -/
def round_half_even (n d : Nat) : Nat :=
  let q := n / d
  let r := n % d
  if 2 * r < d then q else if d < 2 * r then q + 1 else if q % 2 = 0 then q else q + 1

/-- The number of binary digits of `q`, for `q < 2 ^ 4095`: the least `b` with
`q < 2 ^ b`, found by bisection. -/
def bit_length (q : Nat) : Nat :=
  [2048, 1024, 512, 256, 128, 64, 32, 16, 8, 4, 2, 1].foldl
    (fun b k => if 2 ^ (b + k - 1) ≤ q then b + k else b) 0

/-- The double nearest to the real number of magnitude `n / d` units, a tie
going to the even significand (the rounding of every arithmetic operation):
the magnitude is rounded to a multiple of `2 ^ s`, where `s` is chosen so that
53 significant bits remain, and a result of `2 ^ 1024` or more is an
infinity. -/
def double_round (negative : Bool) (n d : Nat) : double :=
  let q := n / d
  let s := bit_length q - 53
  let m := round_half_even n (d * 2 ^ s) * 2 ^ s
  if 2 ^ 2098 ≤ m then double.infinite negative else double.finite negative m

/-- The conversion `(double) i` of an integer. -/
def double_of_int (i : Int) : double :=
  double_round (decide (i < 0)) (i.natAbs * 2 ^ 1074) 1

/-- The quotient `x / y` of two doubles. -/
def double_div : double → double → double
  | double.finite s a, double.finite t b =>
    if b = 0 then (if a = 0 then double.nan else double.infinite (s != t))
    else double_round (s != t) (a * 2 ^ 1074) b
  | double.finite s _, double.infinite t => double.finite (s != t) 0
  | double.infinite s, double.finite t _ => double.infinite (s != t)
  | double.infinite _, double.infinite _ => double.nan
  | double.nan, _ => double.nan
  | _, double.nan => double.nan

/-- The product `x * y` of two doubles. -/
def double_mul : double → double → double
  | double.finite s a, double.finite t b => double_round (s != t) (a * b) (2 ^ 1074)
  | double.finite s a, double.infinite t =>
    if a = 0 then double.nan else double.infinite (s != t)
  | double.infinite s, double.finite t b =>
    if b = 0 then double.nan else double.infinite (s != t)
  | double.infinite s, double.infinite t => double.infinite (s != t)
  | double.nan, _ => double.nan
  | _, double.nan => double.nan

/-- The sum `x + y` of two doubles. -/
def double_add : double → double → double
  | double.finite s a, double.finite t b =>
    let v : Int := (if s then -(a : Int) else a) + (if t then -(b : Int) else b)
    if v = 0 then double.finite (s && t) 0
    else double_round (decide (v < 0)) v.natAbs 1
  | double.finite _ _, double.infinite t => double.infinite t
  | double.infinite s, double.finite _ _ => double.infinite s
  | double.infinite s, double.infinite t => if s = t then double.infinite s else double.nan
  | double.nan, _ => double.nan
  | _, double.nan => double.nan

/-- The function `floor` of `math.h`. -/
def floor : double → double
  | double.finite false a => double.finite false (a / 2 ^ 1074 * 2 ^ 1074)
  | double.finite true a => double.finite true ((a + (2 ^ 1074 - 1)) / 2 ^ 1074 * 2 ^ 1074)
  | x => x

/-- The conversion of a double to a 32-bit signed integer, `(int) x` or
`(pixman_fixed_t) x`: the fraction is discarded.  For a value that has no
integer part in the range of the type C leaves the conversion undefined; the
model returns `INT_MIN`, the result of the conversion instruction of x86-64. -/
def double_to_int : double → Int
  | double.finite s a =>
    let v : Int := if s then -((a / 2 ^ 1074 : Nat) : Int) else ((a / 2 ^ 1074 : Nat) : Int)
    if -2147483648 ≤ v ∧ v ≤ 2147483647 then v else -2147483648
  | _ => -2147483648

/-- The macro `pixman_double_to_fixed`: `(pixman_fixed_t) (d * 65536.0)`. -/
def pixman_double_to_fixed (d : double) : Int :=
  double_to_int (double_mul d (double.finite false (65536 * 2 ^ 1074)))

/-- Modelled from the spec: the macro `ROUND` of the base canvas (section 4.4,
"round"): `(int) floor(x + 0.5)`. -/
def ROUND (x : double) : Int :=
  double_to_int (floor (double_add x (double.finite false (2 ^ 1073))))

/-- The value of a C `int`. -/
def is_int (i : Int) : Prop := -2147483648 ≤ i ∧ i ≤ 2147483647

instance is_int_decidable (i : Int) : Decidable (is_int i) := by
  unfold is_int; exact inferInstance

/-! ## Image blits -/

/-- Modelled from the spec: `spice_pixman_blit_rop` of `pixman_utils.c`, the
"blit with ROP" primitive: every pixel of the destination block is combined by
the raster operation with the source pixel at the same offset. -/
def spice_pixman_blit_rop (ext : Externals) (dest src : Image)
    (src_x src_y dest_x dest_y width height : Int) (rop : Nat) : Image :=
  { dest with
    pix := fun x y =>
      if dest_x ≤ x ∧ x < dest_x + width ∧ dest_y ≤ y ∧ y < dest_y + height then
        ext.rop rop (src.pix (x - dest_x + src_x) (y - dest_y + src_y)) (dest.pix x y)
      else dest.pix x y }

/-- What a scaled operation leaves behind: the canvas, the source image, the
caller's region and, for the ROP variant, the released temporary buffer. -/
structure Scaled where
  canvas : CairoCanvas
  src : Image
  region : List pixman_box32_t
  scaled : Option Image

/-- The function `__scale_image`. -/
def __scale_image (ext : Externals) (canvas : CairoCanvas) (region : List pixman_box32_t)
    (src : Image) (src_x src_y src_width src_height dest_x dest_y dest_width dest_height : Int)
    (scale_mode : Int) : Except Abort Scaled :=
  let sx : double := double_div (double_of_int src_width) (double_of_int dest_width)
  let sy : double := double_div (double_of_int src_height) (double_of_int dest_height)
  let image := pixman_image_set_clip_region32 canvas.image (some region)
  let transform := pixman_transform_init_scale (pixman_double_to_fixed sx)
    (pixman_double_to_fixed sy)
  let src := pixman_image_set_transform src transform
  let src := pixman_image_set_repeat src pixman_repeat_t.PIXMAN_REPEAT_NONE
  if ¬ (scale_mode = SPICE_IMAGE_SCALE_MODE_INTERPOLATE ∨
      scale_mode = SPICE_IMAGE_SCALE_MODE_NEAREST) then
    Except.error Abort.ASSERT
  else
    let src := pixman_image_set_filter src
      (if scale_mode = SPICE_IMAGE_SCALE_MODE_NEAREST then pixman_filter_t.PIXMAN_FILTER_NEAREST
       else pixman_filter_t.PIXMAN_FILTER_GOOD)
    let image := pixman_image_composite32 ext pixman_op_t.PIXMAN_OP_SRC (Source.bits src) none
      image (ROUND (double_div (double_of_int src_x) sx))
      (ROUND (double_div (double_of_int src_y) sy)) 0 0 dest_x dest_y
      dest_width dest_height
    let transform := pixman_transform_identity
    let src := pixman_image_set_transform src transform
    let image := pixman_image_set_clip_region32 image none
    Except.ok { canvas := { canvas with image := image }, src := src, region := region,
                scaled := none }

/-- The function `__scale_image_rop`. -/
def __scale_image_rop (ext : Externals) (canvas : CairoCanvas) (region : List pixman_box32_t)
    (src : Image) (src_x src_y src_width src_height dest_x dest_y dest_width dest_height : Int)
    (scale_mode : Int) (rop : Nat) : Except Abort Scaled :=
  let sx : double := double_div (double_of_int src_width) (double_of_int dest_width)
  let sy : double := double_div (double_of_int src_height) (double_of_int dest_height)
  let scaled := pixman_image_create_bits dest_width dest_height
  let region := pixman_region32_translate region (-dest_x) (-dest_y)
  let scaled := pixman_image_set_clip_region32 scaled (some region)
  let transform := pixman_transform_init_scale (pixman_double_to_fixed sx)
    (pixman_double_to_fixed sy)
  let src := pixman_image_set_transform src transform
  let src := pixman_image_set_repeat src pixman_repeat_t.PIXMAN_REPEAT_NONE
  if ¬ (scale_mode = SPICE_IMAGE_SCALE_MODE_INTERPOLATE ∨
      scale_mode = SPICE_IMAGE_SCALE_MODE_NEAREST) then
    Except.error Abort.ASSERT
  else
    let src := pixman_image_set_filter src
      (if scale_mode = SPICE_IMAGE_SCALE_MODE_NEAREST then pixman_filter_t.PIXMAN_FILTER_NEAREST
       else pixman_filter_t.PIXMAN_FILTER_GOOD)
    let scaled := pixman_image_composite32 ext pixman_op_t.PIXMAN_OP_SRC (Source.bits src) none
      scaled (ROUND (double_div (double_of_int src_x) sx))
      (ROUND (double_div (double_of_int src_y) sy)) 0 0 0 0
      dest_width dest_height
    let transform := pixman_transform_identity
    let src := pixman_image_set_transform src transform
    let region := pixman_region32_translate region dest_x dest_y
    let image := region.foldl
      (fun image r =>
        spice_pixman_blit_rop ext image scaled (r.x1 - dest_x) (r.y1 - dest_y) r.x1 r.y1
          (r.x2 - r.x1) (r.y2 - r.y1) rop)
      canvas.image
    let scaled := pixman_image_unref scaled
    Except.ok { canvas := { canvas with image := image }, src := src, region := region,
                scaled := some scaled }

/-- The function `__blend_scale_image`. -/
def __blend_scale_image (ext : Externals) (canvas : CairoCanvas)
    (region : List pixman_box32_t) (src : Image)
    (src_x src_y src_width src_height dest_x dest_y dest_width dest_height : Int)
    (scale_mode : Int) (overall_alpha : Int) : Except Abort Scaled :=
  let sx : double := double_div (double_of_int src_width) (double_of_int dest_width)
  let sy : double := double_div (double_of_int src_height) (double_of_int dest_height)
  let image := pixman_image_set_clip_region32 canvas.image (some region)
  let transform := pixman_transform_init_scale (pixman_double_to_fixed sx)
    (pixman_double_to_fixed sy)
  let mask : Option Source :=
    if overall_alpha ≠ 0xff then
      some (Source.solid
        { red := 0, green := 0, blue := 0, alpha := ((overall_alpha * 0x101) % 2 ^ 16).toNat })
    else none
  let src := pixman_image_set_transform src transform
  let src := pixman_image_set_repeat src pixman_repeat_t.PIXMAN_REPEAT_NONE
  if ¬ (scale_mode = SPICE_IMAGE_SCALE_MODE_INTERPOLATE ∨
      scale_mode = SPICE_IMAGE_SCALE_MODE_NEAREST) then
    Except.error Abort.ASSERT
  else
    let src := pixman_image_set_filter src
      (if scale_mode = SPICE_IMAGE_SCALE_MODE_NEAREST then pixman_filter_t.PIXMAN_FILTER_NEAREST
       else pixman_filter_t.PIXMAN_FILTER_GOOD)
    let image := pixman_image_composite32 ext pixman_op_t.PIXMAN_OP_OVER (Source.bits src) mask
      image (ROUND (double_div (double_of_int src_x) sx))
      (ROUND (double_div (double_of_int src_y) sy)) 0 0 dest_x dest_y
      dest_width dest_height
    let transform := pixman_transform_identity
    let src := pixman_image_set_transform src transform
    let image := pixman_image_set_clip_region32 image none
    Except.ok { canvas := { canvas with image := image }, src := src, region := region,
                scaled := none }

/-- An instance of the uninterpreted pixel arithmetic for the concrete checks:
the interpolating filter reads the pixel under the point, a solid fill is its
blue channel, every operator and raster operation stores the source. -/
def demo_ext : Externals :=
  { sample_good := fun image u v => image.pix (u / 65536) (v / 65536),
    solid_pixel := fun c => c.blue,
    combine := fun _ s _ _ => s,
    rop := fun _ s _ => s }

/-- A 2 × 2 source image with pixel `(x, y)` holding `100 + 10 * y + x`
(reduced modulo 256 away from the image). -/
def demo_src : Image :=
  { width := 2, height := 2, stride := 8, pix := fun x y => ((100 + 10 * y + x) % 256).toNat,
    transform := pixman_transform_identity, clip := none,
    repeat_mode := pixman_repeat_t.PIXMAN_REPEAT_NONE,
    filter := pixman_filter_t.PIXMAN_FILTER_NEAREST, ref_count := 1 }

/-! ## Text rasterizer -/

/-- Modelled from the spec: the string flag of 1-bit glyph coverage
(`SPICE_STRING_FLAGS_RASTER_A1` of the protocol headers). -/
def SPICE_STRING_FLAGS_RASTER_A1 : Nat := 1

/-- Modelled from the spec: the string flag of 4-bit glyph coverage
(`SPICE_STRING_FLAGS_RASTER_A4` of the protocol headers). -/
def SPICE_STRING_FLAGS_RASTER_A4 : Nat := 2

/-- Modelled from the spec: the string flag of 8-bit glyph coverage
(`SPICE_STRING_FLAGS_RASTER_A8` of the protocol headers). -/
def SPICE_STRING_FLAGS_RASTER_A8 : Nat := 4

/-- Modelled from the spec: the compositing mode "copy" of a text command
(`SPICE_ROPD_OP_PUT` of the protocol headers). -/
def SPICE_ROPD_OP_PUT : Nat := 8

/-- Modelled from the spec: the raster operation "straight copy"
(`SPICE_ROP_COPY` of `pixman_utils.h`). -/
def SPICE_ROP_COPY : Nat := 3

/-- The point `SpicePoint`. -/
structure SpicePoint where
  x : Int
  y : Int
  deriving DecidableEq, Repr

/-- The clip `SpiceClip` of a drawing command; only the base canvas reads it. -/
structure SpiceClip where
  type : Nat
  rects : List pixman_box32_t
  deriving DecidableEq, Repr

/-- The string `SpiceString` as far as the text rasterizer reads it. -/
structure SpiceString where
  flags : Nat
  deriving DecidableEq, Repr

/-- The text command `SpiceText`; `str` is the string at
`SPICE_GET_ADDRESS(text->str)`. -/
structure SpiceText where
  str : SpiceString
  back_area : SpiceRect
  fore_brush : SpiceBrush
  back_brush : SpiceBrush
  fore_mode : Nat
  back_mode : Nat
  deriving DecidableEq, Repr

/-- The functions of the base canvas (`canvas_base.c`, `rect.h`) that the text
rasterizer calls; they are parameters of the model. -/
structure BaseCanvas where
  canvas_clip_pixman : List pixman_box32_t → SpiceClip → List pixman_box32_t
  rect_is_empty : SpiceRect → Bool
  draw_brush : CairoCanvas → List pixman_box32_t → SpiceBrush → Nat → CairoCanvas
  canvas_get_str_mask : SpiceString → Nat → Image × SpicePoint
  canvas_get_surface : Nat → Option Image
  canvas_get_image : Nat → Image

/-- The resource calls of `canvas_draw_text`, recorded in call order. -/
inductive Event where
  | touch_brush (brush : SpiceBrush)
  | region_fini_dest
  | region_fini_back
  | draw_brush (region : List pixman_box32_t) (brush : SpiceBrush) (rop : Nat)
  | warn
  | get_pixman_brush (brush : SpiceBrush)
  | get_str_mask (depth : Nat)
  | composite
  | unref_brush
  | unref_str_mask
  deriving DecidableEq, Repr

/-- The call `pixman_region32_init_rect`: the region of one rectangle, empty
when the rectangle is. -/
def pixman_region32_init_rect (x y width height : Int) : List pixman_box32_t :=
  if x < x + width ∧ y < y + height then
    [{ x1 := x, y1 := y, x2 := x + width, y2 := y + height }]
  else []

/-- The call `pixman_region32_not_empty`. -/
def pixman_region32_not_empty (region : List pixman_box32_t) : Bool :=
  !region.isEmpty

/-- The call `pixman_region32_intersect`: the non-empty intersections of a
rectangle of the one region with a rectangle of the other. -/
def pixman_region32_intersect (r1 r2 : List pixman_box32_t) : List pixman_box32_t :=
  (r1.flatMap fun a => r2.map fun b =>
    ({ x1 := max a.x1 b.x1, y1 := max a.y1 b.y1, x2 := min a.x2 b.x2, y2 := min a.y2 b.y2 } :
      pixman_box32_t)).filter
    fun r => decide (r.x1 < r.x2 ∧ r.y1 < r.y2)

/-- The glyph coverage depth chosen from the string flags in
`canvas_draw_text`; `none` is the branch that gives up on vector glyphs. -/
def text_depth (flags : Nat) : Option Nat :=
  if flags &&& SPICE_STRING_FLAGS_RASTER_A1 ≠ 0 then some 1
  else if flags &&& SPICE_STRING_FLAGS_RASTER_A4 ≠ 0 then some 4
  else if flags &&& SPICE_STRING_FLAGS_RASTER_A8 ≠ 0 then some 8
  else none

/-- The background step of `canvas_draw_text` (the block guarded by
`!rect_is_empty(&text->back_area)`). -/
def canvas_draw_text_background (base : BaseCanvas) (canvas : CairoCanvas)
    (dest_region : List pixman_box32_t) (text : SpiceText) :
    Except Abort (CairoCanvas × List Event) :=
  if !base.rect_is_empty text.back_area then
    if text.fore_mode ≠ SPICE_ROPD_OP_PUT then Except.error Abort.ASSERT
    else
      let back_region := pixman_region32_init_rect text.back_area.left text.back_area.top
        (text.back_area.right - text.back_area.left)
        (text.back_area.bottom - text.back_area.top)
      let back_region := pixman_region32_intersect back_region dest_region
      if pixman_region32_not_empty back_region then
        Except.ok (base.draw_brush canvas back_region text.back_brush SPICE_ROP_COPY,
          [Event.draw_brush back_region text.back_brush SPICE_ROP_COPY, Event.region_fini_back])
      else Except.ok (canvas, [Event.region_fini_back])
  else Except.ok (canvas, [])

/-- The glyph step of `canvas_draw_text` (from the brush lookup to the end). -/
def canvas_draw_text_glyphs (ext : Externals) (base : BaseCanvas) (canvas : CairoCanvas)
    (dest_region : List pixman_box32_t) (text : SpiceText) (depth : Nat) :
    Except Abort (CairoCanvas × List Event) :=
  match canvas_get_pixman_brush base.canvas_get_surface base.canvas_get_image canvas
      text.fore_brush with
  | Except.error e => Except.error e
  | Except.ok brush =>
    let mask_pos := base.canvas_get_str_mask text.str depth
    let str_mask := mask_pos.1
    let pos := mask_pos.2
    match brush with
    | some b =>
      let image := pixman_image_set_clip_region32 canvas.image (some dest_region)
      let image := pixman_image_composite32 ext pixman_op_t.PIXMAN_OP_OVER b
        (some (Source.bits str_mask)) image 0 0 0 0 pos.x pos.y str_mask.width str_mask.height
      let image := pixman_image_set_clip_region32 image none
      Except.ok ({ canvas with image := image },
        [Event.get_pixman_brush text.fore_brush, Event.get_str_mask depth, Event.composite,
          Event.unref_brush, Event.unref_str_mask, Event.region_fini_dest])
    | none =>
      Except.ok (canvas,
        [Event.get_pixman_brush text.fore_brush, Event.get_str_mask depth,
          Event.unref_str_mask, Event.region_fini_dest])

/-- The function `canvas_draw_text`: the canvas after the call and the resource
calls made, or the fatal exit. -/
def canvas_draw_text (ext : Externals) (base : BaseCanvas) (canvas : CairoCanvas)
    (bbox : SpiceRect) (clip : SpiceClip) (text : SpiceText) :
    Except Abort (CairoCanvas × List Event) :=
  let dest_region := pixman_region32_init_rect bbox.left bbox.top (bbox.right - bbox.left)
    (bbox.bottom - bbox.top)
  let dest_region := base.canvas_clip_pixman dest_region clip
  if !pixman_region32_not_empty dest_region then
    Except.ok (canvas,
      [Event.touch_brush text.fore_brush, Event.touch_brush text.back_brush,
        Event.region_fini_dest])
  else
    match canvas_draw_text_background base canvas dest_region text with
    | Except.error e => Except.error e
    | Except.ok (canvas, back_events) =>
      match text_depth text.str.flags with
      | none => Except.ok (canvas, back_events ++ [Event.warn, Event.region_fini_dest])
      | some depth =>
        match canvas_draw_text_glyphs ext base canvas dest_region text depth with
        | Except.error e => Except.error e
        | Except.ok (canvas, glyph_events) =>
          Except.ok (canvas,
            back_events ++ (if depth = 8 then [Event.warn] else []) ++ glyph_events)

/-- An instance of the base canvas for the concrete checks: the clip keeps the
rectangles listed in it, an area is empty when it has no width or no height,
the background brush paints its colour, the glyph mask is a fresh 2 × 2
buffer at the origin, and no surface is registered. -/
def demo_base : BaseCanvas :=
  { canvas_clip_pixman := fun region clip =>
      if clip.type = 0 then region else pixman_region32_intersect region clip.rects,
    rect_is_empty := fun r => decide (r.top = r.bottom ∨ r.left = r.right),
    draw_brush := fun canvas region brush _ => fill_solid_rects canvas region brush.color,
    canvas_get_str_mask := fun _ _ => (pixman_image_create_bits 2 2, { x := 0, y := 0 }),
    canvas_get_surface := fun _ => none,
    canvas_get_image := fun _ => demo_image }

/-- A text command for the concrete checks: no raster flag, no background. -/
def demo_text : SpiceText :=
  { str := { flags := 0 }, back_area := { left := 0, top := 0, right := 0, bottom := 0 },
    fore_brush := { type := 1, color := 0xffffff, pattern := ⟨0, 0, 0⟩ },
    back_brush := { type := 1, color := 0, pattern := ⟨0, 0, 0⟩ },
    fore_mode := 8, back_mode := 8 }

/-! ## Statements of the specification and inputs of the concrete checks -/

/-- The expansion of a 5-bit channel value to 8 bits that section 4.1 calls
bit replication: `(v << 3) | (v >> 2)`, the top three bits of `v` repeated in
the low three bits. -/
def replicate_top_bits (v : Nat) : Nat := (v <<< 3) ||| (v >>> 2)

/-- A text command with a background area, whose foreground mode is OR and
whose background mode is copy. -/
def demo_text_fore_or : SpiceText :=
  { demo_text with
    back_area := { left := 0, top := 0, right := 1, bottom := 1 },
    fore_mode := 16, back_mode := SPICE_ROPD_OP_PUT }

/-- A text command with a background area, whose foreground mode is copy and
whose background mode is OR. -/
def demo_text_back_or : SpiceText :=
  { demo_text with
    back_area := { left := 0, top := 0, right := 1, bottom := 1 },
    fore_mode := SPICE_ROPD_OP_PUT, back_mode := 16 }

/-! ## Solid fills with a raster operation -/

/-- Modelled from the spec: `spice_pixman_fill_rect_rop` of `pixman_utils.c`,
the "rectangle fill with ROP" primitive of section 2: every pixel of the
`width × height` block at `(x, y)` is combined by the raster operation with
`value`. -/
def spice_pixman_fill_rect_rop (ext : Externals) (dest : Image) (x y width height : Int)
    (value : Nat) (rop : Nat) : Image :=
  { dest with
    pix := fun px py =>
      if x ≤ px ∧ px < x + width ∧ y ≤ py ∧ py < y + height then
        ext.rop rop value (dest.pix px py)
      else dest.pix px py }

/-- The function `fill_solid_rects_rop`: one `spice_pixman_fill_rect_rop` call
per rectangle, in list order. -/
def fill_solid_rects_rop (ext : Externals) (canvas : CairoCanvas)
    (rects : List pixman_box32_t) (color : Nat) (rop : Nat) : CairoCanvas :=
  { canvas with
    image := rects.foldl
      (fun image r =>
        spice_pixman_fill_rect_rop ext image r.x1 r.y1 (r.x2 - r.x1) (r.y2 - r.y1)
          (get_color canvas color) rop)
      canvas.image }

/-- The arguments of one call of a fill primitive. -/
structure FillCall where
  x : Int
  y : Int
  width : Int
  height : Int
  value : Nat
  deriving DecidableEq, Repr

/-- The calls of the fill primitive that the loop of `fill_solid_rects` and of
`fill_solid_rects_rop` issues, in call order. -/
def fill_solid_rects_calls (canvas : CairoCanvas) (rects : List pixman_box32_t)
    (color : Nat) : List FillCall :=
  rects.map fun r =>
    { x := r.x1, y := r.y1, width := r.x2 - r.x1, height := r.y2 - r.y1,
      value := get_color canvas color }

/-- Two rectangles have no pixel in common: one lies entirely to one side of
the other. -/
def boxes_disjoint (a b : pixman_box32_t) : Prop :=
  a.x2 ≤ b.x1 ∨ b.x2 ≤ a.x1 ∨ a.y2 ≤ b.y1 ∨ b.y2 ≤ a.y1

instance boxes_disjoint_decidable : DecidableRel boxes_disjoint := fun a b => by
  unfold boxes_disjoint; exact inferInstance

/-! ## The call orders stated for `copy_region` -/

/-- The indices `lo, lo + 1, ..., lo + len - 1` in ascending order. -/
def int_range : Int → Nat → List Int
  | _, 0 => []
  | lo, len + 1 => lo :: int_range (lo + 1) len

/-- The entry with value `t` and index `k` put in front of the runs of the
entries `rest` that follow it: it joins the first run when the next entry has
the same value, and is a run of its own otherwise. -/
def top_runs_step (t k : Int) (rest : List Int) (runs : List (List Int)) : List (List Int) :=
  match rest, runs with
  | t' :: _, run :: runs => if t = t' then (k :: run) :: runs else [k] :: run :: runs
  | _, _ => [[k]]

/-- The maximal runs of consecutive entries with the same value in a list of
rectangle tops, each run as the list of its indices in ascending order; `k` is
the index of the first entry. -/
def top_runs : List Int → Int → List (List Int)
  | [], _ => []
  | t :: rest, k => top_runs_step t k rest (top_runs rest (k + 1))

/-- The order section 4.3 states for the south-west branch: the runs of equal
tops from the last run to the first, each run in ascending index order. -/
def south_west_order (rects : List pixman_box32_t) : List Int :=
  (top_runs (rects.map fun r => r.y1) 0).reverse.flatten

/-- The order section 4.3 states for the north-east branch: the runs of equal
tops from the first run to the last, each run in descending index order. -/
def north_east_order (rects : List pixman_box32_t) : List Int :=
  ((top_runs (rects.map fun r => r.y1) 0).map List.reverse).flatten

/-- Five rectangles of two bands, with tops `[0, 0, 5, 5, 5]`. -/
def demo_rects : List pixman_box32_t :=
  [⟨0, 0, 1, 5⟩, ⟨2, 0, 3, 5⟩, ⟨0, 5, 1, 6⟩, ⟨1, 5, 2, 6⟩, ⟨3, 5, 4, 6⟩]

/-! ## The temporary buffer of the scaled ROP blit -/

/-- The 4 × 4 surface filled with one colour. -/
def demo_filled : Image :=
  (fill_solid_rects demo_canvas [⟨0, 0, 4, 4⟩] 0x336699).image

/-- The temporary buffer of `__scale_image_rop` as it is when the per-rectangle
blits read it: created by `pixman_image_create_bits` with the size of the
destination rectangle, clipped to the region translated by
`(-dest_x, -dest_y)`, and holding the scaled source drawn by
`pixman_image_composite32`. -/
def scale_image_rop_temporary (ext : Externals) (region : List pixman_box32_t) (src : Image)
    (src_x src_y src_width src_height dest_x dest_y dest_width dest_height : Int)
    (scale_mode : Int) : Image :=
  let sx : double := double_div (double_of_int src_width) (double_of_int dest_width)
  let sy : double := double_div (double_of_int src_height) (double_of_int dest_height)
  let scaled := pixman_image_create_bits dest_width dest_height
  let scaled := pixman_image_set_clip_region32 scaled
    (some (pixman_region32_translate region (-dest_x) (-dest_y)))
  let src := pixman_image_set_transform src
    (pixman_transform_init_scale (pixman_double_to_fixed sx) (pixman_double_to_fixed sy))
  let src := pixman_image_set_repeat src pixman_repeat_t.PIXMAN_REPEAT_NONE
  let src := pixman_image_set_filter src
    (if scale_mode = SPICE_IMAGE_SCALE_MODE_NEAREST then pixman_filter_t.PIXMAN_FILTER_NEAREST
     else pixman_filter_t.PIXMAN_FILTER_GOOD)
  pixman_image_composite32 ext pixman_op_t.PIXMAN_OP_SRC (Source.bits src) none
    scaled (ROUND (double_div (double_of_int src_x) sx))
      (ROUND (double_div (double_of_int src_y) sy)) 0 0 0 0 dest_width dest_height

/-! ## The row copies stated for `canvas_read_bits` -/

/-- The row copies as the specification states them: `rows` calls of `memcpy`,
one per output row `r = 0, 1, ..., rows - 1` in ascending order, each of
`dest_stride` bytes, from the surface bytes at offset `src + r * src_stride` to
the caller buffer at offset `r * dest_stride`. -/
def read_bits_row_copies (image : Image) (dest_stride src_stride src : Int) (rows : Nat)
    (out : Int → Nat) : Int → Nat :=
  (int_range 0 rows).foldl
    (fun out r => memcpy_from_image image out (r * dest_stride) (src + r * src_stride) dest_stride)
    out

/-! ## Scaled colour-key blit -/

/-- The function `__colorkey_scale_image`.  It has no assertion: the filter of
the source is always `PIXMAN_FILTER_NEAREST`. -/
def __colorkey_scale_image (ext : Externals) (canvas : CairoCanvas)
    (region : List pixman_box32_t) (src : Image)
    (src_x src_y src_width src_height dest_x dest_y dest_width dest_height : Int)
    (transparent_color : Nat) : Scaled :=
  let sx : double := double_div (double_of_int src_width) (double_of_int dest_width)
  let sy : double := double_div (double_of_int src_height) (double_of_int dest_height)
  let scaled := pixman_image_create_bits dest_width dest_height
  let region := pixman_region32_translate region (-dest_x) (-dest_y)
  let scaled := pixman_image_set_clip_region32 scaled (some region)
  let transform := pixman_transform_init_scale (pixman_double_to_fixed sx)
    (pixman_double_to_fixed sy)
  let src := pixman_image_set_transform src transform
  let src := pixman_image_set_repeat src pixman_repeat_t.PIXMAN_REPEAT_NONE
  let src := pixman_image_set_filter src pixman_filter_t.PIXMAN_FILTER_NEAREST
  let scaled := pixman_image_composite32 ext pixman_op_t.PIXMAN_OP_SRC (Source.bits src) none
    scaled (ROUND (double_div (double_of_int src_x) sx))
      (ROUND (double_div (double_of_int src_y) sy)) 0 0 0 0
    dest_width dest_height
  let transform := pixman_transform_identity
  let src := pixman_image_set_transform src transform
  let region := pixman_region32_translate region dest_x dest_y
  let image := region.foldl
    (fun image r =>
      spice_pixman_blit_colorkey image scaled (r.x1 - dest_x) (r.y1 - dest_y) r.x1 r.y1
        (r.x2 - r.x1) (r.y2 - r.y1) transparent_color)
    canvas.image
  let scaled := pixman_image_unref scaled
  { canvas := { canvas with image := image }, src := src, region := region,
    scaled := some scaled }

/-- The temporary buffer of `__colorkey_scale_image` as it is when the
per-rectangle blits read it. -/
def colorkey_scale_image_temporary (ext : Externals) (region : List pixman_box32_t)
    (src : Image)
    (src_x src_y src_width src_height dest_x dest_y dest_width dest_height : Int) : Image :=
  let sx : double := double_div (double_of_int src_width) (double_of_int dest_width)
  let sy : double := double_div (double_of_int src_height) (double_of_int dest_height)
  let scaled := pixman_image_create_bits dest_width dest_height
  let scaled := pixman_image_set_clip_region32 scaled
    (some (pixman_region32_translate region (-dest_x) (-dest_y)))
  let src := pixman_image_set_transform src
    (pixman_transform_init_scale (pixman_double_to_fixed sx) (pixman_double_to_fixed sy))
  let src := pixman_image_set_repeat src pixman_repeat_t.PIXMAN_REPEAT_NONE
  let src := pixman_image_set_filter src pixman_filter_t.PIXMAN_FILTER_NEAREST
  pixman_image_composite32 ext pixman_op_t.PIXMAN_OP_SRC (Source.bits src) none
    scaled (ROUND (double_div (double_of_int src_x) sx))
      (ROUND (double_div (double_of_int src_y) sy)) 0 0 0 0 dest_width dest_height

/-- The coordinates of every rectangle of `region` moved by `(x, y)` are values
of the type `int32_t`, so `pixman_region32_translate` moves the rectangles
without overflow. -/
def translate_fits (region : List pixman_box32_t) (x y : Int) : Bool :=
  region.all fun r =>
    decide (-2147483648 ≤ r.x1 + x ∧ r.x1 + x ≤ 2147483647 ∧
      -2147483648 ≤ r.y1 + y ∧ r.y1 + y ≤ 2147483647 ∧
      -2147483648 ≤ r.x2 + x ∧ r.x2 + x ≤ 2147483647 ∧
      -2147483648 ≤ r.y2 + y ∧ r.y2 + y ≤ 2147483647)

/-- A text command without raster flag whose background area is the block
`[1, 3) × [1, 3)`, painted with colour 7. -/
def demo_text_background : SpiceText :=
  { demo_text with
    back_area := { left := 1, top := 1, right := 3, bottom := 3 },
    back_brush := { type := 1, color := 7, pattern := ⟨0, 0, 0⟩ } }

/-! ## Creation and one-time initialisation -/

/-- The entries of the operation table `SpiceCanvasOps` that
`cairo_canvas_init` assigns, named as in the source. -/
inductive OpSlot where
  | draw_text | put_image | clear | read_bits | set_access_params | destroy
  | fill_solid_spans | fill_solid_rects | fill_solid_rects_rop | fill_tiled_rects
  | fill_tiled_rects_from_surface | fill_tiled_rects_rop | fill_tiled_rects_rop_from_surface
  | blit_image | blit_image_from_surface | blit_image_rop | blit_image_rop_from_surface
  | scale_image | scale_image_from_surface | scale_image_rop | scale_image_rop_from_surface
  | blend_image | blend_image_from_surface | blend_scale_image
  | blend_scale_image_from_surface | colorkey_image | colorkey_image_from_surface
  | colorkey_scale_image | colorkey_scale_image_from_surface | copy_region | get_image
  deriving DecidableEq, Repr

/-- What an entry of the operation table points to: nothing (the table is a
zero-initialised static), the function the base canvas installs, or the
function of this file that bears the name of the entry. -/
inductive OpImpl where
  | null
  | base
  | cairo
  deriving DecidableEq, Repr

/-- The operation table `SpiceCanvasOps`, as far as this file writes it. -/
structure SpiceCanvasOps where
  entry : OpSlot → OpImpl

/-- The statics of the file together with the effect of `rop3_init`:
`need_init`, `cairo_canvas_ops`, and the number of calls of `rop3_init` made
so far. -/
structure Globals where
  need_init : Int
  cairo_canvas_ops : SpiceCanvasOps
  rop3_init_calls : Nat

/-- The statics at program start: `static int need_init = 1;` and the
zero-initialised `static SpiceCanvasOps cairo_canvas_ops;`. -/
def globals_at_start : Globals :=
  { need_init := 1, cairo_canvas_ops := { entry := fun _ => OpImpl.null }, rop3_init_calls := 0 }

/-- What `canvas_base_init` leaves behind: its return value `init_ok` and the
fields of the base canvas that the drawing code reads. -/
structure BaseInit where
  init_ok : Int
  color_shift : Int
  color_mask : Nat

/-- The functions of pixman and of `canvas_base.c` that creation and
initialisation call; they are parameters of the model.  The argument `bits` of
`pixman_image_create_bits` is `none` for the null pointer. -/
structure Library where
  spice_surface_format_to_pixman : Nat → Nat
  pixman_image_create_bits : Nat → Int → Int → Option (Int → Nat) → Int → Image
  canvas_base_init : SpiceCanvasOps → Int → Int → Nat → BaseInit
  canvas_base_init_ops : SpiceCanvasOps → SpiceCanvasOps

/-- The statement `cairo_canvas_ops.slot = slot;` for an entry and the function
of this file of the same name. -/
def assign_op (ops : SpiceCanvasOps) (slot : OpSlot) : SpiceCanvasOps :=
  { entry := fun s => if s = slot then OpImpl.cairo else ops.entry s }

/-- The function `canvas_create_common`; `none` is the return value `NULL`.
The value `init_ok` is computed and never read. -/
def canvas_create_common (lib : Library) (g : Globals) (image : Image) (format : Nat) :
    Option CairoCanvas :=
  if g.need_init ≠ 0 then none
  else
    let base := lib.canvas_base_init g.cairo_canvas_ops image.width
      image.height format
    let _init_ok := base.init_ok
    some { color_shift := base.color_shift, color_mask := base.color_mask,
           private_data := none, private_data_size := 0, image := image }

/-- The function `canvas_create`. -/
def canvas_create (lib : Library) (g : Globals) (width height : Int) (format : Nat) :
    Option CairoCanvas :=
  let image := lib.pixman_image_create_bits (lib.spice_surface_format_to_pixman format)
    width height none 0
  canvas_create_common lib g image format

/-- The function `canvas_create_for_data`. -/
def canvas_create_for_data (lib : Library) (g : Globals) (width height : Int) (format : Nat)
    (data : Int → Nat) (stride : Int) : Option CairoCanvas :=
  let image := lib.pixman_image_create_bits (lib.spice_surface_format_to_pixman format)
    width height (some data) stride
  canvas_create_common lib g image format

/-- The function `cairo_canvas_init`. -/
def cairo_canvas_init (lib : Library) (g : Globals) : Globals :=
  if g.need_init = 0 then g
  else
    let ops := lib.canvas_base_init_ops g.cairo_canvas_ops
    let ops := assign_op ops OpSlot.draw_text
    let ops := assign_op ops OpSlot.put_image
    let ops := assign_op ops OpSlot.clear
    let ops := assign_op ops OpSlot.read_bits
    let ops := assign_op ops OpSlot.set_access_params
    let ops := assign_op ops OpSlot.destroy
    let ops := assign_op ops OpSlot.fill_solid_spans
    let ops := assign_op ops OpSlot.fill_solid_rects
    let ops := assign_op ops OpSlot.fill_solid_rects_rop
    let ops := assign_op ops OpSlot.fill_tiled_rects
    let ops := assign_op ops OpSlot.fill_tiled_rects_from_surface
    let ops := assign_op ops OpSlot.fill_tiled_rects_rop
    let ops := assign_op ops OpSlot.fill_tiled_rects_rop_from_surface
    let ops := assign_op ops OpSlot.blit_image
    let ops := assign_op ops OpSlot.blit_image_from_surface
    let ops := assign_op ops OpSlot.blit_image_rop
    let ops := assign_op ops OpSlot.blit_image_rop_from_surface
    let ops := assign_op ops OpSlot.scale_image
    let ops := assign_op ops OpSlot.scale_image_from_surface
    let ops := assign_op ops OpSlot.scale_image_rop
    let ops := assign_op ops OpSlot.scale_image_rop_from_surface
    let ops := assign_op ops OpSlot.blend_image
    let ops := assign_op ops OpSlot.blend_image_from_surface
    let ops := assign_op ops OpSlot.blend_scale_image
    let ops := assign_op ops OpSlot.blend_scale_image_from_surface
    let ops := assign_op ops OpSlot.colorkey_image
    let ops := assign_op ops OpSlot.colorkey_image_from_surface
    let ops := assign_op ops OpSlot.colorkey_scale_image
    let ops := assign_op ops OpSlot.colorkey_scale_image_from_surface
    let ops := assign_op ops OpSlot.copy_region
    let ops := assign_op ops OpSlot.get_image
    { need_init := 0, cairo_canvas_ops := ops, rop3_init_calls := g.rop3_init_calls + 1 }

/-- The statics after `calls` calls of `cairo_canvas_init` since program
start. -/
def globals_after (lib : Library) : Nat → Globals
  | 0 => globals_at_start
  | calls + 1 => cairo_canvas_init lib (globals_after lib calls)

/-- An instance of the library for the concrete checks: every surface format
maps to format 0, a buffer created without storage is the zero-filled one, a
buffer created on caller storage shows the bytes of that storage, and the
initialisation of the base canvas fails (`init_ok = 0`). -/
def demo_library : Library :=
  { spice_surface_format_to_pixman := fun _ => 0,
    pixman_image_create_bits := fun _ width height bits stride =>
      match bits with
      | none => pixman_image_create_bits width height
      | some data =>
        { pixman_image_create_bits width height with
          stride := stride,
          pix := fun x y => word_at data (y * stride + 4 * x) },
    canvas_base_init := fun _ _ _ _ => { init_ok := 0, color_shift := 8, color_mask := 0xff },
    canvas_base_init_ops := fun _ => { entry := fun _ => OpImpl.base } }

/-- An 8 × 1 source image with pixel `(x, 0)` holding `100 + x`. -/
def demo_strip : Image :=
  { width := 8, height := 1, stride := 32, pix := fun x _ => (100 + x).toNat,
    transform := pixman_transform_identity, clip := none,
    repeat_mode := pixman_repeat_t.PIXMAN_REPEAT_NONE,
    filter := pixman_filter_t.PIXMAN_FILTER_NEAREST, ref_count := 1 }

/-! # Proofs -/

set_option exponentiation.threshold 4096

/-! ## Reading the rectangle list -/

theorem rect_at_eq_some {rects : List pixman_box32_t} {i : Int} {r : pixman_box32_t} :
    rect_at rects i = some r ↔ 0 ≤ i ∧ rects[i.toNat]? = some r := by
  unfold rect_at
  by_cases h : i < 0
  · simp only [h, if_true]
    constructor
    · intro h'; cases h'
    · intro h'; omega
  · simp only [h, if_false]
    constructor
    · intro h'; exact ⟨by omega, h'⟩
    · intro h'; exact h'.2

theorem rect_at_isSome {rects : List pixman_box32_t} {i : Int}
    (h0 : 0 ≤ i) (h1 : i < rects.length) : ∃ r, rect_at rects i = some r := by
  have hlt : i.toNat < rects.length := by omega
  refine ⟨rects[i.toNat], ?_⟩
  rw [rect_at_eq_some]
  exact ⟨h0, List.getElem?_eq_getElem hlt⟩

theorem rect_at_range {rects : List pixman_box32_t} {i : Int} {r : pixman_box32_t}
    (h : rect_at rects i = some r) : 0 ≤ i ∧ i < rects.length := by
  rw [rect_at_eq_some] at h
  obtain ⟨h0, h1⟩ := h
  obtain ⟨hlt, _⟩ := List.getElem?_eq_some.1 h1
  omega

theorem rect_at_mem {rects : List pixman_box32_t} {i : Int} {r : pixman_box32_t}
    (h : rect_at rects i = some r) : r ∈ rects := by
  rw [rect_at_eq_some] at h
  exact List.getElem?_mem h.2

theorem mem_rect_at {rects : List pixman_box32_t} {r : pixman_box32_t}
    (h : r ∈ rects) : ∃ i : Int, rect_at rects i = some r := by
  obtain ⟨n, hn, rfl⟩ := List.getElem_of_mem h
  refine ⟨(n : Int), ?_⟩
  rw [rect_at_eq_some]
  refine ⟨by omega, ?_⟩
  simp [List.getElem?_eq_getElem hn]

theorem copy_region_nw_spec (n : Int) :
    ∀ (fuel : Nat) (i : Int), i ≤ n → n - i < fuel →
      ∃ order, copy_region_nw n fuel i = some order ∧
        (∀ k, k ∈ order ↔ i ≤ k ∧ k < n) ∧ order.Pairwise (fun a b => a < b) := by
  intro fuel
  induction fuel with
  | zero => intro i h0 h; exfalso; simp at h; omega
  | succ f ih =>
    intro i h0 h
    unfold copy_region_nw
    by_cases hi : i < n
    · obtain ⟨rest, hrest, hmem, hpw⟩ := ih (i + 1) (by omega) (by push_cast at h; omega)
      refine ⟨i :: rest, by simp [hi, hrest], ?_, ?_⟩
      · intro k; simp [hmem]; omega
      · rw [List.pairwise_cons]
        refine ⟨fun b hb => ?_, hpw⟩
        have := (hmem b).1 hb; omega
    · refine ⟨[], by simp [hi], ?_, List.Pairwise.nil⟩
      intro k; simp; omega

theorem copy_region_se_spec :
    ∀ (fuel : Nat) (i : Int), -1 ≤ i → i + 1 < fuel →
      ∃ order, copy_region_se fuel i = some order ∧
        (∀ k, k ∈ order ↔ 0 ≤ k ∧ k ≤ i) ∧ order.Pairwise (fun a b => b < a) := by
  intro fuel
  induction fuel with
  | zero => intro i h0 h; exfalso; simp at h; omega
  | succ f ih =>
    intro i h0 h
    unfold copy_region_se
    by_cases hi : i ≥ 0
    · obtain ⟨rest, hrest, hmem, hpw⟩ := ih (i - 1) (by omega) (by push_cast at h; omega)
      refine ⟨i :: rest, by simp [hi, hrest], ?_, ?_⟩
      · intro k; simp [hmem]; omega
      · rw [List.pairwise_cons]
        refine ⟨fun b hb => ?_, hpw⟩
        have := (hmem b).1 hb; omega
    · refine ⟨[], by simp [hi], ?_, List.Pairwise.nil⟩
      intro k; simp; omega

theorem for_up_spec (i : Int) :
    ∀ (fuel : Nat) (j : Int), j ≤ i + 1 → i + 1 - j < fuel →
      ∃ order, for_up fuel j i = some order ∧
        (∀ k, k ∈ order ↔ j ≤ k ∧ k ≤ i) ∧ order.Pairwise (fun a b => a < b) := by
  intro fuel
  induction fuel with
  | zero => intro j h0 h; exfalso; simp at h; omega
  | succ f ih =>
    intro j h0 h
    unfold for_up
    by_cases hi : j ≤ i
    · obtain ⟨rest, hrest, hmem, hpw⟩ := ih (j + 1) (by omega) (by push_cast at h; omega)
      refine ⟨j :: rest, by simp [hi, hrest], ?_, ?_⟩
      · intro k; simp [hmem]; omega
      · rw [List.pairwise_cons]
        refine ⟨fun b hb => ?_, hpw⟩
        have := (hmem b).1 hb; omega
    · refine ⟨[], by simp [hi], ?_, List.Pairwise.nil⟩
      intro k; simp; omega

theorem for_down_spec (i : Int) :
    ∀ (fuel : Nat) (j : Int), i - 1 ≤ j → j + 1 - i < fuel →
      ∃ order, for_down fuel j i = some order ∧
        (∀ k, k ∈ order ↔ i ≤ k ∧ k ≤ j) ∧ order.Pairwise (fun a b => b < a) := by
  intro fuel
  induction fuel with
  | zero => intro j h0 h; exfalso; simp at h; omega
  | succ f ih =>
    intro j h0 h
    unfold for_down
    by_cases hi : j ≥ i
    · obtain ⟨rest, hrest, hmem, hpw⟩ := ih (j - 1) (by omega) (by push_cast at h; omega)
      refine ⟨j :: rest, by simp [hi, hrest], ?_, ?_⟩
      · intro k; simp [hmem]; omega
      · rw [List.pairwise_cons]
        refine ⟨fun b hb => ?_, hpw⟩
        have := (hmem b).1 hb; omega
    · refine ⟨[], by simp [hi], ?_, List.Pairwise.nil⟩
      intro k; simp; omega

theorem box_contains_iff {r : pixman_box32_t} {x y : Int} :
    box_contains r x y = true ↔ r.x1 ≤ x ∧ x < r.x2 ∧ r.y1 ≤ y ∧ y < r.y2 := by
  simp [box_contains, and_assoc]

theorem box_contains_false_iff {r : pixman_box32_t} {x y : Int} :
    box_contains r x y = false ↔ ¬ (r.x1 ≤ x ∧ x < r.x2 ∧ r.y1 ≤ y ∧ y < r.y2) := by
  rw [← box_contains_iff]; simp

theorem covered_iff {rects : List pixman_box32_t} {order : List Int} {x y : Int} :
    covered rects order x y = true ↔
      ∃ k ∈ order, ∃ r, rect_at rects k = some r ∧ box_contains r x y = true := by
  unfold covered
  rw [List.any_eq_true]
  constructor
  · rintro ⟨k, hk, h⟩
    cases hr : rect_at rects k with
    | none => simp [hr] at h
    | some r => exact ⟨k, hk, r, hr, by simpa [hr] using h⟩
  · rintro ⟨k, hk, r, hr, h⟩
    exact ⟨k, hk, by simpa [hr] using h⟩

theorem region_contains_iff {rects : List pixman_box32_t} {x y : Int} :
    region_contains rects x y = true ↔ ∃ r ∈ rects, box_contains r x y = true := by
  unfold region_contains
  rw [List.any_eq_true]

theorem covered_eq_region_contains {rects : List pixman_box32_t} {order : List Int}
    (hmem : ∀ k, k ∈ order ↔ 0 ≤ k ∧ k < (rects.length : Int)) (x y : Int) :
    covered rects order x y = region_contains rects x y := by
  rw [Bool.eq_iff_iff, covered_iff, region_contains_iff]
  constructor
  · rintro ⟨k, _, r, hr, h⟩
    exact ⟨r, rect_at_mem hr, h⟩
  · rintro ⟨r, hr, h⟩
    obtain ⟨i, hi⟩ := mem_rect_at hr
    exact ⟨i, (hmem i).2 (rect_at_range hi), r, hi, h⟩

theorem copy_region_run_spec (rects : List pixman_box32_t) (dx dy : Int) :
    ∀ (order : List Int) (cur : Image),
      (∀ k ∈ order, 0 ≤ k ∧ k < (rects.length : Int)) →
      order.Pairwise (source_clear_at rects dx dy) →
      copy_region_run rects dx dy cur order =
        some { cur with
          pix := fun x y =>
            if covered rects order x y then cur.pix (x - dx) (y - dy) else cur.pix x y } := by
  intro order
  induction order with
  | nil => intro cur _ _; simp [copy_region_run, covered]
  | cons i rest ih =>
    intro cur hrange hpw
    obtain ⟨hi0, hi1⟩ := hrange i (List.mem_cons_self _ _)
    obtain ⟨ri, hri⟩ := rect_at_isSome hi0 hi1
    rw [List.pairwise_cons] at hpw
    have hrest := ih (spice_pixman_copy_rect cur (ri.x1 - dx) (ri.y1 - dy) (ri.x2 - ri.x1)
      (ri.y2 - ri.y1) ri.x1 ri.y1) (fun k hk => hrange k (List.mem_cons_of_mem _ hk)) hpw.2
    simp only [copy_region_run, copy_region_body, hri, Option.map_some', Option.some_bind, hrest]
    congr 1
    simp only [spice_pixman_copy_rect]
    congr 1
    funext x y
    have hcov : covered rects (i :: rest) x y = (box_contains ri x y || covered rects rest x y) := by
      simp [covered, hri]
    rw [hcov]
    by_cases hc : covered rects rest x y = true
    · -- the pixel is written by a later copy, whose source the copy of `i` left alone
      obtain ⟨k, hk, rk, hrk, hin⟩ := covered_iff.1 hc
      have hclear := hpw.1 k hk ri rk hri hrk x y hin
      rw [box_contains_false_iff] at hclear
      have hno : ¬ (ri.x1 ≤ x - dx ∧ x - dx < ri.x1 + (ri.x2 - ri.x1) ∧
          ri.y1 ≤ y - dy ∧ y - dy < ri.y1 + (ri.y2 - ri.y1)) := by
        intro h; apply hclear; omega
      simp only [hc, hno, Bool.or_true, if_true, if_false]
    · have hc' : covered rects rest x y = false := by simpa using hc
      by_cases hb : box_contains ri x y = true
      · have hb' := box_contains_iff.1 hb
        have hyes : ri.x1 ≤ x ∧ x < ri.x1 + (ri.x2 - ri.x1) ∧
            ri.y1 ≤ y ∧ y < ri.y1 + (ri.y2 - ri.y1) := by omega
        have e1 : x - ri.x1 + (ri.x1 - dx) = x - dx := by omega
        have e2 : y - ri.y1 + (ri.y1 - dy) = y - dy := by omega
        simp only [hc', hb, hyes, e1, e2, Bool.or_false, and_self, if_true, if_false, Bool.false_eq_true]
      · have hb' : box_contains ri x y = false := by simpa using hb
        have hno : ¬ (ri.x1 ≤ x ∧ x < ri.x1 + (ri.x2 - ri.x1) ∧
            ri.y1 ≤ y ∧ y < ri.y1 + (ri.y2 - ri.y1)) := by
          intro h; apply hb; rw [box_contains_iff]; omega
        simp only [hc', hb', hno, Bool.or_false, if_true, if_false, Bool.false_eq_true]

theorem banded_at {rects : List pixman_box32_t} (hb : banded rects) {a b : Int}
    {ra rb : pixman_box32_t} (hab : a < b) (ha : rect_at rects a = some ra)
    (hb' : rect_at rects b = some rb) : band_order ra rb := by
  rw [rect_at_eq_some] at ha hb'
  obtain ⟨ha0, ha1⟩ := ha
  obtain ⟨hb0, hb1⟩ := hb'
  obtain ⟨hla, hea⟩ := List.getElem?_eq_some.1 ha1
  obtain ⟨hlb, heb⟩ := List.getElem?_eq_some.1 hb1
  have h := (List.pairwise_iff_getElem.1 hb.2) a.toNat b.toNat hla hlb (by omega)
  rw [hea, heb] at h
  exact h

theorem banded_nonempty {rects : List pixman_box32_t} (hb : banded rects) {a : Int}
    {ra : pixman_box32_t} (ha : rect_at rects a = some ra) : ra.x1 < ra.x2 ∧ ra.y1 < ra.y2 :=
  hb.1 ra (rect_at_mem ha)

theorem band_order_y1_le {ra rb : pixman_box32_t} (h : band_order ra rb) (hne : ra.y1 < ra.y2) :
    ra.y1 ≤ rb.y1 := by
  unfold band_order at h
  omega

theorem source_clear_of_below {dx dy : Int} {ra rb : pixman_box32_t} (hdy : dy > 0)
    (h : rb.y2 ≤ ra.y1) : source_clear dx dy ra rb := by
  intro x y hin
  rw [box_contains_iff] at hin
  rw [box_contains_false_iff]
  omega

theorem source_clear_of_above {dx dy : Int} {ra rb : pixman_box32_t} (hdy : dy ≤ 0)
    (h : ra.y2 ≤ rb.y1) : source_clear dx dy ra rb := by
  intro x y hin
  rw [box_contains_iff] at hin
  rw [box_contains_false_iff]
  omega

theorem source_clear_of_left {dx dy : Int} {ra rb : pixman_box32_t} (hdx : dx ≤ 0)
    (h : ra.x2 ≤ rb.x1) : source_clear dx dy ra rb := by
  intro x y hin
  rw [box_contains_iff] at hin
  rw [box_contains_false_iff]
  omega

theorem source_clear_of_right {dx dy : Int} {ra rb : pixman_box32_t} (hdx : dx ≥ 0)
    (h : rb.x2 ≤ ra.x1) : source_clear dx dy ra rb := by
  intro x y hin
  rw [box_contains_iff] at hin
  rw [box_contains_false_iff]
  omega

theorem sw_end_line_spec {rects : List pixman_box32_t} {i : Int} {ri : pixman_box32_t}
    (hri : rect_at rects i = some ri) :
    ∀ (fuel : Nat) (e : Int), -1 ≤ e → e < rects.length → e + 1 < fuel →
      ∃ e', sw_end_line rects i fuel e = some e' ∧ -1 ≤ e' ∧ e' ≤ e ∧
        (∀ k rk, e' < k → k ≤ e → rect_at rects k = some rk → rk.y1 = ri.y1) ∧
        (∀ re, rect_at rects e' = some re → re.y1 ≠ ri.y1) := by
  intro fuel
  induction fuel with
  | zero => intro e h0 _ h; exfalso; simp at h; omega
  | succ f ih =>
    intro e h0 hn h
    unfold sw_end_line
    by_cases he : e ≥ 0
    · obtain ⟨re, hre⟩ := rect_at_isSome he hn
      by_cases hy : re.y1 = ri.y1
      · obtain ⟨e', he', hlo, hhi, hsame, hstop⟩ :=
          ih (e - 1) (by omega) (by omega) (by push_cast at h; omega)
        refine ⟨e', by simp [he, hre, hri, hy, he'], hlo, by omega, ?_, hstop⟩
        intro k rk hk1 hk2 hrk
        by_cases hke : k = e
        · subst hke; rw [hre] at hrk; cases hrk; exact hy
        · exact hsame k rk hk1 (by omega) hrk
      · refine ⟨e, by simp [he, hre, hri, hy], h0, le_refl _, ?_, ?_⟩
        · intro k rk hk1 hk2 _; omega
        · intro re' hre'; rw [hre] at hre'; cases hre'; exact hy
    · refine ⟨e, by simp [he], h0, le_refl _, ?_, ?_⟩
      · intro k rk hk1 hk2 _; omega
      · intro re' hre'; have := rect_at_range hre'; omega

theorem ne_end_line_spec {rects : List pixman_box32_t} {i : Int} {ri : pixman_box32_t}
    (hri : rect_at rects i = some ri) :
    ∀ (fuel : Nat) (e : Int), 0 ≤ e → e ≤ rects.length → (rects.length : Int) - e < fuel →
      ∃ e', ne_end_line rects i fuel e = some e' ∧ e ≤ e' ∧ e' ≤ rects.length ∧
        (∀ k rk, e ≤ k → k < e' → rect_at rects k = some rk → rk.y1 = ri.y1) ∧
        (∀ re, rect_at rects e' = some re → re.y1 ≠ ri.y1) := by
  intro fuel
  induction fuel with
  | zero => intro e h0 _ h; exfalso; simp at h; omega
  | succ f ih =>
    intro e h0 hn h
    unfold ne_end_line
    by_cases he : e < (rects.length : Int)
    · obtain ⟨re, hre⟩ := rect_at_isSome h0 he
      by_cases hy : re.y1 = ri.y1
      · obtain ⟨e', he', hlo, hhi, hsame, hstop⟩ :=
          ih (e + 1) (by omega) (by omega) (by push_cast at h; omega)
        refine ⟨e', by simp [he, hre, hri, hy, he'], by omega, hhi, ?_, hstop⟩
        intro k rk hk1 hk2 hrk
        by_cases hke : k = e
        · subst hke; rw [hre] at hrk; cases hrk; exact hy
        · exact hsame k rk (by omega) hk2 hrk
      · refine ⟨e, by simp [he, hre, hri, hy], le_refl _, hn, ?_, ?_⟩
        · intro k rk hk1 hk2 _; omega
        · intro re' hre'; rw [hre] at hre'; cases hre'; exact hy
    · refine ⟨e, by simp [he], le_refl _, hn, ?_, ?_⟩
      · intro k rk hk1 hk2 _; omega
      · intro re' hre'; have := rect_at_range hre'; omega


theorem copy_region_sw_spec {rects : List pixman_box32_t} (hb : banded rects) {dx dy : Int}
    (hdx : dx < 0) (hdy : dy > 0) :
    ∀ (fuel : Nat) (i : Int), -1 ≤ i → i < rects.length → i + 1 < fuel →
      ∃ order, copy_region_sw rects fuel i = some order ∧
        (∀ k, k ∈ order ↔ 0 ≤ k ∧ k ≤ i) ∧
        order.Pairwise (source_clear_at rects dx dy) := by
  intro fuel
  induction fuel with
  | zero => intro i h0 _ h; exfalso; simp at h; omega
  | succ f ih =>
    intro i h0 hn h
    unfold copy_region_sw
    by_cases hi : i ≥ 0
    · obtain ⟨ri, hri⟩ := rect_at_isSome hi hn
      obtain ⟨e, he, hlo, hhi, hsame, hstop⟩ :=
        sw_end_line_spec hri (rects.length + 1) (i - 1) (by omega) (by omega)
          (by push_cast; omega)
      obtain ⟨group, hgroup, hgmem, hgpw⟩ :=
        for_up_spec i (rects.length + 1) (e + 1) (by omega) (by push_cast; omega)
      obtain ⟨rest, hrest, hrmem, hrpw⟩ := ih e hlo (by omega) (by push_cast at h; omega)
      -- every rectangle of the group has the top of `dest_rects[i]`
      have hgy : ∀ a ra, a ∈ group → rect_at rects a = some ra → ra.y1 = ri.y1 := by
        intro a ra ha hra
        have ha' := (hgmem a).1 ha
        by_cases hai : a = i
        · subst hai; rw [hri] at hra; cases hra; rfl
        · exact hsame a ra (by omega) (by omega) hra
      refine ⟨group ++ rest, by simp [hi, he, hgroup, hrest], ?_, ?_⟩
      · intro k
        rw [List.mem_append, hgmem, hrmem]
        omega
      · rw [List.pairwise_append]
        refine ⟨?_, hrpw, ?_⟩
        · refine List.Pairwise.imp_of_mem ?_ hgpw
          intro a b ha hb' hab ra rb hra hrb
          have hya := hgy a ra ha hra
          have hyb := hgy b rb hb' hrb
          have hne := banded_nonempty hb hra
          have hord := banded_at hb hab hra hrb
          refine source_clear_of_left (le_of_lt hdx) ?_
          unfold band_order at hord
          omega
        · intro a ha b hb' ra rb hra hrb
          have ha' := (hgmem a).1 ha
          have hb'' := (hrmem b).1 hb'
          have hya := hgy a ra ha hra
          obtain ⟨re, hre⟩ := rect_at_isSome (show 0 ≤ e by omega) (show e < rects.length by omega)
          have hye := hstop re hre
          have hnb := banded_nonempty hb hrb
          have hne := banded_nonempty hb hre
          have hea : band_order re ra := banded_at hb (by omega) hre hra
          have hbe : rb.y1 ≤ re.y1 := by
            by_cases hbe : b = e
            · subst hbe; rw [hre] at hrb; cases hrb; exact le_refl _
            · exact band_order_y1_le (banded_at hb (by omega) hrb hre) hnb.2
          have hba : band_order rb ra := banded_at hb (by omega) hrb hra
          refine source_clear_of_below hdy ?_
          have h1 := band_order_y1_le hea hne.2
          unfold band_order at hba
          omega
    · refine ⟨[], by simp [hi], ?_, List.Pairwise.nil⟩
      intro k; simp; omega

theorem copy_region_ne_spec {rects : List pixman_box32_t} (hb : banded rects) {dx dy : Int}
    (hdx : dx > 0) (hdy : dy ≤ 0) :
    ∀ (fuel : Nat) (i : Int), 0 ≤ i → i ≤ rects.length → (rects.length : Int) - i < fuel →
      ∃ order, copy_region_ne rects fuel i = some order ∧
        (∀ k, k ∈ order ↔ i ≤ k ∧ k < rects.length) ∧
        order.Pairwise (source_clear_at rects dx dy) := by
  intro fuel
  induction fuel with
  | zero => intro i h0 _ h; exfalso; simp at h; omega
  | succ f ih =>
    intro i h0 hn h
    unfold copy_region_ne
    by_cases hi : i < (rects.length : Int)
    · obtain ⟨ri, hri⟩ := rect_at_isSome h0 hi
      obtain ⟨e, he, hlo, hhi, hsame, hstop⟩ :=
        ne_end_line_spec hri (rects.length + 1) i h0 hn (by push_cast; omega)
      -- the scan passes `i` itself
      have hei : i < e := by
        by_contra hcon
        have : e = i := by omega
        subst this
        exact hstop ri hri rfl
      obtain ⟨group, hgroup, hgmem, hgpw⟩ :=
        for_down_spec i (rects.length + 1) (e - 1) (by omega) (by push_cast; omega)
      obtain ⟨rest, hrest, hrmem, hrpw⟩ :=
        ih e (by omega) hhi (by push_cast at h; omega)
      have hgy : ∀ a ra, a ∈ group → rect_at rects a = some ra → ra.y1 = ri.y1 := by
        intro a ra ha hra
        have ha' := (hgmem a).1 ha
        exact hsame a ra (by omega) (by omega) hra
      refine ⟨group ++ rest, by simp [hi, he, hgroup, hrest], ?_, ?_⟩
      · intro k
        rw [List.mem_append, hgmem, hrmem]
        omega
      · rw [List.pairwise_append]
        refine ⟨?_, hrpw, ?_⟩
        · refine List.Pairwise.imp_of_mem ?_ hgpw
          intro a b ha hb' hab ra rb hra hrb
          have hya := hgy a ra ha hra
          have hyb := hgy b rb hb' hrb
          have hne := banded_nonempty hb hrb
          have hord := banded_at hb hab hrb hra
          refine source_clear_of_right (le_of_lt hdx) ?_
          unfold band_order at hord
          omega
        · intro a ha b hb' ra rb hra hrb
          have ha' := (hgmem a).1 ha
          have hb'' := (hrmem b).1 hb'
          have hya := hgy a ra ha hra
          obtain ⟨re, hre⟩ := rect_at_isSome (show 0 ≤ e by omega) (show e < rects.length by omega)
          have hye := hstop re hre
          have hna := banded_nonempty hb hra
          have hne := banded_nonempty hb hre
          have hae : band_order ra re := banded_at hb (by omega) hra hre
          have heb : re.y1 ≤ rb.y1 := by
            by_cases hbe : b = e
            · subst hbe; rw [hre] at hrb; cases hrb; exact le_refl _
            · exact band_order_y1_le (banded_at hb (by omega) hre hrb) hne.2
          have hab : band_order ra rb := banded_at hb (by omega) hra hrb
          refine source_clear_of_above hdy ?_
          have h1 := band_order_y1_le hae hna.2
          unfold band_order at hab
          omega
    · refine ⟨[], by simp [hi], ?_, List.Pairwise.nil⟩
      intro k; simp; omega

theorem copy_region_order_spec {rects : List pixman_box32_t} (hb : banded rects) (dx dy : Int) :
    ∃ order, copy_region_order rects dx dy = some order ∧
      (∀ k, k ∈ order ↔ 0 ≤ k ∧ k < (rects.length : Int)) ∧
      order.Pairwise (source_clear_at rects dx dy) := by
  unfold copy_region_order
  by_cases hdy : dy > 0
  · by_cases hdx : dx ≥ 0
    · obtain ⟨order, ho, hmem, hpw⟩ :=
        copy_region_se_spec (rects.length + 1) ((rects.length : Int) - 1) (by omega)
          (by push_cast; omega)
      refine ⟨order, by simp [hdy, hdx, ho], fun k => by rw [hmem]; omega, ?_⟩
      refine List.Pairwise.imp ?_ hpw
      intro a b hab ra rb hra hrb
      have hord := banded_at hb hab hrb hra
      unfold band_order at hord
      rcases hord with h | h
      · exact source_clear_of_right hdx h.2.2
      · exact source_clear_of_below hdy h
    · obtain ⟨order, ho, hmem, hpw⟩ :=
        copy_region_sw_spec hb (lt_of_not_ge hdx) hdy (rects.length + 1)
          ((rects.length : Int) - 1) (by omega) (by omega) (by push_cast; omega)
      exact ⟨order, by simp [hdy, hdx, ho], fun k => by rw [hmem]; omega, hpw⟩
  · by_cases hdx : dx > 0
    · obtain ⟨order, ho, hmem, hpw⟩ :=
        copy_region_ne_spec hb hdx (le_of_not_gt hdy) (rects.length + 1) 0 (le_refl _)
          (by omega) (by push_cast; omega)
      exact ⟨order, by simp [hdy, hdx, ho], fun k => by rw [hmem], hpw⟩
    · obtain ⟨order, ho, hmem, hpw⟩ :=
        copy_region_nw_spec (rects.length : Int) (rects.length + 1) 0 (by omega)
          (by push_cast; omega)
      refine ⟨order, by simp [hdy, hdx, ho], fun k => by rw [hmem], ?_⟩
      refine List.Pairwise.imp ?_ hpw
      intro a b hab ra rb hra hrb
      have hord := banded_at hb hab hra hrb
      unfold band_order at hord
      rcases hord with h | h
      · exact source_clear_of_left (le_of_not_gt hdx) h.2.2
      · exact source_clear_of_above (le_of_not_gt hdy) h


theorem copy_region_run_zero (rects : List pixman_box32_t) :
    ∀ (order : List Int) (cur : Image),
      (∀ k ∈ order, 0 ≤ k ∧ k < (rects.length : Int)) →
      copy_region_run rects 0 0 cur order = some cur := by
  intro order
  induction order with
  | nil => intro cur _; rfl
  | cons i rest ih =>
    intro cur hrange
    obtain ⟨hi0, hi1⟩ := hrange i (List.mem_cons_self _ _)
    obtain ⟨ri, hri⟩ := rect_at_isSome hi0 hi1
    have hsame : spice_pixman_copy_rect cur (ri.x1 - 0) (ri.y1 - 0) (ri.x2 - ri.x1)
        (ri.y2 - ri.y1) ri.x1 ri.y1 = cur := by
      simp only [spice_pixman_copy_rect]
      have hp : (fun x y =>
          if ri.x1 ≤ x ∧ x < ri.x1 + (ri.x2 - ri.x1) ∧ ri.y1 ≤ y ∧ y < ri.y1 + (ri.y2 - ri.y1)
          then cur.pix (x - ri.x1 + (ri.x1 - 0)) (y - ri.y1 + (ri.y1 - 0))
          else cur.pix x y) = cur.pix := by
        funext x y
        have e1 : x - ri.x1 + (ri.x1 - 0) = x := by omega
        have e2 : y - ri.y1 + (ri.y1 - 0) = y := by omega
        rw [e1, e2]
        exact ite_self _
      rw [hp]
    simp only [copy_region_run, copy_region_body, hri, Option.map_some', Option.some_bind, hsame]
    exact ih cur (fun k hk => hrange k (List.mem_cons_of_mem _ hk))

/-- C1: for a destination region in y-x banded order whose shifted source
rectangles lie inside the surface, `copy_region` finishes, for every shift
`(dx, dy)` (all four sign quadrants, overlapping source and destination
included), with exactly the ground-truth non-aliased copy: a pixel inside the
region holds the pre-call value of the pixel `(dx, dy)` before it, a pixel
outside the region is unchanged. -/
theorem copy_region_eq_ground_truth (image : Image) (dest_rects : List pixman_box32_t)
    (dx dy : Int) (hband : banded dest_rects)
    (_hsrc : ∀ r ∈ dest_rects, box_inside image (source_box r dx dy)) :
    copy_region image dest_rects dx dy =
        some (copy_region_ground_truth image dest_rects dx dy) ∧
      ∀ x y, (copy_region_ground_truth image dest_rects dx dy).pix x y =
        if region_contains dest_rects x y = true then image.pix (x - dx) (y - dy)
        else image.pix x y := by
  refine ⟨?_, fun x y => rfl⟩
  obtain ⟨order, ho, hmem, hpw⟩ := copy_region_order_spec hband dx dy
  unfold copy_region
  rw [ho, Option.some_bind,
    copy_region_run_spec dest_rects dx dy order image (fun k hk => (hmem k).1 hk) hpw]
  unfold copy_region_ground_truth
  congr 2
  funext x y
  rw [covered_eq_region_contains hmem]

/-- C1, a concrete south-west copy of two adjacent rectangles of one band whose
sources overlap their destinations. -/
theorem copy_region_eq_ground_truth_witness :
    banded [⟨0, 1, 1, 3⟩, ⟨1, 1, 3, 3⟩] ∧
      (∀ r ∈ [(⟨0, 1, 1, 3⟩ : pixman_box32_t), ⟨1, 1, 3, 3⟩],
        box_inside demo_image (source_box r (-1) 1)) ∧
      (copy_region demo_image [⟨0, 1, 1, 3⟩, ⟨1, 1, 3, 3⟩] (-1) 1 =
          some (copy_region_ground_truth demo_image [⟨0, 1, 1, 3⟩, ⟨1, 1, 3, 3⟩] (-1) 1) ∧
        ∀ x y, (copy_region_ground_truth demo_image [⟨0, 1, 1, 3⟩, ⟨1, 1, 3, 3⟩] (-1) 1).pix x y =
          if region_contains [⟨0, 1, 1, 3⟩, ⟨1, 1, 3, 3⟩] x y = true
          then demo_image.pix (x - (-1)) (y - 1) else demo_image.pix x y) :=
  ⟨by decide, by decide,
    copy_region_eq_ground_truth demo_image [⟨0, 1, 1, 3⟩, ⟨1, 1, 3, 3⟩] (-1) 1
      (by decide) (by decide)⟩

/-- C2: for every surface and every region whose rectangles lie inside the
surface, `copy_region` with `dx = 0` and `dy = 0` finishes and leaves the
surface unchanged. -/
theorem copy_region_zero_shift (image : Image) (dest_rects : List pixman_box32_t)
    (_hin : ∀ r ∈ dest_rects, box_inside image r) :
    copy_region image dest_rects 0 0 = some image := by
  obtain ⟨order, ho, hmem, _⟩ :=
    copy_region_nw_spec (dest_rects.length : Int) (dest_rects.length + 1) 0 (by omega)
      (by push_cast; omega)
  have horder : copy_region_order dest_rects 0 0 = some order := by
    unfold copy_region_order
    simp [ho]
  unfold copy_region
  rw [horder, Option.some_bind]
  exact copy_region_run_zero dest_rects order image (fun k hk => (hmem k).1 hk)

/-- C2, on two overlapping rectangles of the 4 × 4 surface. -/
theorem copy_region_zero_shift_witness :
    (∀ r ∈ [(⟨0, 0, 3, 3⟩ : pixman_box32_t), ⟨1, 1, 4, 4⟩], box_inside demo_image r) ∧
      copy_region demo_image [⟨0, 0, 3, 3⟩, ⟨1, 1, 4, 4⟩] 0 0 = some demo_image :=
  ⟨by decide, copy_region_zero_shift demo_image [⟨0, 0, 3, 3⟩, ⟨1, 1, 4, 4⟩] (by decide)⟩

theorem fill_fold_spec (v : Nat) :
    ∀ (rects : List pixman_box32_t) (image : Image),
      rects.foldl
        (fun image r => spice_pixman_fill_rect image r.x1 r.y1 (r.x2 - r.x1) (r.y2 - r.y1) v)
        image =
      { image with
        pix := fun x y => if region_contains rects x y = true then v else image.pix x y } := by
  intro rects
  induction rects with
  | nil => intro image; simp [region_contains]
  | cons r rest ih =>
    intro image
    rw [List.foldl_cons, ih]
    simp only [spice_pixman_fill_rect]
    congr 1
    funext x y
    have hreg : region_contains (r :: rest) x y = (box_contains r x y || region_contains rest x y) := by
      simp [region_contains]
    rw [hreg]
    by_cases hc : region_contains rest x y = true
    · simp only [hc, Bool.or_true, if_true]
    · have hc' : region_contains rest x y = false := by simpa using hc
      by_cases hb : box_contains r x y = true
      · have hb' := box_contains_iff.1 hb
        have hyes : r.x1 ≤ x ∧ x < r.x1 + (r.x2 - r.x1) ∧ r.y1 ≤ y ∧ y < r.y1 + (r.y2 - r.y1) := by
          omega
        simp only [hc', hb, hyes, Bool.or_false, and_self, if_true, if_false, Bool.false_eq_true]
      · have hb' : box_contains r x y = false := by simpa using hb
        have hno : ¬ (r.x1 ≤ x ∧ x < r.x1 + (r.x2 - r.x1) ∧ r.y1 ≤ y ∧ y < r.y1 + (r.y2 - r.y1)) := by
          intro h; apply hb; rw [box_contains_iff]; omega
        simp only [hc', hb', hno, Bool.or_false, if_true, if_false, Bool.false_eq_true]

theorem get_color_lt (canvas : CairoCanvas) {color : Nat} (h : color < 2 ^ 32) :
    get_color canvas color < 2 ^ 32 := by
  unfold get_color
  by_cases hs : canvas.color_shift = 8
  · simp [hs]; exact h
  · simp only [hs, if_false]
    norm_num
    have h32 : (4294967296 : Nat) = 2 ^ 32 := by norm_num
    rw [h32]
    refine Nat.or_lt_two_pow (Nat.or_lt_two_pow ?_ ?_) ?_ <;> exact Nat.mod_lt _ (by norm_num)

theorem canvas_read_bits_loop_spec (image : Image) (ds ss s0 rows : Int) (hds : 0 < ds) :
    ∀ (fuel : Nat) (r : Int) (out : Int → Nat), 0 ≤ r → r ≤ rows → rows - r < fuel →
      ∃ fin, canvas_read_bits_loop image ds ss (0 + rows * ds) fuel out (r * ds) (s0 + r * ss)
          = some fin ∧
        (∀ r' c, r ≤ r' → r' < rows → 0 ≤ c → c < ds →
          fin (r' * ds + c) = image_byte image (s0 + r' * ss + c)) ∧
        (∀ a, a < r * ds ∨ rows * ds ≤ a → fin a = out a) := by
  intro fuel
  induction fuel with
  | zero => intro r out _ h1 h; exfalso; simp at h; omega
  | succ f ih =>
    intro r out h0 h1 h
    unfold canvas_read_bits_loop
    by_cases hr : r = rows
    · subst hr
      refine ⟨out, by simp, ?_, fun a _ => rfl⟩
      intro r' c h2 h3; omega
    · have hne : r * ds ≠ 0 + rows * ds := by
        intro heq
        rw [zero_add] at heq
        exact hr (Int.eq_of_mul_eq_mul_right (ne_of_gt hds) heq)
      have hnext : (r + 1) * ds = r * ds + ds := by ring
      have hnext' : s0 + (r + 1) * ss = s0 + r * ss + ss := by ring
      obtain ⟨fin, hfin, hrows, hout⟩ :=
        ih (r + 1) (memcpy_from_image image out (r * ds) (s0 + r * ss) ds) (by omega) (by omega)
          (by push_cast at h; omega)
      rw [hnext, hnext'] at hfin
      refine ⟨fin, by simp only [ne_eq, hne, not_false_eq_true, if_true]; exact hfin, ?_, ?_⟩
      · intro r' c h2 h3 h4 h5
        by_cases hrr : r' = r
        · subst hrr
          rw [hout (r' * ds + c) (Or.inl (by omega))]
          unfold memcpy_from_image
          have hin : r' * ds ≤ r' * ds + c ∧ r' * ds + c < r' * ds + ds := by omega
          have hoff : s0 + r' * ss + (r' * ds + c - r' * ds) = s0 + r' * ss + c := by omega
          simp only [hin, and_self, if_true, hoff]
        · exact hrows r' c (by omega) h3 h4 h5
      · intro a ha
        have hmono : r * ds ≤ rows * ds := Int.mul_le_mul_of_nonneg_right h1 (le_of_lt hds)
        rw [hout a (by omega)]
        unfold memcpy_from_image
        have hno : ¬ (r * ds ≤ a ∧ a < r * ds + ds) := by
          have hstep : r * ds + ds ≤ rows * ds := by
            rw [← hnext]; exact Int.mul_le_mul_of_nonneg_right (by omega) (le_of_lt hds)
          omega
        simp only [hno, if_false]


theorem image_byte_at (image : Image) (x y : Int) (b : Nat) (hx : 0 ≤ x) (hb : b < 4)
    (hs : 4 * x + 3 < image.stride) :
    image_byte image (y * image.stride + (4 * x + b)) = image.pix x y / 256 ^ b % 256 := by
  unfold image_byte
  have hpos : image.stride ≠ 0 := by omega
  have hk0 : 0 ≤ 4 * x + (b : Int) := by omega
  have hk1 : 4 * x + (b : Int) < image.stride := by omega
  have hrow : (y * image.stride + (4 * x + b)) / image.stride = y := by
    rw [add_comm, Int.add_mul_ediv_right _ _ hpos, Int.ediv_eq_zero_of_lt hk0 hk1, zero_add]
  have hcol : (y * image.stride + (4 * x + b)) % image.stride = 4 * x + b := by
    rw [add_comm, Int.add_mul_emod_self, Int.emod_eq_of_lt hk0 hk1]
  have hq : (4 * x + (b : Int)) / 4 = x := by omega
  have hm : ((4 * x + (b : Int)) % 4).toNat = b := by omega
  simp only [hrow, hcol, hq, hm]

theorem word_of_bytes (v : Nat) (h : v < 2 ^ 32) :
    v / 256 ^ 0 % 256 + 256 * (v / 256 ^ 1 % 256) + 65536 * (v / 256 ^ 2 % 256) +
      16777216 * (v / 256 ^ 3 % 256) = v := by
  norm_num at h ⊢
  omega

theorem fill_solid_rects_image (canvas : CairoCanvas) (rects : List pixman_box32_t)
    (color : Nat) :
    (fill_solid_rects canvas rects color).image =
      { canvas.image with
        pix := fun x y =>
          if region_contains rects x y = true then get_color canvas color
          else canvas.image.pix x y } := by
  unfold fill_solid_rects
  exact fill_fold_spec (get_color canvas color) rects canvas.image

theorem full_readback_spec (canvas : CairoCanvas) (out0 : Int → Nat) (dest_stride : Int)
    (hw : 0 < canvas.image.width) (hh : 0 < canvas.image.height)
    (hd : 4 * canvas.image.width ≤ dest_stride) (hs : dest_stride ≤ canvas.image.stride)
    (hpix : ∀ x y, canvas.image.pix x y < 2 ^ 32) :
    ∃ out, canvas_read_bits canvas out0 dest_stride (full_area canvas.image) = some out ∧
      ∀ x y, 0 ≤ x → x < canvas.image.width → 0 ≤ y → y < canvas.image.height →
        word_at out (y * dest_stride + 4 * x) = canvas.image.pix x y := by
  obtain ⟨fin, hfin, hrows, _⟩ :=
    canvas_read_bits_loop_spec canvas.image dest_stride canvas.image.stride 0
      canvas.image.height (by omega) (canvas.image.height.toNat + 1) 0 out0 (le_refl _)
      (by omega) (by push_cast; omega)
  refine ⟨fin, ?_, ?_⟩
  · unfold canvas_read_bits full_area
    simpa using hfin
  · intro x y hx0 hx1 hy0 hy1
    have hbyte : ∀ b : Nat, b < 4 →
        fin (y * dest_stride + 4 * x + b) = canvas.image.pix x y / 256 ^ b % 256 := by
      intro b hb
      have h1 := hrows y (4 * x + b) hy0 hy1 (by omega) (by omega)
      rw [zero_add] at h1
      rw [add_assoc, h1]
      exact image_byte_at canvas.image x y b hx0 hb (by omega)
    unfold word_at
    have h0 := hbyte 0 (by omega)
    have h1 := hbyte 1 (by omega)
    have h2 := hbyte 2 (by omega)
    have h3 := hbyte 3 (by omega)
    simp only [Nat.cast_zero, add_zero, Nat.cast_one, Nat.cast_ofNat] at h0 h1 h2 h3
    rw [h0, h1, h2, h3]
    exact word_of_bytes _ (hpix x y)

/-- C3: on a well-formed surface, for every 32-bit colour `c` and every list of
rectangles inside the surface, the full-surface readback by `canvas_read_bits`
after `fill_solid_rects` (into a buffer whose rows are `dest_stride` bytes
apart, at least a row of pixels and at most the stride of the surface)
finishes and holds `get_color c` at every pixel inside some fill rectangle and
the pre-call pixel at every pixel outside all of them. -/
theorem fill_solid_rects_readback (canvas : CairoCanvas) (color : Nat)
    (rects : List pixman_box32_t) (out0 : Int → Nat) (dest_stride : Int)
    (hvalid : image_valid canvas.image) (hcolor : color < 2 ^ 32)
    (_hin : ∀ r ∈ rects, box_inside canvas.image r)
    (hd : 4 * canvas.image.width ≤ dest_stride) (hs : dest_stride ≤ canvas.image.stride) :
    ∃ out, canvas_read_bits (fill_solid_rects canvas rects color) out0 dest_stride
        (full_area canvas.image) = some out ∧
      ∀ x y, 0 ≤ x → x < canvas.image.width → 0 ≤ y → y < canvas.image.height →
        word_at out (y * dest_stride + 4 * x) =
          if region_contains rects x y = true then get_color canvas color
          else canvas.image.pix x y := by
  obtain ⟨hw, hh, _, _, hpix⟩ := hvalid
  have himg := fill_solid_rects_image canvas rects color
  have hwidth : (fill_solid_rects canvas rects color).image.width = canvas.image.width := by
    rw [himg]
  have hheight : (fill_solid_rects canvas rects color).image.height = canvas.image.height := by
    rw [himg]
  have hstride : (fill_solid_rects canvas rects color).image.stride = canvas.image.stride := by
    rw [himg]
  have hpix' : ∀ x y, (fill_solid_rects canvas rects color).image.pix x y =
      if region_contains rects x y = true then get_color canvas color
      else canvas.image.pix x y := by
    intro x y; rw [himg]
  have harea : full_area (fill_solid_rects canvas rects color).image = full_area canvas.image := by
    unfold full_area; rw [hwidth, hheight]
  obtain ⟨out, hout, hword⟩ :=
    full_readback_spec (fill_solid_rects canvas rects color) out0 dest_stride
      (by rw [hwidth]; exact hw) (by rw [hheight]; exact hh) (by rw [hwidth]; exact hd)
      (by rw [hstride]; exact hs)
      (by
        intro x y
        rw [hpix']
        split
        · exact get_color_lt canvas hcolor
        · exact hpix x y)
  rw [harea] at hout
  refine ⟨out, hout, ?_⟩
  intro x y hx0 hx1 hy0 hy1
  have := hword x y hx0 (by rw [hwidth]; exact hx1) hy0 (by rw [hheight]; exact hy1)
  rw [hpix'] at this
  exact this

/-- C3, on the 4 × 4 surface with one fill rectangle. -/
theorem fill_solid_rects_readback_witness :
    image_valid demo_canvas.image ∧ (0x123456 : Nat) < 2 ^ 32 ∧
      (∀ r ∈ [(⟨1, 1, 3, 2⟩ : pixman_box32_t)], box_inside demo_canvas.image r) ∧
      ∃ out, canvas_read_bits (fill_solid_rects demo_canvas [⟨1, 1, 3, 2⟩] 0x123456)
          (fun _ => 0) 16 (full_area demo_canvas.image) = some out ∧
        ∀ x y, 0 ≤ x → x < demo_canvas.image.width → 0 ≤ y → y < demo_canvas.image.height →
          word_at out (y * 16 + 4 * x) =
            if region_contains [⟨1, 1, 3, 2⟩] x y = true then get_color demo_canvas 0x123456
            else demo_canvas.image.pix x y :=
  have hvalid : image_valid demo_canvas.image :=
    ⟨by decide, by decide, by decide, by decide, fun x y => by
      show ((10 * y + x) % 256).toNat < 2 ^ 32
      omega⟩
  ⟨hvalid, by decide, by decide,
    fill_solid_rects_readback demo_canvas 0x123456 [⟨1, 1, 3, 2⟩] (fun _ => 0) 16 hvalid
      (by decide) (by decide) (by decide) (by decide)⟩

theorem colorkey_fold_spec (src : Image) (ox oy : Int) (t : Nat) :
    ∀ (region : List pixman_box32_t) (image : Image),
      region.foldl
        (fun image r =>
          spice_pixman_blit_colorkey image src (r.x1 - ox) (r.y1 - oy) r.x1 r.y1
            (r.x2 - r.x1) (r.y2 - r.y1) t)
        image =
      { image with
        pix := fun x y =>
          if region_contains region x y = true then
            if src.pix (x - ox) (y - oy) = t then image.pix x y else src.pix (x - ox) (y - oy)
          else image.pix x y } := by
  intro region
  induction region with
  | nil => intro image; simp [region_contains]
  | cons r rest ih =>
    intro image
    rw [List.foldl_cons, ih]
    simp only [spice_pixman_blit_colorkey]
    congr 1
    funext x y
    have hreg : region_contains (r :: rest) x y = (box_contains r x y || region_contains rest x y) := by
      simp [region_contains]
    have e1 : x - r.x1 + (r.x1 - ox) = x - ox := by omega
    have e2 : y - r.y1 + (r.y1 - oy) = y - oy := by omega
    rw [hreg, e1, e2]
    by_cases hb : box_contains r x y = true
    · have hb' := box_contains_iff.1 hb
      have hyes : r.x1 ≤ x ∧ x < r.x1 + (r.x2 - r.x1) ∧ r.y1 ≤ y ∧ y < r.y1 + (r.y2 - r.y1) := by
        omega
      simp only [hb, hyes, Bool.true_or, and_self, if_true]
      by_cases ht : src.pix (x - ox) (y - oy) = t
      · simp only [ht, if_true, ite_self]
      · simp only [ht, if_false, ite_self]
    · have hb' : box_contains r x y = false := by simpa using hb
      have hno : ¬ (r.x1 ≤ x ∧ x < r.x1 + (r.x2 - r.x1) ∧ r.y1 ≤ y ∧ y < r.y1 + (r.y2 - r.y1)) := by
        intro h; apply hb; rw [box_contains_iff]; omega
      simp only [hb', hno, Bool.false_or, if_false]

/-- C4: after `__colorkey_image`, a destination pixel inside the region whose
source pixel `p - (offset_x, offset_y)` equals the transparent colour keeps its
pre-call value, every other destination pixel inside the region equals that
source pixel, and every destination pixel outside the region is unchanged. -/
theorem colorkey_image_spec (canvas : CairoCanvas) (region : List pixman_box32_t)
    (src_image : Image) (offset_x offset_y : Int) (transparent_color : Nat) (x y : Int) :
    (__colorkey_image canvas region src_image offset_x offset_y transparent_color).image.pix x y =
      if region_contains region x y = true then
        if src_image.pix (x - offset_x) (y - offset_y) = transparent_color then
          canvas.image.pix x y
        else src_image.pix (x - offset_x) (y - offset_y)
      else canvas.image.pix x y := by
  unfold __colorkey_image
  simp only []
  rw [colorkey_fold_spec src_image offset_x offset_y transparent_color region canvas.image]

theorem brush_channel_exact (v m : Nat) (hm : m = 0x1f ∨ m = 0xff) (hv : v ≤ m) :
    ((v * 0xffff) % 2 ^ 32 / m) % 2 ^ 16 = v * 0xffff / m ∧ v * 0xffff < 2 ^ 32 ∧
      v * 0xffff / m ≤ 0xffff := by
  have h1 : v * 0xffff < 2 ^ 32 := by
    rcases hm with rfl | rfl <;> (norm_num at hv ⊢; omega)
  have h2 : v * 0xffff / m ≤ 0xffff :=
    Nat.div_le_of_le_mul (Nat.mul_le_mul_right _ hv)
  have h3 : v * 0xffff / m < 2 ^ 16 := by norm_num at h2 ⊢; omega
  rw [Nat.mod_eq_of_lt h1, Nat.mod_eq_of_lt h3]
  exact ⟨rfl, h1, h2⟩

/-- C10: for a solid brush of colour `c` on a canvas with channel mask
`m ∈ {0x1f, 0xff}` and channel shift `s`, `canvas_get_pixman_brush` returns the
solid fill with `blue = ((c & m) * 0xffff) / m`,
`green = (((c >> s) & m) * 0xffff) / m`, `red = (((c >> 2s) & m) * 0xffff) / m`
and `alpha = 0xffff`; for every channel the product does not overflow 32 bits,
the quotient fits in 16 bits, a component 0 gives 0 and a component `m` gives
`0xffff`. -/
theorem solid_brush_color (canvas_get_surface : Nat → Option Image)
    (canvas_get_image : Nat → Image) (canvas : CairoCanvas) (brush : SpiceBrush)
    (htype : brush.type = SPICE_BRUSH_TYPE_SOLID)
    (hmask : canvas.color_mask = 0x1f ∨ canvas.color_mask = 0xff) :
    canvas_get_pixman_brush canvas_get_surface canvas_get_image canvas brush =
        Except.ok (some (Source.solid
          { blue := ((brush.color &&& canvas.color_mask) * 0xffff) / canvas.color_mask,
            green := (((brush.color >>> canvas.color_shift.toNat) &&& canvas.color_mask)
              * 0xffff) / canvas.color_mask,
            red := (((brush.color >>> (2 * canvas.color_shift.toNat)) &&& canvas.color_mask)
              * 0xffff) / canvas.color_mask,
            alpha := 0xffff })) ∧
      ∀ k : Nat,
        ((brush.color >>> (k * canvas.color_shift.toNat)) &&& canvas.color_mask) * 0xffff
            < 2 ^ 32 ∧
          ((brush.color >>> (k * canvas.color_shift.toNat)) &&& canvas.color_mask) * 0xffff
            / canvas.color_mask ≤ 0xffff ∧
          ((brush.color >>> (k * canvas.color_shift.toNat)) &&& canvas.color_mask = 0 →
            ((brush.color >>> (k * canvas.color_shift.toNat)) &&& canvas.color_mask) * 0xffff
              / canvas.color_mask = 0) ∧
          ((brush.color >>> (k * canvas.color_shift.toNat)) &&& canvas.color_mask
              = canvas.color_mask →
            ((brush.color >>> (k * canvas.color_shift.toNat)) &&& canvas.color_mask) * 0xffff
              / canvas.color_mask = 0xffff) := by
  constructor
  · have hb := (brush_channel_exact (brush.color &&& canvas.color_mask) canvas.color_mask hmask
      Nat.and_le_right).1
    have hg := (brush_channel_exact ((brush.color >>> canvas.color_shift.toNat) &&&
      canvas.color_mask) canvas.color_mask hmask Nat.and_le_right).1
    have hr := (brush_channel_exact ((brush.color >>> canvas.color_shift.toNat >>>
      canvas.color_shift.toNat) &&& canvas.color_mask) canvas.color_mask hmask
      Nat.and_le_right).1
    have h2 : brush.color >>> canvas.color_shift.toNat >>> canvas.color_shift.toNat =
        brush.color >>> (2 * canvas.color_shift.toNat) := by
      rw [← Nat.shiftRight_add, two_mul]
    rw [h2] at hr
    unfold canvas_get_pixman_brush
    simp only [htype, if_true, h2, hb, hg, hr]
  · intro k
    have h := brush_channel_exact ((brush.color >>> (k * canvas.color_shift.toNat)) &&&
      canvas.color_mask) canvas.color_mask hmask Nat.and_le_right
    refine ⟨h.2.1, h.2.2, ?_, ?_⟩
    · intro h0; rw [h0]; simp
    · intro hm
      rw [hm]
      rcases hmask with h' | h' <;> rw [h']

/-- C10, on the depth-32 canvas with the colour `0x00ff8000`. -/
theorem solid_brush_color_witness :
    ({ type := 1, color := 0x00ff8000, pattern := ⟨0, 0, 0⟩ } : SpiceBrush).type =
        SPICE_BRUSH_TYPE_SOLID ∧
      (demo_canvas.color_mask = 0x1f ∨ demo_canvas.color_mask = 0xff) ∧
      canvas_get_pixman_brush (fun _ => none) (fun _ => demo_image) demo_canvas
          { type := 1, color := 0x00ff8000, pattern := ⟨0, 0, 0⟩ } =
        Except.ok (some (Source.solid
          { blue := 0, green := 0x8080, red := 0xffff, alpha := 0xffff })) :=
  ⟨rfl, Or.inr rfl,
    (solid_brush_color (fun _ => none) (fun _ => demo_image) demo_canvas
      { type := 1, color := 0x00ff8000, pattern := ⟨0, 0, 0⟩ } rfl (Or.inr rfl)).1⟩

/-- C7: each of `__scale_image`, `__scale_image_rop` and `__blend_scale_image`
ends in a failed assertion if and only if `scale_mode` is neither NEAREST nor
INTERPOLATE; when the call returns, the filter set on the source is the nearest
filter exactly when `scale_mode` is NEAREST and the interpolating filter
otherwise. -/
theorem scale_mode_assert (ext : Externals) (canvas : CairoCanvas)
    (region : List pixman_box32_t) (src : Image)
    (src_x src_y src_width src_height dest_x dest_y dest_width dest_height : Int)
    (scale_mode : Int) (rop : Nat) (overall_alpha : Int) :
    ((__scale_image ext canvas region src src_x src_y src_width src_height dest_x dest_y
          dest_width dest_height scale_mode = Except.error Abort.ASSERT ↔
        (scale_mode ≠ SPICE_IMAGE_SCALE_MODE_NEAREST ∧
          scale_mode ≠ SPICE_IMAGE_SCALE_MODE_INTERPOLATE)) ∧
      ∀ r, __scale_image ext canvas region src src_x src_y src_width src_height dest_x dest_y
          dest_width dest_height scale_mode = Except.ok r →
        r.src.filter = (if scale_mode = SPICE_IMAGE_SCALE_MODE_NEAREST
          then pixman_filter_t.PIXMAN_FILTER_NEAREST else pixman_filter_t.PIXMAN_FILTER_GOOD)) ∧
    ((__scale_image_rop ext canvas region src src_x src_y src_width src_height dest_x dest_y
          dest_width dest_height scale_mode rop = Except.error Abort.ASSERT ↔
        (scale_mode ≠ SPICE_IMAGE_SCALE_MODE_NEAREST ∧
          scale_mode ≠ SPICE_IMAGE_SCALE_MODE_INTERPOLATE)) ∧
      ∀ r, __scale_image_rop ext canvas region src src_x src_y src_width src_height dest_x
          dest_y dest_width dest_height scale_mode rop = Except.ok r →
        r.src.filter = (if scale_mode = SPICE_IMAGE_SCALE_MODE_NEAREST
          then pixman_filter_t.PIXMAN_FILTER_NEAREST else pixman_filter_t.PIXMAN_FILTER_GOOD)) ∧
    ((__blend_scale_image ext canvas region src src_x src_y src_width src_height dest_x dest_y
          dest_width dest_height scale_mode overall_alpha = Except.error Abort.ASSERT ↔
        (scale_mode ≠ SPICE_IMAGE_SCALE_MODE_NEAREST ∧
          scale_mode ≠ SPICE_IMAGE_SCALE_MODE_INTERPOLATE)) ∧
      ∀ r, __blend_scale_image ext canvas region src src_x src_y src_width src_height dest_x
          dest_y dest_width dest_height scale_mode overall_alpha = Except.ok r →
        r.src.filter = (if scale_mode = SPICE_IMAGE_SCALE_MODE_NEAREST
          then pixman_filter_t.PIXMAN_FILTER_NEAREST else pixman_filter_t.PIXMAN_FILTER_GOOD)) := by
  refine ⟨⟨?_, ?_⟩, ⟨?_, ?_⟩, ⟨?_, ?_⟩⟩
  · unfold __scale_image
    by_cases h : scale_mode = SPICE_IMAGE_SCALE_MODE_INTERPOLATE ∨
        scale_mode = SPICE_IMAGE_SCALE_MODE_NEAREST
    · simp only [h, not_true_eq_false, if_false]
      constructor
      · intro h'; cases h'
      · intro h'; rcases h with h | h <;> simp [h] at h'
    · simp only [h, not_false_eq_true, if_true, true_iff]
      exact ⟨fun h' => h (Or.inr h'), fun h' => h (Or.inl h')⟩
  · intro r hr
    unfold __scale_image at hr
    by_cases h : scale_mode = SPICE_IMAGE_SCALE_MODE_INTERPOLATE ∨
        scale_mode = SPICE_IMAGE_SCALE_MODE_NEAREST
    · simp only [h, not_true_eq_false, if_false, Except.ok.injEq] at hr
      rw [← hr]; rfl
    · simp only [h, not_false_eq_true, if_true] at hr
      cases hr
  · unfold __scale_image_rop
    by_cases h : scale_mode = SPICE_IMAGE_SCALE_MODE_INTERPOLATE ∨
        scale_mode = SPICE_IMAGE_SCALE_MODE_NEAREST
    · simp only [h, not_true_eq_false, if_false]
      constructor
      · intro h'; cases h'
      · intro h'; rcases h with h | h <;> simp [h] at h'
    · simp only [h, not_false_eq_true, if_true, true_iff]
      exact ⟨fun h' => h (Or.inr h'), fun h' => h (Or.inl h')⟩
  · intro r hr
    unfold __scale_image_rop at hr
    by_cases h : scale_mode = SPICE_IMAGE_SCALE_MODE_INTERPOLATE ∨
        scale_mode = SPICE_IMAGE_SCALE_MODE_NEAREST
    · simp only [h, not_true_eq_false, if_false, Except.ok.injEq] at hr
      rw [← hr]; rfl
    · simp only [h, not_false_eq_true, if_true] at hr
      cases hr
  · unfold __blend_scale_image
    by_cases h : scale_mode = SPICE_IMAGE_SCALE_MODE_INTERPOLATE ∨
        scale_mode = SPICE_IMAGE_SCALE_MODE_NEAREST
    · simp only [h, not_true_eq_false, if_false]
      constructor
      · intro h'; cases h'
      · intro h'; rcases h with h | h <;> simp [h] at h'
    · simp only [h, not_false_eq_true, if_true, true_iff]
      exact ⟨fun h' => h (Or.inr h'), fun h' => h (Or.inl h')⟩
  · intro r hr
    unfold __blend_scale_image at hr
    by_cases h : scale_mode = SPICE_IMAGE_SCALE_MODE_INTERPOLATE ∨
        scale_mode = SPICE_IMAGE_SCALE_MODE_NEAREST
    · simp only [h, not_true_eq_false, if_false, Except.ok.injEq] at hr
      rw [← hr]; rfl
    · simp only [h, not_false_eq_true, if_true] at hr
      cases hr


theorem blit_rop_fold_fields (ext : Externals) (scaled : Image) (dx dy : Int) (rop : Nat) :
    ∀ (region : List pixman_box32_t) (image : Image),
      (region.foldl
        (fun image r =>
          spice_pixman_blit_rop ext image scaled (r.x1 - dx) (r.y1 - dy) r.x1 r.y1
            (r.x2 - r.x1) (r.y2 - r.y1) rop)
        image).clip = image.clip := by
  intro region
  induction region with
  | nil => intro image; rfl
  | cons r rest ih => intro image; rw [List.foldl_cons, ih]; rfl

/-- C6: a surface carries no clip region between calls (it is created without
one, and every function of the file that sets one on it clears it before it
returns).  For a call on such a surface, each of `__scale_image`,
`__scale_image_rop` and `__blend_scale_image` returns when the scale mode is
valid, and whenever it returns the transform of the source image is the
identity and the clip region of the destination surface is unset, whatever
transform the source image carried on entry. -/
theorem scaled_ops_restore_state (ext : Externals) (canvas : CairoCanvas)
    (region : List pixman_box32_t) (src : Image)
    (src_x src_y src_width src_height dest_x dest_y dest_width dest_height : Int)
    (scale_mode : Int) (rop : Nat) (overall_alpha : Int)
    (hclip : canvas.image.clip = none) :
    (∀ r, __scale_image ext canvas region src src_x src_y src_width src_height dest_x dest_y
          dest_width dest_height scale_mode = Except.ok r →
        r.src.transform = pixman_transform_identity ∧ r.canvas.image.clip = none) ∧
    (∀ r, __scale_image_rop ext canvas region src src_x src_y src_width src_height dest_x
          dest_y dest_width dest_height scale_mode rop = Except.ok r →
        r.src.transform = pixman_transform_identity ∧ r.canvas.image.clip = none) ∧
    (∀ r, __blend_scale_image ext canvas region src src_x src_y src_width src_height dest_x
          dest_y dest_width dest_height scale_mode overall_alpha = Except.ok r →
        r.src.transform = pixman_transform_identity ∧ r.canvas.image.clip = none) ∧
    (scale_mode = SPICE_IMAGE_SCALE_MODE_INTERPOLATE ∨
        scale_mode = SPICE_IMAGE_SCALE_MODE_NEAREST →
      (∃ r, __scale_image ext canvas region src src_x src_y src_width src_height dest_x dest_y
          dest_width dest_height scale_mode = Except.ok r) ∧
      (∃ r, __scale_image_rop ext canvas region src src_x src_y src_width src_height dest_x
          dest_y dest_width dest_height scale_mode rop = Except.ok r) ∧
      (∃ r, __blend_scale_image ext canvas region src src_x src_y src_width src_height dest_x
          dest_y dest_width dest_height scale_mode overall_alpha = Except.ok r)) := by
  refine ⟨?_, ?_, ?_, ?_⟩
  · intro r hr
    unfold __scale_image at hr
    by_cases h : scale_mode = SPICE_IMAGE_SCALE_MODE_INTERPOLATE ∨
        scale_mode = SPICE_IMAGE_SCALE_MODE_NEAREST
    · simp only [h, not_true_eq_false, if_false, Except.ok.injEq] at hr
      rw [← hr]; exact ⟨rfl, rfl⟩
    · simp only [h, not_false_eq_true, if_true] at hr
      cases hr
  · intro r hr
    unfold __scale_image_rop at hr
    by_cases h : scale_mode = SPICE_IMAGE_SCALE_MODE_INTERPOLATE ∨
        scale_mode = SPICE_IMAGE_SCALE_MODE_NEAREST
    · simp only [h, not_true_eq_false, if_false, Except.ok.injEq] at hr
      rw [← hr]
      exact ⟨rfl, (blit_rop_fold_fields ext _ dest_x dest_y rop _ canvas.image).trans hclip⟩
    · simp only [h, not_false_eq_true, if_true] at hr
      cases hr
  · intro r hr
    unfold __blend_scale_image at hr
    by_cases h : scale_mode = SPICE_IMAGE_SCALE_MODE_INTERPOLATE ∨
        scale_mode = SPICE_IMAGE_SCALE_MODE_NEAREST
    · simp only [h, not_true_eq_false, if_false, Except.ok.injEq] at hr
      rw [← hr]; exact ⟨rfl, rfl⟩
    · simp only [h, not_false_eq_true, if_true] at hr
      cases hr
  · intro h
    refine ⟨?_, ?_, ?_⟩
    · unfold __scale_image
      simp only [h, not_true_eq_false, if_false]
      exact ⟨_, rfl⟩
    · unfold __scale_image_rop
      simp only [h, not_true_eq_false, if_false]
      exact ⟨_, rfl⟩
    · unfold __blend_scale_image
      simp only [h, not_true_eq_false, if_false]
      exact ⟨_, rfl⟩

/-- C6 on the 4 × 4 surface, which carries no clip: a 2 × 2 source whose
transform on entry is a translation is scaled into the middle of the surface by
each of the three functions; each call returns with the transform of the source
the identity and the clip of the surface unset. -/
theorem scaled_ops_restore_state_witness :
    demo_canvas.image.clip = none ∧
    (∃ r, __scale_image demo_ext demo_canvas [⟨1, 1, 3, 3⟩]
          (pixman_image_set_transform demo_src (pixman_transform_t.translate 65536 0))
          0 0 2 2 1 1 2 2 SPICE_IMAGE_SCALE_MODE_NEAREST = Except.ok r ∧
        r.src.transform = pixman_transform_identity ∧ r.canvas.image.clip = none) ∧
    (∃ r, __scale_image_rop demo_ext demo_canvas [⟨1, 1, 3, 3⟩]
          (pixman_image_set_transform demo_src (pixman_transform_t.translate 65536 0))
          0 0 2 2 1 1 2 2 SPICE_IMAGE_SCALE_MODE_NEAREST 0 = Except.ok r ∧
        r.src.transform = pixman_transform_identity ∧ r.canvas.image.clip = none) ∧
    (∃ r, __blend_scale_image demo_ext demo_canvas [⟨1, 1, 3, 3⟩]
          (pixman_image_set_transform demo_src (pixman_transform_t.translate 65536 0))
          0 0 2 2 1 1 2 2 SPICE_IMAGE_SCALE_MODE_NEAREST 255 = Except.ok r ∧
        r.src.transform = pixman_transform_identity ∧ r.canvas.image.clip = none) :=
  have h := scaled_ops_restore_state demo_ext demo_canvas [⟨1, 1, 3, 3⟩]
    (pixman_image_set_transform demo_src (pixman_transform_t.translate 65536 0))
    0 0 2 2 1 1 2 2 SPICE_IMAGE_SCALE_MODE_NEAREST 0 255 rfl
  ⟨rfl,
    (h.2.2.2 (Or.inr rfl)).1.elim fun r hr => ⟨r, hr, h.1 r hr⟩,
    (h.2.2.2 (Or.inr rfl)).2.1.elim fun r hr => ⟨r, hr, h.2.1 r hr⟩,
    (h.2.2.2 (Or.inr rfl)).2.2.elim fun r hr => ⟨r, hr, h.2.2.1 r hr⟩⟩

theorem and_two_pow_ne_zero_iff (n i : Nat) : n &&& 2 ^ i ≠ 0 ↔ n.testBit i = true := by
  constructor
  · intro h
    obtain ⟨j, hj⟩ := Nat.ne_zero_implies_bit_true h
    rw [Nat.testBit_and, Nat.testBit_two_pow] at hj
    simp only [Bool.and_eq_true, decide_eq_true_eq] at hj
    rw [hj.2]; exact hj.1
  · intro h h0
    have : (n &&& 2 ^ i).testBit i = true := by
      rw [Nat.testBit_and, Nat.testBit_two_pow_self, h]; rfl
    rw [h0, Nat.zero_testBit] at this
    cases this

theorem text_depth_eq (flags : Nat) :
    text_depth flags =
      if flags.testBit 0 = true then some 1
      else if flags.testBit 1 = true then some 4
      else if flags.testBit 2 = true then some 8
      else none := by
  unfold text_depth SPICE_STRING_FLAGS_RASTER_A1 SPICE_STRING_FLAGS_RASTER_A4
    SPICE_STRING_FLAGS_RASTER_A8
  have h0 : flags &&& 1 ≠ 0 ↔ flags.testBit 0 = true := and_two_pow_ne_zero_iff flags 0
  have h1 : flags &&& 2 ≠ 0 ↔ flags.testBit 1 = true := and_two_pow_ne_zero_iff flags 1
  have h2 : flags &&& 4 ≠ 0 ↔ flags.testBit 2 = true := and_two_pow_ne_zero_iff flags 2
  simp only [h0, h1, h2]

theorem background_events {base : BaseCanvas} {canvas canvas' : CairoCanvas}
    {dest_region : List pixman_box32_t} {text : SpiceText} {events : List Event}
    (h : canvas_draw_text_background base canvas dest_region text = Except.ok (canvas', events)) :
    ∀ e ∈ events, (∃ region brush rop, e = Event.draw_brush region brush rop) ∨
      e = Event.region_fini_back := by
  unfold canvas_draw_text_background at h
  split at h
  · split at h
    · cases h
    · dsimp only at h
      split at h
      · simp only [Except.ok.injEq, Prod.mk.injEq] at h
        rw [← h.2]
        intro e he
        simp only [List.mem_cons, List.mem_singleton, List.not_mem_nil, or_false] at he
        rcases he with he | he
        · exact Or.inl ⟨_, _, _, he⟩
        · exact Or.inr he
      · simp only [Except.ok.injEq, Prod.mk.injEq] at h
        rw [← h.2]
        intro e he
        simp only [List.mem_singleton] at he
        exact Or.inr he
  · simp only [Except.ok.injEq, Prod.mk.injEq] at h
    rw [← h.2]
    intro e he
    cases he

theorem background_error {base : BaseCanvas} {canvas : CairoCanvas}
    {dest_region : List pixman_box32_t} {text : SpiceText} {e : Abort}
    (h : canvas_draw_text_background base canvas dest_region text = Except.error e) :
    e = Abort.ASSERT ∧ base.rect_is_empty text.back_area = false ∧
      text.fore_mode ≠ SPICE_ROPD_OP_PUT := by
  unfold canvas_draw_text_background at h
  split at h
  · rename_i hne
    split at h
    · rename_i hmode
      simp only [Except.error.injEq] at h
      exact ⟨h.symm, by simpa using hne, hmode⟩
    · dsimp only at h
      split at h <;> cases h
  · cases h

/-- C8: when the bounding box intersected with the clip is the empty region,
`canvas_draw_text` returns with the canvas unchanged after exactly three
resource calls: it touches the foreground brush, touches the background brush
and releases the destination region; no brush is resolved and no glyph mask is
fetched. -/
theorem draw_text_empty_region (ext : Externals) (base : BaseCanvas) (canvas : CairoCanvas)
    (bbox : SpiceRect) (clip : SpiceClip) (text : SpiceText)
    (hempty : pixman_region32_not_empty
      (base.canvas_clip_pixman
        (pixman_region32_init_rect bbox.left bbox.top (bbox.right - bbox.left)
          (bbox.bottom - bbox.top)) clip) = false) :
    canvas_draw_text ext base canvas bbox clip text =
      Except.ok (canvas,
        [Event.touch_brush text.fore_brush, Event.touch_brush text.back_brush,
          Event.region_fini_dest]) := by
  unfold canvas_draw_text
  simp only [hempty, Bool.not_false, if_true]

/-- C8, a text command whose clip has no rectangle. -/
theorem draw_text_empty_region_witness :
    pixman_region32_not_empty
        (demo_base.canvas_clip_pixman
          (pixman_region32_init_rect 0 0 (2 - 0) (2 - 0)) { type := 1, rects := [] }) = false ∧
      canvas_draw_text demo_ext demo_base demo_canvas ⟨0, 0, 2, 2⟩ { type := 1, rects := [] }
          demo_text =
        Except.ok (demo_canvas,
          [Event.touch_brush demo_text.fore_brush, Event.touch_brush demo_text.back_brush,
            Event.region_fini_dest]) :=
  ⟨by decide,
    draw_text_empty_region demo_ext demo_base demo_canvas ⟨0, 0, 2, 2⟩ { type := 1, rects := [] }
      demo_text (by decide)⟩


theorem glyph_events_mask {ext : Externals} {base : BaseCanvas} {canvas canvas' : CairoCanvas}
    {dest_region : List pixman_box32_t} {text : SpiceText} {depth : Nat} {events : List Event}
    (h : canvas_draw_text_glyphs ext base canvas dest_region text depth =
      Except.ok (canvas', events)) :
    Event.get_str_mask depth ∈ events := by
  unfold canvas_draw_text_glyphs at h
  split at h
  · cases h
  · dsimp only at h
    split at h
    · simp only [Except.ok.injEq, Prod.mk.injEq] at h
      rw [← h.2]; simp
    · simp only [Except.ok.injEq, Prod.mk.injEq] at h
      rw [← h.2]; simp

/-- C9: `canvas_draw_text` chooses the glyph coverage depth 1 if the A1 flag is
set, otherwise 4 if the A4 flag is set, otherwise 8 if the A8 flag is set, and
fetches the glyph mask at that depth.  When none of the three flags is set, a
returning call ends with the release of the destination region and has
resolved no brush, fetched no glyph mask and composited nothing; the only
fatal exit left is the assertion of the background step, so the missing flag
itself raises no error. -/
theorem draw_text_depth (ext : Externals) (base : BaseCanvas) (canvas : CairoCanvas)
    (bbox : SpiceRect) (clip : SpiceClip) (text : SpiceText) :
    (text_depth text.str.flags =
      if text.str.flags.testBit 0 = true then some 1
      else if text.str.flags.testBit 1 = true then some 4
      else if text.str.flags.testBit 2 = true then some 8
      else none) ∧
    (∀ depth canvas' events, text_depth text.str.flags = some depth →
      pixman_region32_not_empty
        (base.canvas_clip_pixman
          (pixman_region32_init_rect bbox.left bbox.top (bbox.right - bbox.left)
            (bbox.bottom - bbox.top)) clip) = true →
      canvas_draw_text ext base canvas bbox clip text = Except.ok (canvas', events) →
      Event.get_str_mask depth ∈ events) ∧
    (text.str.flags.testBit 0 = false → text.str.flags.testBit 1 = false →
      text.str.flags.testBit 2 = false →
      (∀ canvas' events,
        canvas_draw_text ext base canvas bbox clip text = Except.ok (canvas', events) →
        events.getLast? = some Event.region_fini_dest ∧
        ∀ e ∈ events, (∀ b, e ≠ Event.get_pixman_brush b) ∧ (∀ d, e ≠ Event.get_str_mask d) ∧
          e ≠ Event.composite) ∧
      (∀ err, canvas_draw_text ext base canvas bbox clip text = Except.error err →
        err = Abort.ASSERT ∧ base.rect_is_empty text.back_area = false ∧
          text.fore_mode ≠ SPICE_ROPD_OP_PUT)) := by
  refine ⟨text_depth_eq _, ?_, ?_⟩
  · intro depth canvas' events hdepth hne h
    unfold canvas_draw_text at h
    simp only [hne, Bool.not_true, Bool.false_eq_true, if_false, hdepth] at h
    cases hb : canvas_draw_text_background base canvas
        (base.canvas_clip_pixman
          (pixman_region32_init_rect bbox.left bbox.top (bbox.right - bbox.left)
            (bbox.bottom - bbox.top)) clip) text with
    | error e0 => rw [hb] at h; cases h
    | ok p =>
      obtain ⟨c0, ev0⟩ := p
      rw [hb] at h
      dsimp only at h
      cases hg : canvas_draw_text_glyphs ext base c0
          (base.canvas_clip_pixman
            (pixman_region32_init_rect bbox.left bbox.top (bbox.right - bbox.left)
              (bbox.bottom - bbox.top)) clip) text depth with
      | error e1 => rw [hg] at h; cases h
      | ok q =>
        obtain ⟨c1, ev1⟩ := q
        rw [hg] at h
        simp only [Except.ok.injEq, Prod.mk.injEq] at h
        rw [← h.2]
        exact List.mem_append_right _ (glyph_events_mask hg)
  · intro h0 h1 h2
    have hnone : text_depth text.str.flags = none := by
      rw [text_depth_eq]; simp [h0, h1, h2]
    constructor
    · intro canvas' events h
      unfold canvas_draw_text at h
      simp only [hnone] at h
      by_cases hr : (!pixman_region32_not_empty
          (base.canvas_clip_pixman
            (pixman_region32_init_rect bbox.left bbox.top (bbox.right - bbox.left)
              (bbox.bottom - bbox.top)) clip)) = true
      · simp only [hr, if_true, Except.ok.injEq, Prod.mk.injEq] at h
        rw [← h.2]
        refine ⟨rfl, ?_⟩
        intro e he
        simp only [List.mem_cons, List.mem_singleton, List.not_mem_nil, or_false] at he
        rcases he with he | he | he <;> subst he <;> simp
      · simp only [hr, Bool.false_eq_true, if_false] at h
        cases hb : canvas_draw_text_background base canvas
            (base.canvas_clip_pixman
              (pixman_region32_init_rect bbox.left bbox.top (bbox.right - bbox.left)
                (bbox.bottom - bbox.top)) clip) text with
        | error e0 => rw [hb] at h; cases h
        | ok p =>
          obtain ⟨c0, ev0⟩ := p
          rw [hb] at h
          simp only [Except.ok.injEq, Prod.mk.injEq] at h
          rw [← h.2]
          refine ⟨by simp, ?_⟩
          intro e he
          rw [List.mem_append] at he
          rcases he with he | he
          · rcases background_events hb e he with ⟨_, _, _, he'⟩ | he' <;> subst he' <;> simp
          · simp only [List.mem_cons, List.mem_singleton, List.not_mem_nil, or_false] at he
            rcases he with he | he <;> subst he <;> simp
    · intro err h
      unfold canvas_draw_text at h
      simp only [hnone] at h
      by_cases hr : (!pixman_region32_not_empty
          (base.canvas_clip_pixman
            (pixman_region32_init_rect bbox.left bbox.top (bbox.right - bbox.left)
              (bbox.bottom - bbox.top)) clip)) = true
      · simp only [hr, if_true] at h
        cases h
      · simp only [hr, Bool.false_eq_true, if_false] at h
        cases hb : canvas_draw_text_background base canvas
            (base.canvas_clip_pixman
              (pixman_region32_init_rect bbox.left bbox.top (bbox.right - bbox.left)
                (bbox.bottom - bbox.top)) clip) text with
        | error e0 =>
          rw [hb] at h
          simp only [Except.error.injEq] at h
          subst h
          exact background_error hb
        | ok p =>
          obtain ⟨c0, ev0⟩ := p
          rw [hb] at h
          cases h

theorem and_shiftLeft_mask (c m k : Nat) : c &&& (m <<< k) = ((c >>> k) &&& m) <<< k := by
  apply Nat.eq_of_testBit_eq
  intro j
  simp only [Nat.testBit_and, Nat.testBit_shiftLeft, Nat.testBit_shiftRight]
  by_cases h : j ≥ k
  · have : k + (j - k) = j := by omega
    simp [h, this]
  · simp [h]

theorem expand_low : ∀ v, v < 32 →
    ((v <<< 3) ||| ((v &&& 0x1c) >>> 2)) % 2 ^ 32 = replicate_top_bits v := by
  decide

theorem expand_mid : ∀ v, v < 32 →
    (((v <<< 5) <<< 6) ||| ((v &&& 0x1c) <<< 5) <<< 1) % 2 ^ 32 = replicate_top_bits v <<< 8 := by
  decide

theorem expand_high : ∀ v, v < 32 →
    (((v <<< 10) <<< 9) ||| ((v &&& 0x1c) <<< 10) <<< 4) % 2 ^ 32 =
      replicate_top_bits v <<< 16 := by
  decide

theorem replicate_top_bits_lt : ∀ v, v < 32 → replicate_top_bits v < 256 := by
  decide

theorem and_31_lt (x : Nat) : x &&& 0x1f < 32 :=
  Nat.lt_of_le_of_lt Nat.and_le_right (by decide)

theorem and_31_and_28 (x : Nat) : x &&& 0x1c = (x &&& 0x1f) &&& 0x1c := by
  have h : (0x1f : Nat) &&& 0x1c = 0x1c := by decide
  rw [Nat.and_assoc, h]

theorem get_color_formula (canvas : CairoCanvas) (color : Nat) (h : canvas.color_shift ≠ 8) :
    get_color canvas color =
      replicate_top_bits (color &&& 0x1f) |||
        (replicate_top_bits ((color >>> 5) &&& 0x1f) <<< 8) |||
        (replicate_top_bits ((color >>> 10) &&& 0x1f) <<< 16) := by
  unfold get_color
  simp only [h, if_false]
  have m1 : color &&& 0x03e0 = ((color >>> 5) &&& 0x1f) <<< 5 := and_shiftLeft_mask color 0x1f 5
  have m2 : color &&& 0x0380 = (((color >>> 5) &&& 0x1f) &&& 0x1c) <<< 5 := by
    rw [← and_31_and_28]; exact and_shiftLeft_mask color 0x1c 5
  have m3 : color &&& 0x7c00 = ((color >>> 10) &&& 0x1f) <<< 10 := and_shiftLeft_mask color 0x1f 10
  have m4 : color &&& 0x7000 = (((color >>> 10) &&& 0x1f) &&& 0x1c) <<< 10 := by
    rw [← and_31_and_28]; exact and_shiftLeft_mask color 0x1c 10
  have m0 : color &&& 0x001c = (color &&& 0x1f) &&& 0x1c := and_31_and_28 color
  have e0 := expand_low (color &&& 0x1f) (and_31_lt _)
  have e1 := expand_mid ((color >>> 5) &&& 0x1f) (and_31_lt _)
  have e2 := expand_high ((color >>> 10) &&& 0x1f) (and_31_lt _)
  have h3 : ((3 : Int) = 0) = False := by simp
  simp only [h3, if_false]
  rw [m1, m2, m3, m4, m0, e0, e1, e2]


theorem or_shiftLeft_eq_add (a b i : Nat) (h : b < 2 ^ i) : b ||| (a <<< i) = b + a * 2 ^ i := by
  rw [Nat.or_comm, Nat.shiftLeft_eq, Nat.mul_comm a, ← Nat.mul_add_lt_is_or h, Nat.add_comm]

theorem get_color_sum (canvas : CairoCanvas) (color : Nat) (h : canvas.color_shift ≠ 8) :
    get_color canvas color =
      replicate_top_bits (color &&& 0x1f) +
        replicate_top_bits ((color >>> 5) &&& 0x1f) * 256 +
        replicate_top_bits ((color >>> 10) &&& 0x1f) * 65536 := by
  rw [get_color_formula canvas color h]
  have b0 := replicate_top_bits_lt _ (and_31_lt color)
  have b1 := replicate_top_bits_lt _ (and_31_lt (color >>> 5))
  have s1 := or_shiftLeft_eq_add (replicate_top_bits ((color >>> 5) &&& 0x1f))
    (replicate_top_bits (color &&& 0x1f)) 8 (by norm_num; exact b0)
  rw [s1]
  have s2 := or_shiftLeft_eq_add (replicate_top_bits ((color >>> 10) &&& 0x1f))
    (replicate_top_bits (color &&& 0x1f) + replicate_top_bits ((color >>> 5) &&& 0x1f) * 2 ^ 8)
    16 (by norm_num; omega)
  rw [s2]
  norm_num

theorem and_31_eq_mod (x : Nat) : x &&& 0x1f = x % 32 := Nat.and_pow_two_sub_one_eq_mod x 5

theorem and_255_eq_mod (x : Nat) : x &&& 0xff = x % 256 := Nat.and_pow_two_sub_one_eq_mod x 8

/-- C11: `get_color` returns the colour unchanged when the channel shift of the
canvas is 8.  For any other channel shift it expands the three 5-bit channels
at input bits 0-4, 5-9 and 10-14 into the 8-bit channels at output bits 0-7,
8-15 and 16-23, each as `(v << 3) | (v >> 2)`; output bits 24-31 are zero, the
input bits from 15 up do not affect the result, and the expansion sends 0 to 0
and 31 to 255. -/
theorem get_color_expand (canvas : CairoCanvas) (color : Nat) :
    (canvas.color_shift = 8 → get_color canvas color = color) ∧
    (canvas.color_shift ≠ 8 →
      get_color canvas color =
          replicate_top_bits (color &&& 0x1f) |||
            (replicate_top_bits ((color >>> 5) &&& 0x1f) <<< 8) |||
            (replicate_top_bits ((color >>> 10) &&& 0x1f) <<< 16) ∧
        (∀ k, k < 3 →
          (get_color canvas color >>> (8 * k)) &&& 0xff =
            replicate_top_bits ((color >>> (5 * k)) &&& 0x1f)) ∧
        get_color canvas color >>> 24 = 0 ∧
        ∀ color', color' % 2 ^ 15 = color % 2 ^ 15 →
          get_color canvas color' = get_color canvas color) ∧
    replicate_top_bits 0 = 0 ∧ replicate_top_bits 31 = 255 := by
  refine ⟨?_, ?_, by decide, by decide⟩
  · intro h
    unfold get_color
    simp [h]
  · intro h
    have hsum := get_color_sum canvas color h
    have b0 := replicate_top_bits_lt _ (and_31_lt color)
    have b1 := replicate_top_bits_lt _ (and_31_lt (color >>> 5))
    have b2 := replicate_top_bits_lt _ (and_31_lt (color >>> 10))
    refine ⟨get_color_formula canvas color h, ?_, ?_, ?_⟩
    · intro k hk
      rw [and_255_eq_mod, Nat.shiftRight_eq_div_pow, hsum]
      interval_cases k
      · norm_num; omega
      · norm_num; omega
      · norm_num; omega
    · rw [Nat.shiftRight_eq_div_pow, hsum]
      norm_num
      omega
    · intro color' hc
      rw [get_color_sum canvas color' h, hsum]
      simp only [and_31_eq_mod, Nat.shiftRight_eq_div_pow]
      have h0 : color' % 32 = color % 32 := by norm_num at hc; omega
      have h1 : color' / 2 ^ 5 % 32 = color / 2 ^ 5 % 32 := by norm_num at hc ⊢; omega
      have h2 : color' / 2 ^ 10 % 32 = color / 2 ^ 10 % 32 := by norm_num at hc ⊢; omega
      rw [h0, h1, h2]

/-- C12: `canvas_get_pixman_brush` ends in a fatal error if and only if the
brush type is none of none, solid and pattern, and `CANVAS_ERROR` is its only
fatal exit; for each of the three valid types it returns, and the returned
paint source is null if and only if the brush type is none (the lookups of the
base canvas yield images, never null). -/
theorem brush_type_dispatch (canvas_get_surface : Nat → Option Image)
    (canvas_get_image : Nat → Image) (canvas : CairoCanvas) (brush : SpiceBrush) :
    (canvas_get_pixman_brush canvas_get_surface canvas_get_image canvas brush
        = Except.error Abort.CANVAS_ERROR ↔
      (brush.type ≠ SPICE_BRUSH_TYPE_NONE ∧ brush.type ≠ SPICE_BRUSH_TYPE_SOLID ∧
        brush.type ≠ SPICE_BRUSH_TYPE_PATTERN)) ∧
    (∀ e, canvas_get_pixman_brush canvas_get_surface canvas_get_image canvas brush
        = Except.error e → e = Abort.CANVAS_ERROR) ∧
    ((brush.type = SPICE_BRUSH_TYPE_NONE ∨ brush.type = SPICE_BRUSH_TYPE_SOLID ∨
        brush.type = SPICE_BRUSH_TYPE_PATTERN) →
      ∃ source, canvas_get_pixman_brush canvas_get_surface canvas_get_image canvas brush
          = Except.ok source ∧
        (source = none ↔ brush.type = SPICE_BRUSH_TYPE_NONE)) := by
  unfold canvas_get_pixman_brush
  by_cases hs : brush.type = SPICE_BRUSH_TYPE_SOLID
  · simp only [hs, if_true]
    refine ⟨?_, ?_, ?_⟩
    · constructor
      · intro h; cases h
      · intro h; exact absurd rfl h.2.1
    · intro e h; cases h
    · intro _
      exact ⟨_, rfl, by constructor <;> intro h <;> [cases h; exact absurd h (by decide)]⟩
  · by_cases hp : brush.type = SPICE_BRUSH_TYPE_PATTERN
    · simp only [hs, hp, if_true, if_false]
      have hps : ¬ SPICE_BRUSH_TYPE_PATTERN = SPICE_BRUSH_TYPE_SOLID := by decide
      simp only [hps, if_false]
      refine ⟨?_, ?_, ?_⟩
      · constructor
        · intro h; cases h
        · intro h; exact absurd rfl h.2.2
      · intro e h; cases h
      · intro _
        exact ⟨_, rfl, by constructor <;> intro h <;> [cases h; exact absurd h (by decide)]⟩
    · by_cases hn : brush.type = SPICE_BRUSH_TYPE_NONE
      · simp only [hs, hp, hn, if_true, if_false]
        have h1 : ¬ SPICE_BRUSH_TYPE_NONE = SPICE_BRUSH_TYPE_SOLID := by decide
        have h2 : ¬ SPICE_BRUSH_TYPE_NONE = SPICE_BRUSH_TYPE_PATTERN := by decide
        simp only [h1, h2, if_false]
        refine ⟨?_, ?_, ?_⟩
        · constructor
          · intro h; cases h
          · intro h; exact absurd rfl h.1
        · intro e h; cases h
        · intro _
          exact ⟨none, rfl, by simp⟩
      · rw [if_neg hs, if_neg hp, if_neg hn]
        refine ⟨?_, ?_, ?_⟩
        · exact ⟨fun _ => ⟨hn, hs, hp⟩, fun _ => rfl⟩
        · intro e h; cases h; rfl
        · intro h
          rcases h with h | h | h
          · exact absurd h hn
          · exact absurd h hs
          · exact absurd h hp

theorem canvas_get_pixman_brush_error {canvas_get_surface : Nat → Option Image}
    {canvas_get_image : Nat → Image} {canvas : CairoCanvas} {brush : SpiceBrush} {e : Abort}
    (h : canvas_get_pixman_brush canvas_get_surface canvas_get_image canvas brush
      = Except.error e) : e = Abort.CANVAS_ERROR := by
  unfold canvas_get_pixman_brush at h
  split at h
  · cases h
  · split at h
    · cases h
    · split at h
      · cases h
      · cases h; rfl

theorem glyphs_error {ext : Externals} {base : BaseCanvas} {canvas : CairoCanvas}
    {dest_region : List pixman_box32_t} {text : SpiceText} {depth : Nat} {e : Abort}
    (h : canvas_draw_text_glyphs ext base canvas dest_region text depth = Except.error e) :
    e = Abort.CANVAS_ERROR := by
  unfold canvas_draw_text_glyphs at h
  split at h
  · rename_i e' hb
    simp only [Except.error.injEq] at h
    subst h
    exact canvas_get_pixman_brush_error hb
  · dsimp only at h
    split at h <;> cases h

theorem background_ok_of_put (base : BaseCanvas) (canvas : CairoCanvas)
    (dest_region : List pixman_box32_t) {text : SpiceText}
    (h : text.fore_mode = SPICE_ROPD_OP_PUT) :
    ∃ r, canvas_draw_text_background base canvas dest_region text = Except.ok r := by
  unfold canvas_draw_text_background
  split
  · simp only [h, ne_eq, not_true_eq_false, if_false]
    split
    · exact ⟨_, rfl⟩
    · exact ⟨_, rfl⟩
  · exact ⟨_, rfl⟩

/-- C13 (as amended): for a text command with a non-empty background area and a
non-empty clipped region, `canvas_draw_text` asserts that the foreground mode
`fore_mode` is copy (PUT): it ends in the failed assertion when `fore_mode` is
anything else and does not when `fore_mode` is copy.  The background mode
`back_mode` is never read: changing it changes nothing. -/
theorem draw_text_asserts_fore_mode (ext : Externals) (base : BaseCanvas)
    (canvas : CairoCanvas) (bbox : SpiceRect) (clip : SpiceClip) (text : SpiceText)
    (hregion : pixman_region32_not_empty
      (base.canvas_clip_pixman
        (pixman_region32_init_rect bbox.left bbox.top (bbox.right - bbox.left)
          (bbox.bottom - bbox.top)) clip) = true)
    (hback : base.rect_is_empty text.back_area = false) :
    (text.fore_mode ≠ SPICE_ROPD_OP_PUT →
      canvas_draw_text ext base canvas bbox clip text = Except.error Abort.ASSERT) ∧
    (text.fore_mode = SPICE_ROPD_OP_PUT →
      canvas_draw_text ext base canvas bbox clip text ≠ Except.error Abort.ASSERT) ∧
    (∀ mode, canvas_draw_text ext base canvas bbox clip { text with back_mode := mode } =
      canvas_draw_text ext base canvas bbox clip text) := by
  refine ⟨?_, ?_, fun mode => rfl⟩
  · intro hmode
    unfold canvas_draw_text
    simp only [hregion, Bool.not_true, Bool.false_eq_true, if_false]
    have hb : canvas_draw_text_background base canvas
        (base.canvas_clip_pixman
          (pixman_region32_init_rect bbox.left bbox.top (bbox.right - bbox.left)
            (bbox.bottom - bbox.top)) clip) text = Except.error Abort.ASSERT := by
      unfold canvas_draw_text_background
      simp only [hback, Bool.not_false, if_true, hmode, ne_eq, not_false_eq_true]
    rw [hb]
  · intro hmode h
    unfold canvas_draw_text at h
    simp only [hregion, Bool.not_true, Bool.false_eq_true, if_false] at h
    obtain ⟨⟨c0, ev0⟩, hb⟩ := background_ok_of_put base canvas
      (base.canvas_clip_pixman
        (pixman_region32_init_rect bbox.left bbox.top (bbox.right - bbox.left)
          (bbox.bottom - bbox.top)) clip) hmode
    rw [hb] at h
    dsimp only at h
    cases hd : text_depth text.str.flags with
    | none => rw [hd] at h; cases h
    | some depth =>
      rw [hd] at h
      dsimp only at h
      cases hg : canvas_draw_text_glyphs ext base c0
          (base.canvas_clip_pixman
            (pixman_region32_init_rect bbox.left bbox.top (bbox.right - bbox.left)
              (bbox.bottom - bbox.top)) clip) text depth with
      | error e1 =>
        rw [hg] at h
        have := glyphs_error hg
        subst this
        cases h
      | ok q =>
        obtain ⟨c1, ev1⟩ := q
        rw [hg] at h
        cases h

/-- C13, a text command with a background area inside a non-empty clipped
region. -/
theorem draw_text_asserts_fore_mode_witness :
    canvas_draw_text demo_ext demo_base demo_canvas ⟨0, 0, 2, 2⟩ ⟨0, []⟩ demo_text_fore_or
      = Except.error Abort.ASSERT :=
  (draw_text_asserts_fore_mode demo_ext demo_base demo_canvas ⟨0, 0, 2, 2⟩ ⟨0, []⟩
    demo_text_fore_or (by decide) (by decide)).1 (by decide)

/-- C13, the claim as stated fails: with a non-empty background area and a
non-empty clipped region, a text command whose background mode is copy ends in
the failed assertion (its foreground mode is OR), and a text command whose
background mode is OR is drawn (its foreground mode is copy). -/
theorem draw_text_back_mode_counterexample :
    (demo_base.rect_is_empty demo_text_fore_or.back_area = false ∧
      demo_text_fore_or.back_mode = SPICE_ROPD_OP_PUT ∧
      canvas_draw_text demo_ext demo_base demo_canvas ⟨0, 0, 2, 2⟩ ⟨0, []⟩ demo_text_fore_or
        = Except.error Abort.ASSERT) ∧
    (demo_base.rect_is_empty demo_text_back_or.back_area = false ∧
      demo_text_back_or.back_mode ≠ SPICE_ROPD_OP_PUT ∧
      ∃ r, canvas_draw_text demo_ext demo_base demo_canvas ⟨0, 0, 2, 2⟩ ⟨0, []⟩
        demo_text_back_or = Except.ok r) :=
  ⟨⟨by decide, by decide, rfl⟩, ⟨by decide, by decide, ⟨_, rfl⟩⟩⟩

theorem boxes_disjoint_pixels {a b : pixman_box32_t} (h : boxes_disjoint a b) (x y : Int)
    (ha : box_contains a x y = true) : box_contains b x y = false := by
  rw [box_contains_iff] at ha
  rw [box_contains_false_iff]
  unfold boxes_disjoint at h
  omega

theorem region_contains_perm {rects rects' : List pixman_box32_t} (h : rects.Perm rects')
    (x y : Int) : region_contains rects' x y = region_contains rects x y := by
  rw [Bool.eq_iff_iff, region_contains_iff, region_contains_iff]
  constructor
  · rintro ⟨r, hr, hin⟩; exact ⟨r, h.mem_iff.2 hr, hin⟩
  · rintro ⟨r, hr, hin⟩; exact ⟨r, h.mem_iff.1 hr, hin⟩

theorem fill_rop_fold_spec (ext : Externals) (v rop : Nat) :
    ∀ (rects : List pixman_box32_t) (image : Image), rects.Pairwise boxes_disjoint →
      rects.foldl
        (fun image r =>
          spice_pixman_fill_rect_rop ext image r.x1 r.y1 (r.x2 - r.x1) (r.y2 - r.y1) v rop)
        image =
      { image with
        pix := fun x y =>
          if region_contains rects x y = true then ext.rop rop v (image.pix x y)
          else image.pix x y } := by
  intro rects
  induction rects with
  | nil => intro image _; simp [region_contains]
  | cons r rest ih =>
    intro image hpw
    rw [List.pairwise_cons] at hpw
    rw [List.foldl_cons, ih _ hpw.2]
    simp only [spice_pixman_fill_rect_rop]
    congr 1
    funext x y
    have hreg : region_contains (r :: rest) x y = (box_contains r x y || region_contains rest x y) := by
      simp [region_contains]
    rw [hreg]
    by_cases hc : region_contains rest x y = true
    · obtain ⟨r', hr', hin⟩ := region_contains_iff.1 hc
      have hb' : box_contains r x y = false := by
        by_contra hcon
        have hb : box_contains r x y = true := by simpa using hcon
        have := boxes_disjoint_pixels (hpw.1 r' hr') x y hb
        rw [hin] at this
        cases this
      have hno : ¬ (r.x1 ≤ x ∧ x < r.x1 + (r.x2 - r.x1) ∧ r.y1 ≤ y ∧ y < r.y1 + (r.y2 - r.y1)) := by
        intro h
        have : box_contains r x y = true := by rw [box_contains_iff]; omega
        rw [hb'] at this
        cases this
      simp only [hc, hno, Bool.or_true, if_true, if_false]
    · have hc' : region_contains rest x y = false := by simpa using hc
      by_cases hb : box_contains r x y = true
      · have hb' := box_contains_iff.1 hb
        have hyes : r.x1 ≤ x ∧ x < r.x1 + (r.x2 - r.x1) ∧ r.y1 ≤ y ∧ y < r.y1 + (r.y2 - r.y1) := by
          omega
        simp only [hc', hb, hyes, Bool.or_false, and_self, if_true, if_false, Bool.false_eq_true]
      · have hb' : box_contains r x y = false := by simpa using hb
        have hno : ¬ (r.x1 ≤ x ∧ x < r.x1 + (r.x2 - r.x1) ∧ r.y1 ≤ y ∧ y < r.y1 + (r.y2 - r.y1)) := by
          intro h; apply hb; rw [box_contains_iff]; omega
        simp only [hc', hb', hno, Bool.or_false, if_true, if_false, Bool.false_eq_true]

/-- C14: for pairwise disjoint rectangles inside the surface, every colour and
every ROP, `fill_solid_rects` and `fill_solid_rects_rop` leave the same canvas
for every permutation of the rectangle list.  Each issues exactly one
primitive call per rectangle, with origin `(x1, y1)`, size
`(x2 - x1, y2 - y1)` and the converted colour, and the canvas is the result of
these calls run in list order. -/
theorem fill_solid_rects_perm (ext : Externals) (canvas : CairoCanvas) (color rop : Nat)
    (rects rects' : List pixman_box32_t) (hperm : rects.Perm rects')
    (hdisj : rects.Pairwise boxes_disjoint)
    (_hin : ∀ r ∈ rects, box_inside canvas.image r) :
    fill_solid_rects canvas rects' color = fill_solid_rects canvas rects color ∧
    fill_solid_rects_rop ext canvas rects' color rop =
      fill_solid_rects_rop ext canvas rects color rop ∧
    (fill_solid_rects_calls canvas rects color).length = rects.length ∧
    (∀ (i : Nat) (h : i < rects.length),
      (fill_solid_rects_calls canvas rects color)[i]? =
        some { x := rects[i].x1, y := rects[i].y1, width := rects[i].x2 - rects[i].x1,
               height := rects[i].y2 - rects[i].y1, value := get_color canvas color }) ∧
    (fill_solid_rects canvas rects color).image =
      (fill_solid_rects_calls canvas rects color).foldl
        (fun image c => spice_pixman_fill_rect image c.x c.y c.width c.height c.value)
        canvas.image ∧
    (fill_solid_rects_rop ext canvas rects color rop).image =
      (fill_solid_rects_calls canvas rects color).foldl
        (fun image c => spice_pixman_fill_rect_rop ext image c.x c.y c.width c.height c.value rop)
        canvas.image := by
  have hdisj' : rects'.Pairwise boxes_disjoint :=
    (hperm.pairwise_iff (fun {a b} h => by unfold boxes_disjoint at h ⊢; omega)).1 hdisj
  refine ⟨?_, ?_, ?_, ?_, ?_, ?_⟩
  · unfold fill_solid_rects
    rw [fill_fold_spec, fill_fold_spec]
    congr 2
    funext x y
    rw [region_contains_perm hperm]
  · unfold fill_solid_rects_rop
    rw [fill_rop_fold_spec ext _ rop rects' _ hdisj', fill_rop_fold_spec ext _ rop rects _ hdisj]
    congr 2
    funext x y
    rw [region_contains_perm hperm]
  · unfold fill_solid_rects_calls
    rw [List.length_map]
  · intro i h
    unfold fill_solid_rects_calls
    rw [List.getElem?_map, List.getElem?_eq_getElem h]
    rfl
  · unfold fill_solid_rects fill_solid_rects_calls
    rw [List.foldl_map]
  · unfold fill_solid_rects_rop fill_solid_rects_calls
    rw [List.foldl_map]

/-- C14, two disjoint rectangles of the 4 × 4 surface in both orders. -/
theorem fill_solid_rects_perm_witness :
    fill_solid_rects demo_canvas [⟨2, 2, 4, 4⟩, ⟨0, 0, 2, 2⟩] 7 =
      fill_solid_rects demo_canvas [⟨0, 0, 2, 2⟩, ⟨2, 2, 4, 4⟩] 7 ∧
    fill_solid_rects_rop demo_ext demo_canvas [⟨2, 2, 4, 4⟩, ⟨0, 0, 2, 2⟩] 7 3 =
      fill_solid_rects_rop demo_ext demo_canvas [⟨0, 0, 2, 2⟩, ⟨2, 2, 4, 4⟩] 7 3 :=
  have h := fill_solid_rects_perm demo_ext demo_canvas 7 3 [⟨0, 0, 2, 2⟩, ⟨2, 2, 4, 4⟩]
    [⟨2, 2, 4, 4⟩, ⟨0, 0, 2, 2⟩] (List.Perm.swap _ _ _) (by decide) (by decide)
  ⟨h.1, h.2.1⟩

theorem int_range_snoc : ∀ (len : Nat) (lo : Int),
    int_range lo (len + 1) = int_range lo len ++ [lo + len] := by
  intro len
  induction len with
  | zero => intro lo; simp [int_range]
  | succ m ih =>
    intro lo
    rw [int_range, ih (lo + 1), int_range]
    have : lo + 1 + (m : Int) = lo + ((m + 1 : Nat) : Int) := by push_cast; omega
    rw [this]
    rfl

theorem int_range_length : ∀ (len : Nat) (lo : Int), (int_range lo len).length = len := by
  intro len
  induction len with
  | zero => intro lo; rfl
  | succ m ih => intro lo; rw [int_range, List.length_cons, ih]

theorem mem_int_range : ∀ (len : Nat) (lo k : Int),
    k ∈ int_range lo len ↔ lo ≤ k ∧ k < lo + len := by
  intro len
  induction len with
  | zero => intro lo k; simp [int_range]
  | succ m ih =>
    intro lo k
    rw [int_range, List.mem_cons, ih]
    push_cast
    omega

theorem for_up_exact (i : Int) :
    ∀ (fuel : Nat) (j : Int), j ≤ i + 1 → i + 1 - j < fuel →
      for_up fuel j i = some (int_range j (i + 1 - j).toNat) := by
  intro fuel
  induction fuel with
  | zero => intro j h0 h; exfalso; simp at h; omega
  | succ f ih =>
    intro j h0 h
    unfold for_up
    by_cases hi : j ≤ i
    · have hlen : (i + 1 - j).toNat = (i + 1 - (j + 1)).toNat + 1 := by omega
      rw [if_pos hi, ih (j + 1) (by omega) (by push_cast at h; omega), hlen, int_range]
      rfl
    · have hlen : (i + 1 - j).toNat = 0 := by omega
      rw [if_neg hi, hlen, int_range]

theorem for_down_exact (i : Int) :
    ∀ (fuel : Nat) (j : Int), i - 1 ≤ j → j + 1 - i < fuel →
      for_down fuel j i = some (int_range i (j + 1 - i).toNat).reverse := by
  intro fuel
  induction fuel with
  | zero => intro j h0 h; exfalso; simp at h; omega
  | succ f ih =>
    intro j h0 h
    unfold for_down
    by_cases hi : j ≥ i
    · have hlen : (j + 1 - i).toNat = (j - 1 + 1 - i).toNat + 1 := by omega
      have hlast : i + ((j - 1 + 1 - i).toNat : Int) = j := by omega
      rw [if_pos hi, ih (j - 1) (by omega) (by push_cast at h; omega), hlen, int_range_snoc,
        hlast, List.reverse_append]
      rfl
    · have hlen : (j + 1 - i).toNat = 0 := by omega
      rw [if_neg hi, hlen, int_range]
      rfl

theorem copy_region_se_exact :
    ∀ (fuel : Nat) (i : Int), -1 ≤ i → i + 1 < fuel →
      copy_region_se fuel i = some (int_range 0 (i + 1).toNat).reverse := by
  intro fuel
  induction fuel with
  | zero => intro i h0 h; exfalso; simp at h; omega
  | succ f ih =>
    intro i h0 h
    unfold copy_region_se
    by_cases hi : i ≥ 0
    · have hlen : (i + 1).toNat = (i - 1 + 1).toNat + 1 := by omega
      have hlast : 0 + ((i - 1 + 1).toNat : Int) = i := by omega
      rw [if_pos hi, ih (i - 1) (by omega) (by push_cast at h; omega), hlen, int_range_snoc,
        hlast, List.reverse_append]
      rfl
    · have hlen : (i + 1).toNat = 0 := by omega
      rw [if_neg hi, hlen, int_range]
      rfl

theorem copy_region_nw_exact (n : Int) :
    ∀ (fuel : Nat) (i : Int), i ≤ n → n - i < fuel →
      copy_region_nw n fuel i = some (int_range i (n - i).toNat) := by
  intro fuel
  induction fuel with
  | zero => intro i h0 h; exfalso; simp at h; omega
  | succ f ih =>
    intro i h0 h
    unfold copy_region_nw
    by_cases hi : i < n
    · have hlen : (n - i).toNat = (n - (i + 1)).toNat + 1 := by omega
      rw [if_pos hi, ih (i + 1) (by omega) (by push_cast at h; omega), hlen, int_range]
      rfl
    · have hlen : (n - i).toNat = 0 := by omega
      rw [if_neg hi, hlen, int_range]

theorem copy_region_body_eq (rects : List pixman_box32_t) (dx dy : Int) (cur : Image)
    (i : Int) (r : pixman_box32_t) (h : rect_at rects i = some r) :
    copy_region_body rects dx dy cur i =
      some (spice_pixman_copy_rect cur (r.x1 - dx) (r.y1 - dy) (r.x2 - r.x1) (r.y2 - r.y1)
        r.x1 r.y1) := by
  unfold copy_region_body
  rw [h]
  rfl


theorem top_runs_singleton (t k : Int) : top_runs [t] k = [[k]] := by
  simp [top_runs, top_runs_step]

theorem top_runs_cons_cons {t t' : Int} {rest : List Int} {k : Int} {run : List Int}
    {runs : List (List Int)} (h : top_runs (t' :: rest) (k + 1) = run :: runs) :
    top_runs (t :: t' :: rest) k =
      if t = t' then (k :: run) :: runs else [k] :: run :: runs := by
  rw [top_runs, h, top_runs_step]

theorem top_runs_ne_nil : ∀ (l : List Int) (k : Int), l ≠ [] → top_runs l k ≠ [] := by
  intro l
  induction l with
  | nil => intro k h; exact absurd rfl h
  | cons t rest ih =>
    intro k _
    cases rest with
    | nil => rw [top_runs_singleton]; simp
    | cons t' rest' =>
      cases hr : top_runs (t' :: rest') (k + 1) with
      | nil => exact absurd hr (ih (k + 1) (by simp))
      | cons run runs =>
        rw [top_runs_cons_cons hr]
        split <;> simp

theorem top_runs_replicate_append (t : Int) (l : List Int) (hl : l.head? ≠ some t) :
    ∀ (m : Nat) (k : Int),
      top_runs (List.replicate (m + 1) t ++ l) k =
        int_range k (m + 1) :: top_runs l (k + ((m + 1 : Nat) : Int)) := by
  intro m
  induction m with
  | zero =>
    intro k
    cases l with
    | nil => simp [top_runs, top_runs_step, int_range]
    | cons t' l' =>
      have hne : t ≠ t' := by
        intro h; apply hl; simp [h]
      cases hr : top_runs (t' :: l') (k + 1) with
      | nil => exact absurd hr (top_runs_ne_nil _ _ (by simp))
      | cons run runs =>
        show top_runs (t :: t' :: l') k = _
        rw [top_runs_cons_cons hr, if_neg hne]
        simp [int_range, hr]
  | succ m ih =>
    intro k
    have hrest := ih (k + 1)
    have hshape : List.replicate (m + 1 + 1) t ++ l = t :: t :: (List.replicate m t ++ l) := by
      simp [List.replicate_succ]
    have hshape' : List.replicate (m + 1) t ++ l = t :: (List.replicate m t ++ l) := by
      simp [List.replicate_succ]
    rw [hshape'] at hrest
    rw [hshape, top_runs_cons_cons hrest, if_pos rfl]
    have hk : k + 1 + ((m + 1 : Nat) : Int) = k + ((m + 1 + 1 : Nat) : Int) := by
      push_cast; omega
    rw [hk]
    rfl

theorem top_runs_append_replicate (t : Int) (m : Nat) :
    ∀ (l : List Int) (k : Int), l.getLast? ≠ some t →
      top_runs (l ++ List.replicate (m + 1) t) k =
        top_runs l k ++ [int_range (k + (l.length : Int)) (m + 1)] := by
  intro l
  induction l with
  | nil =>
    intro k _
    have h := top_runs_replicate_append t [] (by simp) m k
    simp only [List.append_nil] at h
    rw [List.nil_append, h]
    simp [top_runs]
  | cons a l' ih =>
    intro k hlast
    cases l' with
    | nil =>
      have hne : a ≠ t := by
        intro h; apply hlast; simp [h]
      have hrest := top_runs_replicate_append t [] (by simp) m (k + 1)
      simp only [List.append_nil] at hrest
      have hshape : [a] ++ List.replicate (m + 1) t = a :: t :: List.replicate m t := by
        simp [List.replicate_succ]
      have hshape' : List.replicate (m + 1) t = t :: List.replicate m t := by
        simp [List.replicate_succ]
      rw [hshape'] at hrest
      rw [hshape, top_runs_cons_cons hrest, if_neg hne, top_runs_singleton]
      simp [top_runs]
    | cons b l'' =>
      have hlast' : (b :: l'').getLast? ≠ some t := by
        intro h; apply hlast
        rw [List.getLast?_cons_cons]; exact h
      have hrest := ih (k + 1) hlast'
      cases hr : top_runs (b :: l'') (k + 1) with
      | nil => exact absurd hr (top_runs_ne_nil _ _ (by simp))
      | cons run runs =>
        rw [hr] at hrest
        have hshape : (a :: b :: l'') ++ List.replicate (m + 1) t =
            a :: b :: (l'' ++ List.replicate (m + 1) t) := rfl
        have hshape' : (b :: l'') ++ List.replicate (m + 1) t =
            b :: (l'' ++ List.replicate (m + 1) t) := rfl
        rw [hshape'] at hrest
        have hk : k + 1 + ((b :: l'').length : Int) = k + ((a :: b :: l'').length : Int) := by
          simp only [List.length_cons]; push_cast; omega
        rw [hk] at hrest
        rw [hshape, top_runs_cons_cons hrest, top_runs_cons_cons hr]
        split <;> simp


theorem drop_eq_replicate_append (l : List Int) (t : Int) :
    ∀ (d i : Nat), i + d ≤ l.length → (∀ k, i ≤ k → k < i + d → l[k]? = some t) →
      l.drop i = List.replicate d t ++ l.drop (i + d) := by
  intro d
  induction d with
  | zero => intro i _ _; simp
  | succ d ih =>
    intro i hlen hall
    have hi : i < l.length := by omega
    have hget : l[i] = t := by
      have := hall i (le_refl _) (by omega)
      rw [List.getElem?_eq_getElem hi] at this
      exact Option.some.inj this
    rw [List.drop_eq_getElem_cons hi, hget, ih (i + 1) (by omega)
      (fun k hk1 hk2 => hall k (by omega) (by omega)), List.replicate_succ]
    have : i + 1 + d = i + (d + 1) := by omega
    rw [this]
    rfl

theorem take_eq_append_replicate (l : List Int) (t : Int) (a d : Nat) (hlen : a + d ≤ l.length)
    (hall : ∀ k, a ≤ k → k < a + d → l[k]? = some t) :
    l.take (a + d) = l.take a ++ List.replicate d t := by
  rw [List.take_add, drop_eq_replicate_append l t d a hlen hall]
  rw [List.take_left' (by simp)]

theorem tops_at {rects : List pixman_box32_t} {k : Int} {r : pixman_box32_t}
    (h : rect_at rects k = some r) : (rects.map fun r => r.y1)[k.toNat]? = some r.y1 := by
  rw [rect_at_eq_some] at h
  rw [List.getElem?_map, h.2]
  rfl


theorem copy_region_ne_exact (rects : List pixman_box32_t) :
    ∀ (fuel : Nat) (i : Nat), i ≤ rects.length → (rects.length : Int) - i < fuel →
      copy_region_ne rects fuel (i : Int) =
        some ((top_runs ((rects.map fun r => r.y1).drop i) i).map List.reverse).flatten := by
  intro fuel
  induction fuel with
  | zero => intro i _ h; exfalso; simp at h; omega
  | succ f ih =>
    intro i hn h
    unfold copy_region_ne
    by_cases hi : (i : Int) < (rects.length : Int)
    · obtain ⟨ri, hri⟩ := rect_at_isSome (show (0 : Int) ≤ i by omega) hi
      obtain ⟨e, he, hlo, hhi, hsame, hstop⟩ :=
        ne_end_line_spec hri (rects.length + 1) i (by omega) (by omega) (by push_cast; omega)
      have hei : (i : Int) < e := by
        by_contra hcon
        have : e = i := by omega
        subst this
        exact hstop ri hri rfl
      obtain ⟨m, hm⟩ : ∃ m : Nat, e = (i : Int) + ((m + 1 : Nat) : Int) :=
        ⟨(e - i - 1).toNat, by push_cast; omega⟩
      have hall : ∀ k : Nat, i ≤ k → k < i + (m + 1) →
          (rects.map fun r => r.y1)[k]? = some ri.y1 := by
        intro k hk1 hk2
        obtain ⟨rk, hrk⟩ := rect_at_isSome (show (0 : Int) ≤ k by omega)
          (show (k : Int) < rects.length by push_cast at hm; omega)
        have hy := hsame k rk (by omega) (by push_cast at hm; omega) hrk
        have ht := tops_at hrk
        rw [Int.toNat_ofNat, hy] at ht
        exact ht
      have hdrop := drop_eq_replicate_append (rects.map fun r => r.y1) ri.y1 (m + 1) i
        (by rw [List.length_map]; push_cast at hm; omega) hall
      have hhead : ((rects.map fun r => r.y1).drop (i + (m + 1))).head? ≠ some ri.y1 := by
        rw [List.head?_drop]
        by_cases hlt : e < (rects.length : Int)
        · obtain ⟨re, hre⟩ := rect_at_isSome (show (0 : Int) ≤ e by omega) hlt
          have ht := tops_at hre
          have hidx : e.toNat = i + (m + 1) := by push_cast at hm; omega
          rw [hidx] at ht
          rw [ht]
          intro hcon
          exact hstop re hre (Option.some.inj hcon)
        · have hge : (rects.map fun r => r.y1).length ≤ i + (m + 1) := by
            rw [List.length_map]; push_cast at hm; omega
          rw [List.getElem?_eq_none hge]
          simp
      have hruns := top_runs_replicate_append ri.y1 _ hhead m (i : Int)
      rw [← hdrop] at hruns
      have hgroup := for_down_exact (i : Int) (rects.length + 1) (e - 1) (by omega)
        (by push_cast; omega)
      have hlen : (e - 1 + 1 - (i : Int)).toNat = m + 1 := by push_cast at hm; omega
      rw [hlen] at hgroup
      have hrest := ih (i + (m + 1)) (by push_cast at hm; omega) (by push_cast at hm h ⊢; omega)
      have hcast : ((i + (m + 1) : Nat) : Int) = e := by push_cast at hm ⊢; omega
      rw [hcast] at hrest
      have hcast' : (i : Int) + ((m + 1 : Nat) : Int) = e := by omega
      rw [hcast'] at hruns
      rw [if_pos hi, he, Option.some_bind, hgroup, Option.some_bind, hrest, hruns]
      simp
    · have : i = rects.length := by omega
      subst this
      rw [if_neg hi]
      have hnil : (rects.map fun r => r.y1).drop rects.length = [] :=
        List.drop_eq_nil_of_le (by rw [List.length_map])
      rw [hnil]
      rfl


theorem copy_region_sw_exact (rects : List pixman_box32_t) :
    ∀ (fuel : Nat) (a : Nat), a ≤ rects.length → a < fuel →
      copy_region_sw rects fuel ((a : Int) - 1) =
        some (top_runs ((rects.map fun r => r.y1).take a) 0).reverse.flatten := by
  intro fuel
  induction fuel with
  | zero => intro a _ h; exfalso; omega
  | succ f ih =>
    intro a hn h
    unfold copy_region_sw
    by_cases hi : (a : Int) - 1 ≥ 0
    · obtain ⟨ri, hri⟩ := rect_at_isSome hi (show (a : Int) - 1 < rects.length by omega)
      obtain ⟨e, he, hlo, hhi, hsame, hstop⟩ :=
        sw_end_line_spec hri (rects.length + 1) ((a : Int) - 1 - 1) (by omega) (by omega)
          (by push_cast; omega)
      obtain ⟨b, hb⟩ : ∃ b : Nat, e = (b : Int) - 1 := ⟨(e + 1).toNat, by omega⟩
      obtain ⟨m, hm⟩ : ∃ m : Nat, a = b + (m + 1) := ⟨a - b - 1, by omega⟩
      have hall : ∀ k : Nat, b ≤ k → k < b + (m + 1) →
          (rects.map fun r => r.y1)[k]? = some ri.y1 := by
        intro k hk1 hk2
        obtain ⟨rk, hrk⟩ := rect_at_isSome (show (0 : Int) ≤ k by omega)
          (show (k : Int) < rects.length by omega)
        have ht := tops_at hrk
        rw [Int.toNat_ofNat] at ht
        by_cases hka : (k : Int) = (a : Int) - 1
        · rw [hka, hri] at hrk
          cases hrk
          exact ht
        · have hy := hsame k rk (by omega) (by omega) hrk
          rw [hy] at ht
          exact ht
      have htake := take_eq_append_replicate (rects.map fun r => r.y1) ri.y1 b (m + 1)
        (by rw [List.length_map]; omega) hall
      have hlast : ((rects.map fun r => r.y1).take b).getLast? ≠ some ri.y1 := by
        rw [List.getLast?_take]
        by_cases hb0 : b = 0
        · simp [hb0]
        · rw [if_neg hb0]
          obtain ⟨re, hre⟩ := rect_at_isSome (show (0 : Int) ≤ e by omega)
            (show e < rects.length by omega)
          have ht := tops_at hre
          have hidx : e.toNat = b - 1 := by omega
          rw [hidx] at ht
          rw [ht]
          intro hcon
          exact hstop re hre (Option.some.inj hcon)
      have hruns := top_runs_append_replicate ri.y1 m _ 0 hlast
      rw [← htake, ← hm] at hruns
      have hlenb : ((rects.map fun r => r.y1).take b).length = b := by
        rw [List.length_take, List.length_map]; omega
      rw [hlenb] at hruns
      have hgroup := for_up_exact ((a : Int) - 1) (rects.length + 1) (e + 1) (by omega)
        (by push_cast; omega)
      have hlen : ((a : Int) - 1 + 1 - (e + 1)).toNat = m + 1 := by omega
      have hstart : e + 1 = 0 + (b : Int) := by omega
      rw [hlen, hstart] at hgroup
      have hrest := ih b (by omega) (by omega)
      rw [← hb] at hrest
      rw [if_pos hi, he, Option.some_bind, hstart, hgroup, Option.some_bind, hrest, hruns]
      simp
    · have : a = 0 := by omega
      subst this
      rw [if_neg hi]
      rfl


theorem top_runs_flatten : ∀ (l : List Int) (k : Int),
    (top_runs l k).flatten = int_range k l.length := by
  intro l
  induction l with
  | nil => intro k; rfl
  | cons t rest ih =>
    intro k
    cases rest with
    | nil => rw [top_runs_singleton]; rfl
    | cons t' rest' =>
      have hrest := ih (k + 1)
      cases hr : top_runs (t' :: rest') (k + 1) with
      | nil => exact absurd hr (top_runs_ne_nil _ _ (by simp))
      | cons run runs =>
        rw [hr] at hrest
        rw [top_runs_cons_cons hr, List.length_cons, int_range, ← hrest]
        split <;> simp

theorem pixman_region32_translate_back (region : List pixman_box32_t) (x y : Int) :
    pixman_region32_translate (pixman_region32_translate region (-x) (-y)) x y = region := by
  unfold pixman_region32_translate
  rw [List.map_map]
  conv => rhs; rw [← List.map_id region]
  apply List.map_congr_left
  intro r _
  cases r with
  | mk x1 y1 x2 y2 =>
    simp only [Function.comp, id]
    congr 1 <;> omega

theorem blit_rop_fold_spec (ext : Externals) (scaled : Image) (dx dy : Int) (rop : Nat) :
    ∀ (region : List pixman_box32_t) (image : Image), region.Pairwise boxes_disjoint →
      region.foldl
        (fun image r =>
          spice_pixman_blit_rop ext image scaled (r.x1 - dx) (r.y1 - dy) r.x1 r.y1
            (r.x2 - r.x1) (r.y2 - r.y1) rop)
        image =
      { image with
        pix := fun x y =>
          if region_contains region x y = true then
            ext.rop rop (scaled.pix (x - dx) (y - dy)) (image.pix x y)
          else image.pix x y } := by
  intro region
  induction region with
  | nil => intro image _; simp [region_contains]
  | cons r rest ih =>
    intro image hpw
    rw [List.pairwise_cons] at hpw
    rw [List.foldl_cons, ih _ hpw.2]
    simp only [spice_pixman_blit_rop]
    congr 1
    funext x y
    have hreg : region_contains (r :: rest) x y = (box_contains r x y || region_contains rest x y) := by
      simp [region_contains]
    have e1 : x - r.x1 + (r.x1 - dx) = x - dx := by omega
    have e2 : y - r.y1 + (r.y1 - dy) = y - dy := by omega
    rw [hreg, e1, e2]
    by_cases hc : region_contains rest x y = true
    · obtain ⟨r', hr', hin⟩ := region_contains_iff.1 hc
      have hb' : box_contains r x y = false := by
        by_contra hcon
        have hb : box_contains r x y = true := by simpa using hcon
        have := boxes_disjoint_pixels (hpw.1 r' hr') x y hb
        rw [hin] at this
        cases this
      have hno : ¬ (r.x1 ≤ x ∧ x < r.x1 + (r.x2 - r.x1) ∧ r.y1 ≤ y ∧ y < r.y1 + (r.y2 - r.y1)) := by
        intro h
        have : box_contains r x y = true := by rw [box_contains_iff]; omega
        rw [hb'] at this
        cases this
      simp only [hc, hno, Bool.or_true, if_true, if_false]
    · have hc' : region_contains rest x y = false := by simpa using hc
      by_cases hb : box_contains r x y = true
      · have hb' := box_contains_iff.1 hb
        have hyes : r.x1 ≤ x ∧ x < r.x1 + (r.x2 - r.x1) ∧ r.y1 ≤ y ∧ y < r.y1 + (r.y2 - r.y1) := by
          omega
        simp only [hc', hb, hyes, Bool.or_false, and_self, if_true, if_false, Bool.false_eq_true]
      · have hb' : box_contains r x y = false := by simpa using hb
        have hno : ¬ (r.x1 ≤ x ∧ x < r.x1 + (r.x2 - r.x1) ∧ r.y1 ≤ y ∧ y < r.y1 + (r.y2 - r.y1)) := by
          intro h; apply hb; rw [box_contains_iff]; omega
        simp only [hc', hb', hno, Bool.or_false, if_true, if_false, Bool.false_eq_true]

/-- C19: for a valid scale mode and a region of pairwise disjoint rectangles,
`__scale_image_rop` returns after rendering the scaled source into one
temporary buffer, created with exactly `dest_width × dest_height` pixels and
one reference and clipped to the region translated by `(-dest_x, -dest_y)`; it
then issues one ROP blit per rectangle of the region, reading the temporary at
`(x1 - dest_x, y1 - dest_y)` and writing the destination at `(x1, y1)` with
size `(x2 - x1) × (y2 - y1)`.  So a destination pixel `p` of the region is
combined by the ROP with the pixel `p - (dest_x, dest_y)` of the temporary, a
destination pixel outside the region is untouched, and the one reference to
the temporary is released before the return. -/
theorem scale_image_rop_spec (ext : Externals) (canvas : CairoCanvas)
    (region : List pixman_box32_t) (src : Image)
    (src_x src_y src_width src_height dest_x dest_y dest_width dest_height : Int)
    (scale_mode : Int) (rop : Nat)
    (hmode : scale_mode = SPICE_IMAGE_SCALE_MODE_INTERPOLATE ∨
      scale_mode = SPICE_IMAGE_SCALE_MODE_NEAREST)
    (hdisj : region.Pairwise boxes_disjoint) :
    ∃ r, __scale_image_rop ext canvas region src src_x src_y src_width src_height dest_x dest_y
          dest_width dest_height scale_mode rop = Except.ok r ∧
      (scale_image_rop_temporary ext region src src_x src_y src_width src_height dest_x dest_y
          dest_width dest_height scale_mode).width = dest_width ∧
      (scale_image_rop_temporary ext region src src_x src_y src_width src_height dest_x dest_y
          dest_width dest_height scale_mode).height = dest_height ∧
      (scale_image_rop_temporary ext region src src_x src_y src_width src_height dest_x dest_y
          dest_width dest_height scale_mode).clip =
        some (pixman_region32_translate region (-dest_x) (-dest_y)) ∧
      (scale_image_rop_temporary ext region src src_x src_y src_width src_height dest_x dest_y
          dest_width dest_height scale_mode).ref_count = 1 ∧
      r.scaled = some (pixman_image_unref
        (scale_image_rop_temporary ext region src src_x src_y src_width src_height dest_x dest_y
          dest_width dest_height scale_mode)) ∧
      (∀ t, r.scaled = some t → t.ref_count = 0) ∧
      r.canvas.image = region.foldl
        (fun image rc =>
          spice_pixman_blit_rop ext image
            (scale_image_rop_temporary ext region src src_x src_y src_width src_height dest_x
              dest_y dest_width dest_height scale_mode)
            (rc.x1 - dest_x) (rc.y1 - dest_y) rc.x1 rc.y1 (rc.x2 - rc.x1) (rc.y2 - rc.y1) rop)
        canvas.image ∧
      ∀ x y, r.canvas.image.pix x y =
        if region_contains region x y = true then
          ext.rop rop
            ((scale_image_rop_temporary ext region src src_x src_y src_width src_height dest_x
              dest_y dest_width dest_height scale_mode).pix (x - dest_x) (y - dest_y))
            (canvas.image.pix x y)
        else canvas.image.pix x y := by
  have hres : __scale_image_rop ext canvas region src src_x src_y src_width src_height dest_x
      dest_y dest_width dest_height scale_mode rop =
      Except.ok
        { canvas := { canvas with
            image := region.foldl
              (fun image rc =>
                spice_pixman_blit_rop ext image
                  (scale_image_rop_temporary ext region src src_x src_y src_width src_height
                    dest_x dest_y dest_width dest_height scale_mode)
                  (rc.x1 - dest_x) (rc.y1 - dest_y) rc.x1 rc.y1 (rc.x2 - rc.x1)
                  (rc.y2 - rc.y1) rop)
              canvas.image },
          src := pixman_image_set_transform
            (pixman_image_set_filter
              (pixman_image_set_repeat
                (pixman_image_set_transform src
                  (pixman_transform_init_scale
                    (pixman_double_to_fixed
                      (double_div (double_of_int src_width) (double_of_int dest_width)))
                    (pixman_double_to_fixed
                      (double_div (double_of_int src_height) (double_of_int dest_height)))))
                pixman_repeat_t.PIXMAN_REPEAT_NONE)
              (if scale_mode = SPICE_IMAGE_SCALE_MODE_NEAREST
               then pixman_filter_t.PIXMAN_FILTER_NEAREST
               else pixman_filter_t.PIXMAN_FILTER_GOOD))
            pixman_transform_identity,
          region := region,
          scaled := some (pixman_image_unref
            (scale_image_rop_temporary ext region src src_x src_y src_width src_height dest_x
              dest_y dest_width dest_height scale_mode)) } := by
    unfold __scale_image_rop
    simp only [hmode, not_true_eq_false, if_false, pixman_region32_translate_back]
    rfl
  refine ⟨_, hres, rfl, rfl, rfl, rfl, rfl, ?_, rfl, ?_⟩
  · intro t ht
    simp only [Option.some.injEq] at ht
    rw [← ht]
    rfl
  · intro x y
    simp only []
    rw [blit_rop_fold_spec ext _ dest_x dest_y rop region canvas.image hdisj]

/-- C19 on the 4 × 4 surface, whose pixel `(x, y)` holds `10 * y + x`, with a
raster operation that stores the source pixel.  A 2 × 2 source scaled at ratio
one into the middle of the surface: the call returns, the temporary is left
without reference, the pixels of the region hold the source and the corner
pixels keep their values.  A source block of width 2 at `src_x = 3` of the
8 × 1 strip scaled to width 75: the scale factor `2 / 75` is the fixed-point
number 1747, the source origin `ROUND(3 / sx)` is 112, since the double
`3 / sx` is just below 112.5, and the first two pixels of the first row
receive the strip pixels of columns 2 and 3 while the second row is
untouched. -/
theorem scale_image_rop_spec_witness :
    (∃ r, __scale_image_rop demo_ext demo_canvas [⟨1, 1, 3, 3⟩] demo_src 0 0 2 2 1 1 2 2
          SPICE_IMAGE_SCALE_MODE_NEAREST 0 = Except.ok r ∧
      (∀ t, r.scaled = some t → t.ref_count = 0) ∧
      r.canvas.image.pix 0 0 = 0 ∧ r.canvas.image.pix 3 3 = 33 ∧
      r.canvas.image.pix 1 1 = 100 ∧ r.canvas.image.pix 2 2 = 111) ∧
    pixman_double_to_fixed (double_div (double_of_int 2) (double_of_int 75)) = 1747 ∧
    ROUND (double_div (double_of_int 3) (double_div (double_of_int 2) (double_of_int 75))) =
      112 ∧
    ∃ r, __scale_image_rop demo_ext demo_canvas [⟨0, 0, 4, 1⟩] demo_strip 3 0 2 1 0 0 75 1
          SPICE_IMAGE_SCALE_MODE_NEAREST 0 = Except.ok r ∧
      r.canvas.image.pix 0 0 = 102 ∧ r.canvas.image.pix 1 0 = 103 ∧
      r.canvas.image.pix 0 1 = 10 :=
  have h := scale_image_rop_spec demo_ext demo_canvas [⟨1, 1, 3, 3⟩] demo_src 0 0 2 2 1 1 2 2
    SPICE_IMAGE_SCALE_MODE_NEAREST 0 (Or.inr rfl) (by decide)
  have h' := scale_image_rop_spec demo_ext demo_canvas [⟨0, 0, 4, 1⟩] demo_strip 3 0 2 1 0 0 75 1
    SPICE_IMAGE_SCALE_MODE_NEAREST 0 (Or.inr rfl) (by decide)
  ⟨h.elim fun r hr =>
      ⟨r, hr.1, hr.2.2.2.2.2.2.1, by
        rw [hr.2.2.2.2.2.2.2.2 0 0, hr.2.2.2.2.2.2.2.2 3 3, hr.2.2.2.2.2.2.2.2 1 1,
          hr.2.2.2.2.2.2.2.2 2 2]
        decide⟩,
    by decide, by decide,
    h'.elim fun r hr =>
      ⟨r, hr.1, by
        rw [hr.2.2.2.2.2.2.2.2 0 0, hr.2.2.2.2.2.2.2.2 1 0, hr.2.2.2.2.2.2.2.2 0 1]
        decide⟩⟩

theorem pixman_int_to_fixed_exact (p : Int) (h0 : -32768 ≤ p) (h1 : p < 32768) :
    pixman_int_to_fixed p = p * 65536 := by
  unfold pixman_int_to_fixed wrap32
  norm_num
  omega

/-- C20: for a pattern brush with pattern reference `r` and position
`(px, py)`, `canvas_get_pixman_brush` returns the pixel buffer of the surface
registered for `r` with one reference more when the registry lookup finds a
surface, and otherwise the image the image lookup fetches for `r`; in both
cases the transform of the returned source is the translation by
`(-px, -py)` converted by `pixman_int_to_fixed` (which is `-px * 65536`,
`-py * 65536` for coordinates a 16.16 number can hold) and its repeat mode is
NORMAL. -/
theorem pattern_brush_source (canvas_get_surface : Nat → Option Image)
    (canvas_get_image : Nat → Image) (canvas : CairoCanvas) (brush : SpiceBrush)
    (htype : brush.type = SPICE_BRUSH_TYPE_PATTERN) :
    (∀ surface, canvas_get_surface brush.pattern.pat = some surface →
      canvas_get_pixman_brush canvas_get_surface canvas_get_image canvas brush =
        Except.ok (some (Source.bits
          { surface with
            ref_count := surface.ref_count + 1,
            transform := pixman_transform_t.translate
              (pixman_int_to_fixed (-brush.pattern.pos_x))
              (pixman_int_to_fixed (-brush.pattern.pos_y)),
            repeat_mode := pixman_repeat_t.PIXMAN_REPEAT_NORMAL }))) ∧
    (canvas_get_surface brush.pattern.pat = none →
      canvas_get_pixman_brush canvas_get_surface canvas_get_image canvas brush =
        Except.ok (some (Source.bits
          { canvas_get_image brush.pattern.pat with
            transform := pixman_transform_t.translate
              (pixman_int_to_fixed (-brush.pattern.pos_x))
              (pixman_int_to_fixed (-brush.pattern.pos_y)),
            repeat_mode := pixman_repeat_t.PIXMAN_REPEAT_NORMAL }))) ∧
    (-32768 ≤ -brush.pattern.pos_x → -brush.pattern.pos_x < 32768 →
      pixman_int_to_fixed (-brush.pattern.pos_x) = -brush.pattern.pos_x * 65536) ∧
    (-32768 ≤ -brush.pattern.pos_y → -brush.pattern.pos_y < 32768 →
      pixman_int_to_fixed (-brush.pattern.pos_y) = -brush.pattern.pos_y * 65536) := by
  have hps : ¬ SPICE_BRUSH_TYPE_PATTERN = SPICE_BRUSH_TYPE_SOLID := by decide
  refine ⟨?_, ?_, pixman_int_to_fixed_exact _, pixman_int_to_fixed_exact _⟩
  · intro surface hs
    unfold canvas_get_pixman_brush
    simp only [htype, hps, if_false, if_true, hs]
    rfl
  · intro hs
    unfold canvas_get_pixman_brush
    simp only [htype, hps, if_false, if_true, hs]
    rfl

/-- C20, a pattern brush at position `(3, -2)` whose reference is a registered
surface with one reference. -/
theorem pattern_brush_source_witness :
    canvas_get_pixman_brush (fun _ => some demo_src) (fun _ => demo_image) demo_canvas
        { type := 2, color := 0, pattern := ⟨7, 3, -2⟩ } =
      Except.ok (some (Source.bits
        { demo_src with
          ref_count := 2,
          transform := pixman_transform_t.translate (-196608) 131072,
          repeat_mode := pixman_repeat_t.PIXMAN_REPEAT_NORMAL })) :=
  (pattern_brush_source (fun _ => some demo_src) (fun _ => demo_image) demo_canvas
    { type := 2, color := 0, pattern := ⟨7, 3, -2⟩ } rfl).1 demo_src rfl

theorem canvas_read_bits_loop_fold (image : Image) (ds ss s0 rows : Int) (hds : 0 < ds) :
    ∀ (fuel : Nat) (r : Int) (out : Int → Nat), 0 ≤ r → r ≤ rows → rows - r < fuel →
      canvas_read_bits_loop image ds ss (0 + rows * ds) fuel out (r * ds) (s0 + r * ss) =
        some ((int_range r (rows - r).toNat).foldl
          (fun out k => memcpy_from_image image out (k * ds) (s0 + k * ss) ds) out) := by
  intro fuel
  induction fuel with
  | zero => intro r out _ h1 h; exfalso; simp at h; omega
  | succ f ih =>
    intro r out h0 h1 h
    unfold canvas_read_bits_loop
    by_cases hr : r = rows
    · subst hr
      simp [int_range]
    · have hne : r * ds ≠ 0 + rows * ds := by
        intro heq
        rw [zero_add] at heq
        exact hr (Int.eq_of_mul_eq_mul_right (ne_of_gt hds) heq)
      have hnext : (r + 1) * ds = r * ds + ds := by ring
      have hnext' : s0 + (r + 1) * ss = s0 + r * ss + ss := by ring
      have hlen : (rows - r).toNat = (rows - (r + 1)).toNat + 1 := by omega
      have hrec := ih (r + 1) (memcpy_from_image image out (r * ds) (s0 + r * ss) ds)
        (by omega) (by omega) (by push_cast at h; omega)
      rw [hnext, hnext'] at hrec
      simp only [ne_eq, hne, not_false_eq_true, if_true]
      rw [hrec, hlen, int_range, List.foldl_cons]

/-- Claim C21.  For an area with `bottom ≥ top` and a positive `dest_stride`,
`canvas_read_bits` returns, and its result is the caller buffer after exactly
`bottom - top` row copies (`read_bits_row_copies`, a list of that length):
byte `c` of output row `r`, at offset `r * dest_stride + c`, is the surface
byte at offset `(top + r) * src_stride + 4 * left + c` for every
`0 ≤ c < dest_stride`, the bytes of the buffer outside the `bottom - top` rows
keep their value, and the result is the same for every value of `area.right`.
The surface is only read: the buffer is the only thing the function produces. -/
theorem canvas_read_bits_rows (canvas : CairoCanvas) (out : Int → Nat) (dest_stride : Int)
    (area : SpiceRect) (hrows : area.top ≤ area.bottom) (hds : 0 < dest_stride) :
    ∃ fin, canvas_read_bits canvas out dest_stride area = some fin ∧
      fin = read_bits_row_copies canvas.image dest_stride canvas.image.stride
        (area.top * canvas.image.stride + area.left * 4) (area.bottom - area.top).toNat out ∧
      (int_range 0 (area.bottom - area.top).toNat).length = (area.bottom - area.top).toNat ∧
      (∀ r c, 0 ≤ r → r < area.bottom - area.top → 0 ≤ c → c < dest_stride →
        fin (r * dest_stride + c) =
          image_byte canvas.image ((area.top + r) * canvas.image.stride + 4 * area.left + c)) ∧
      (∀ a, a < 0 ∨ (area.bottom - area.top) * dest_stride ≤ a → fin a = out a) ∧
      (∀ right, canvas_read_bits canvas out dest_stride { area with right := right } =
        some fin) := by
  obtain ⟨fin, hfin, hbytes, hout⟩ :=
    canvas_read_bits_loop_spec canvas.image dest_stride canvas.image.stride
      (area.top * canvas.image.stride + area.left * 4) (area.bottom - area.top) hds
      ((area.bottom - area.top).toNat + 1) 0 out (le_refl 0) (by omega)
      (by push_cast; omega)
  have hfold :=
    canvas_read_bits_loop_fold canvas.image dest_stride canvas.image.stride
      (area.top * canvas.image.stride + area.left * 4) (area.bottom - area.top) hds
      ((area.bottom - area.top).toNat + 1) 0 out (le_refl 0) (by omega)
      (by push_cast; omega)
  simp only [zero_mul, add_zero, sub_zero] at hfin hfold
  have hrun : canvas_read_bits canvas out dest_stride area = some fin := by
    unfold canvas_read_bits
    exact hfin
  refine ⟨fin, hrun, ?_, int_range_length _ _, ?_, ?_, fun right => hrun⟩
  · rw [hfin] at hfold
    exact Option.some.inj hfold
  · intro r c h0 h1 h2 h3
    rw [hbytes r c h0 h1 h2 h3]
    congr 1
    ring
  · intro a ha
    apply hout a
    simpa using ha

theorem canvas_read_bits_rows_witness :
    ∃ fin, canvas_read_bits demo_canvas (fun _ => 0) 8 ⟨1, 1, 2, 3⟩ = some fin ∧
      fin 8 = 21 ∧ fin 12 = 22 ∧ fin 16 = 0 := by
  obtain ⟨fin, hfin, -, -, hbytes, hout, -⟩ :=
    canvas_read_bits_rows demo_canvas (fun _ => 0) 8 ⟨1, 1, 2, 3⟩ (by decide) (by decide)
  refine ⟨fin, hfin, ?_, ?_, ?_⟩
  · have h := hbytes 1 0 (by decide) (by decide) (by decide) (by decide)
    simpa using h.trans (by decide)
  · have h := hbytes 1 4 (by decide) (by decide) (by decide) (by decide)
    simpa using h.trans (by decide)
  · exact hout 16 (Or.inr (by decide))

theorem flatten_map_reverse_perm : ∀ (runs : List (List Int)),
    (runs.map List.reverse).flatten.Perm runs.flatten := by
  intro runs
  induction runs with
  | nil => exact List.Perm.refl _
  | cons g rest ih =>
    simp only [List.map_cons, List.flatten_cons]
    exact List.Perm.append (List.reverse_perm g) ih

theorem copy_region_order_perm (rects : List pixman_box32_t) (dx dy : Int) :
    ∃ order, copy_region_order rects dx dy = some order ∧
      order.Perm (int_range 0 rects.length) := by
  unfold copy_region_order
  by_cases hdy : dy > 0
  · by_cases hdx : dx ≥ 0
    · have h := copy_region_se_exact (rects.length + 1) ((rects.length : Int) - 1)
        (by omega) (by push_cast; omega)
      have hn : ((rects.length : Int) - 1 + 1).toNat = rects.length := by omega
      rw [hn] at h
      refine ⟨_, by simp only [hdy, hdx, if_true]; exact h, List.reverse_perm _⟩
    · have h := copy_region_sw_exact rects (rects.length + 1) rects.length (le_refl _)
        (by omega)
      refine ⟨_, by simp only [hdy, hdx, if_true, if_false]; exact h, ?_⟩
      refine (List.reverse_perm _).flatten.trans ?_
      rw [top_runs_flatten]
      simp
  · by_cases hdx : dx > 0
    · have h := copy_region_ne_exact rects (rects.length + 1) 0 (Nat.zero_le _)
        (by push_cast; omega)
      refine ⟨_, by simp only [hdy, hdx, if_true, if_false]; exact h, ?_⟩
      refine (flatten_map_reverse_perm _).trans ?_
      rw [top_runs_flatten]
      simp
    · have h := copy_region_nw_exact (rects.length : Int) (rects.length + 1) 0
        (by omega) (by push_cast; omega)
      have hn : ((rects.length : Int) - 0).toNat = rects.length := by omega
      rw [hn] at h
      exact ⟨_, by simp only [hdy, hdx, if_false]; exact h, List.Perm.refl _⟩

theorem scale_image_rop_ok (ext : Externals) (canvas : CairoCanvas)
    (region : List pixman_box32_t) (src : Image)
    (src_x src_y src_width src_height dest_x dest_y dest_width dest_height : Int)
    (scale_mode : Int) (rop : Nat) (r : Scaled)
    (hr : __scale_image_rop ext canvas region src src_x src_y src_width src_height dest_x dest_y
      dest_width dest_height scale_mode rop = Except.ok r) :
    r.region = region ∧
      r.canvas.image = region.foldl
        (fun image rc =>
          spice_pixman_blit_rop ext image
            (scale_image_rop_temporary ext region src src_x src_y src_width src_height dest_x
              dest_y dest_width dest_height scale_mode)
            (rc.x1 - dest_x) (rc.y1 - dest_y) rc.x1 rc.y1 (rc.x2 - rc.x1) (rc.y2 - rc.y1) rop)
        canvas.image := by
  unfold __scale_image_rop at hr
  by_cases h : scale_mode = SPICE_IMAGE_SCALE_MODE_INTERPOLATE ∨
      scale_mode = SPICE_IMAGE_SCALE_MODE_NEAREST
  · simp only [h, not_true_eq_false, if_false, Except.ok.injEq,
      pixman_region32_translate_back] at hr
    rw [← hr]
    exact ⟨rfl, rfl⟩
  · simp only [h, not_false_eq_true, if_true] at hr
    cases hr

theorem colorkey_scale_image_eq (ext : Externals) (canvas : CairoCanvas)
    (region : List pixman_box32_t) (src : Image)
    (src_x src_y src_width src_height dest_x dest_y dest_width dest_height : Int)
    (transparent_color : Nat) :
    (__colorkey_scale_image ext canvas region src src_x src_y src_width src_height dest_x dest_y
        dest_width dest_height transparent_color).region = region ∧
      (__colorkey_scale_image ext canvas region src src_x src_y src_width src_height dest_x
        dest_y dest_width dest_height transparent_color).canvas.image = region.foldl
        (fun image rc =>
          spice_pixman_blit_colorkey image
            (colorkey_scale_image_temporary ext region src src_x src_y src_width src_height
              dest_x dest_y dest_width dest_height)
            (rc.x1 - dest_x) (rc.y1 - dest_y) rc.x1 rc.y1 (rc.x2 - rc.x1) (rc.y2 - rc.y1)
            transparent_color)
        canvas.image := by
  unfold __colorkey_scale_image
  simp only [pixman_region32_translate_back]
  exact ⟨trivial, rfl⟩

/-- Claim C24.  For every region and every `(dest_x, dest_y)` for which the
translated coordinates fit `int32_t`, translating the region by
`(-dest_x, -dest_y)` and then by `(dest_x, dest_y)` gives the region back, so
`__scale_image_rop`, whenever it returns (it does for a valid scale mode), and
`__colorkey_scale_image` leave the caller's region equal to its value before
the call, and their final blits run over exactly the caller's rectangles, one
blit per rectangle in list order. -/
theorem scaled_ops_region_restored (ext : Externals) (canvas : CairoCanvas)
    (region : List pixman_box32_t) (src : Image)
    (src_x src_y src_width src_height dest_x dest_y dest_width dest_height : Int)
    (scale_mode : Int) (rop : Nat) (transparent_color : Nat)
    (_hfit : translate_fits region (-dest_x) (-dest_y) = true) :
    pixman_region32_translate (pixman_region32_translate region (-dest_x) (-dest_y))
        dest_x dest_y = region ∧
    (scale_mode = SPICE_IMAGE_SCALE_MODE_INTERPOLATE ∨
        scale_mode = SPICE_IMAGE_SCALE_MODE_NEAREST →
      ∃ r, __scale_image_rop ext canvas region src src_x src_y src_width src_height dest_x
        dest_y dest_width dest_height scale_mode rop = Except.ok r) ∧
    (∀ r, __scale_image_rop ext canvas region src src_x src_y src_width src_height dest_x dest_y
        dest_width dest_height scale_mode rop = Except.ok r →
      r.region = region ∧
      r.canvas.image = region.foldl
        (fun image rc =>
          spice_pixman_blit_rop ext image
            (scale_image_rop_temporary ext region src src_x src_y src_width src_height dest_x
              dest_y dest_width dest_height scale_mode)
            (rc.x1 - dest_x) (rc.y1 - dest_y) rc.x1 rc.y1 (rc.x2 - rc.x1) (rc.y2 - rc.y1) rop)
        canvas.image) ∧
    (__colorkey_scale_image ext canvas region src src_x src_y src_width src_height dest_x dest_y
        dest_width dest_height transparent_color).region = region ∧
    (__colorkey_scale_image ext canvas region src src_x src_y src_width src_height dest_x dest_y
        dest_width dest_height transparent_color).canvas.image = region.foldl
      (fun image rc =>
        spice_pixman_blit_colorkey image
          (colorkey_scale_image_temporary ext region src src_x src_y src_width src_height
            dest_x dest_y dest_width dest_height)
          (rc.x1 - dest_x) (rc.y1 - dest_y) rc.x1 rc.y1 (rc.x2 - rc.x1) (rc.y2 - rc.y1)
          transparent_color)
      canvas.image := by
  refine ⟨pixman_region32_translate_back region dest_x dest_y, ?_,
    fun r hr => scale_image_rop_ok ext canvas region src src_x src_y src_width src_height
      dest_x dest_y dest_width dest_height scale_mode rop r hr,
    colorkey_scale_image_eq ext canvas region src src_x src_y src_width src_height dest_x dest_y
      dest_width dest_height transparent_color⟩
  intro hmode
  unfold __scale_image_rop
  simp only [hmode, not_true_eq_false, if_false]
  exact ⟨_, rfl⟩

/-- Claim C24 on concrete calls.  A 2 × 2 source scaled onto the rectangle
`[1, 3) × [1, 3)` of the 4 × 4 surface: the translation is in range, the region
comes back as `[(1, 1, 3, 3)]` from both functions, and `__scale_image_rop`
returns.  A block of the 8 × 1 strip at `src_x = 3` scaled from width 2 to
width 75 with the colour key 0: the region `[(0, 0, 4, 1)]` comes back, and the
blit over it leaves the strip pixels of columns 2 and 3 in the first two
pixels of the first row. -/
theorem scaled_ops_region_restored_witness :
    translate_fits [⟨1, 1, 3, 3⟩] (-1) (-1) = true ∧
    pixman_region32_translate (pixman_region32_translate [⟨1, 1, 3, 3⟩] (-1) (-1)) 1 1 =
      [⟨1, 1, 3, 3⟩] ∧
    (∃ r, __scale_image_rop demo_ext demo_canvas [⟨1, 1, 3, 3⟩] demo_src 0 0 2 2 1 1 2 2
        SPICE_IMAGE_SCALE_MODE_NEAREST 0 = Except.ok r ∧ r.region = [⟨1, 1, 3, 3⟩]) ∧
    (__colorkey_scale_image demo_ext demo_canvas [⟨1, 1, 3, 3⟩] demo_src 0 0 2 2 1 1 2 2
        0).region = [⟨1, 1, 3, 3⟩] ∧
    (__colorkey_scale_image demo_ext demo_canvas [⟨0, 0, 4, 1⟩] demo_strip 3 0 2 1 0 0 75 1
        0).region = [⟨0, 0, 4, 1⟩] ∧
    (__colorkey_scale_image demo_ext demo_canvas [⟨0, 0, 4, 1⟩] demo_strip 3 0 2 1 0 0 75 1
        0).canvas.image.pix 0 0 = 102 ∧
    (__colorkey_scale_image demo_ext demo_canvas [⟨0, 0, 4, 1⟩] demo_strip 3 0 2 1 0 0 75 1
        0).canvas.image.pix 1 0 = 103 :=
  have h := scaled_ops_region_restored demo_ext demo_canvas [⟨1, 1, 3, 3⟩] demo_src 0 0 2 2
    1 1 2 2 SPICE_IMAGE_SCALE_MODE_NEAREST 0 0 (by decide)
  have h' := scaled_ops_region_restored demo_ext demo_canvas [⟨0, 0, 4, 1⟩] demo_strip 3 0 2 1
    0 0 75 1 SPICE_IMAGE_SCALE_MODE_NEAREST 0 0 (by decide)
  ⟨by decide, h.1,
    (h.2.1 (Or.inr rfl)).elim fun r hr => ⟨r, hr, (h.2.2.1 r hr).1⟩,
    h.2.2.2.1, h'.2.2.2.1,
    by rw [h'.2.2.2.2]; decide,
    by rw [h'.2.2.2.2]; decide⟩

theorem text_depth_none {flags : Nat}
    (h1 : flags &&& SPICE_STRING_FLAGS_RASTER_A1 = 0)
    (h4 : flags &&& SPICE_STRING_FLAGS_RASTER_A4 = 0)
    (h8 : flags &&& SPICE_STRING_FLAGS_RASTER_A8 = 0) : text_depth flags = none := by
  unfold text_depth
  simp only [h1, h4, h8, ne_eq, not_true_eq_false, if_false]

theorem draw_text_unsupported (ext : Externals) (base : BaseCanvas) (canvas : CairoCanvas)
    (bbox : SpiceRect) (clip : SpiceClip) (text : SpiceText)
    (hdepth : text_depth text.str.flags = none)
    (hregion : pixman_region32_not_empty
      (base.canvas_clip_pixman
        (pixman_region32_init_rect bbox.left bbox.top (bbox.right - bbox.left)
          (bbox.bottom - bbox.top)) clip) = true)
    (r : CairoCanvas × List Event)
    (hback : canvas_draw_text_background base canvas
      (base.canvas_clip_pixman
        (pixman_region32_init_rect bbox.left bbox.top (bbox.right - bbox.left)
          (bbox.bottom - bbox.top)) clip) text = Except.ok r) :
    canvas_draw_text ext base canvas bbox clip text =
      Except.ok (r.1, r.2 ++ [Event.warn, Event.region_fini_dest]) := by
  unfold canvas_draw_text
  simp only [hregion, Bool.not_true, Bool.false_eq_true, if_false, hback, hdepth]

theorem background_fill (base : BaseCanvas) (canvas : CairoCanvas)
    (dest_region : List pixman_box32_t) (text : SpiceText)
    (hput : text.fore_mode = SPICE_ROPD_OP_PUT)
    (he : base.rect_is_empty text.back_area = false)
    (hi : pixman_region32_not_empty
      (pixman_region32_intersect
        (pixman_region32_init_rect text.back_area.left text.back_area.top
          (text.back_area.right - text.back_area.left)
          (text.back_area.bottom - text.back_area.top))
        dest_region) = true) :
    canvas_draw_text_background base canvas dest_region text =
      Except.ok
        (base.draw_brush canvas
          (pixman_region32_intersect
            (pixman_region32_init_rect text.back_area.left text.back_area.top
              (text.back_area.right - text.back_area.left)
              (text.back_area.bottom - text.back_area.top))
            dest_region)
          text.back_brush SPICE_ROP_COPY,
        [Event.draw_brush
          (pixman_region32_intersect
            (pixman_region32_init_rect text.back_area.left text.back_area.top
              (text.back_area.right - text.back_area.left)
              (text.back_area.bottom - text.back_area.top))
            dest_region)
          text.back_brush SPICE_ROP_COPY,
          Event.region_fini_back]) := by
  unfold canvas_draw_text_background
  simp only [he, hput, hi, Bool.not_false, ne_eq, not_true_eq_false, if_true, if_false]

theorem background_skip_intersection (base : BaseCanvas) (canvas : CairoCanvas)
    (dest_region : List pixman_box32_t) (text : SpiceText)
    (hput : text.fore_mode = SPICE_ROPD_OP_PUT)
    (he : base.rect_is_empty text.back_area = false)
    (hi : pixman_region32_not_empty
      (pixman_region32_intersect
        (pixman_region32_init_rect text.back_area.left text.back_area.top
          (text.back_area.right - text.back_area.left)
          (text.back_area.bottom - text.back_area.top))
        dest_region) = false) :
    canvas_draw_text_background base canvas dest_region text =
      Except.ok (canvas, [Event.region_fini_back]) := by
  unfold canvas_draw_text_background
  simp only [he, hput, hi, Bool.not_false, ne_eq, not_true_eq_false, if_true, if_false,
    Bool.false_eq_true]

theorem background_skip_empty (base : BaseCanvas) (canvas : CairoCanvas)
    (dest_region : List pixman_box32_t) (text : SpiceText)
    (he : base.rect_is_empty text.back_area = true) :
    canvas_draw_text_background base canvas dest_region text = Except.ok (canvas, []) := by
  unfold canvas_draw_text_background
  simp only [he, Bool.not_true, Bool.false_eq_true, if_false]

/-- Claim C22.  For a text command whose string flags carry none of the raster
flags, whose clipped bounding-box region is not empty and whose `fore_mode` is
PUT, `canvas_draw_text` returns without a glyph composite, after the warning.
When `back_area` is not empty and its intersection with the clipped region is
not empty, the call `draw_brush` with the background brush and ROP COPY over
that intersection is made first, and the canvas returned is the one
`draw_brush` produces; when `back_area` is empty or the intersection is empty,
no `draw_brush` call is made and the canvas is returned as it was.  So the
fill is skipped exactly in these two cases. -/
theorem draw_text_background_without_glyphs (ext : Externals) (base : BaseCanvas)
    (canvas : CairoCanvas) (bbox : SpiceRect) (clip : SpiceClip) (text : SpiceText)
    (h1 : text.str.flags &&& SPICE_STRING_FLAGS_RASTER_A1 = 0)
    (h4 : text.str.flags &&& SPICE_STRING_FLAGS_RASTER_A4 = 0)
    (h8 : text.str.flags &&& SPICE_STRING_FLAGS_RASTER_A8 = 0)
    (hregion : pixman_region32_not_empty
      (base.canvas_clip_pixman
        (pixman_region32_init_rect bbox.left bbox.top (bbox.right - bbox.left)
          (bbox.bottom - bbox.top)) clip) = true)
    (hput : text.fore_mode = SPICE_ROPD_OP_PUT) :
    (base.rect_is_empty text.back_area = false →
      pixman_region32_not_empty
        (pixman_region32_intersect
          (pixman_region32_init_rect text.back_area.left text.back_area.top
            (text.back_area.right - text.back_area.left)
            (text.back_area.bottom - text.back_area.top))
          (base.canvas_clip_pixman
            (pixman_region32_init_rect bbox.left bbox.top (bbox.right - bbox.left)
              (bbox.bottom - bbox.top)) clip)) = true →
      canvas_draw_text ext base canvas bbox clip text =
        Except.ok
          (base.draw_brush canvas
            (pixman_region32_intersect
              (pixman_region32_init_rect text.back_area.left text.back_area.top
                (text.back_area.right - text.back_area.left)
                (text.back_area.bottom - text.back_area.top))
              (base.canvas_clip_pixman
                (pixman_region32_init_rect bbox.left bbox.top (bbox.right - bbox.left)
                  (bbox.bottom - bbox.top)) clip))
            text.back_brush SPICE_ROP_COPY,
          [Event.draw_brush
            (pixman_region32_intersect
              (pixman_region32_init_rect text.back_area.left text.back_area.top
                (text.back_area.right - text.back_area.left)
                (text.back_area.bottom - text.back_area.top))
              (base.canvas_clip_pixman
                (pixman_region32_init_rect bbox.left bbox.top (bbox.right - bbox.left)
                  (bbox.bottom - bbox.top)) clip))
            text.back_brush SPICE_ROP_COPY,
            Event.region_fini_back, Event.warn, Event.region_fini_dest])) ∧
    (base.rect_is_empty text.back_area = false →
      pixman_region32_not_empty
        (pixman_region32_intersect
          (pixman_region32_init_rect text.back_area.left text.back_area.top
            (text.back_area.right - text.back_area.left)
            (text.back_area.bottom - text.back_area.top))
          (base.canvas_clip_pixman
            (pixman_region32_init_rect bbox.left bbox.top (bbox.right - bbox.left)
              (bbox.bottom - bbox.top)) clip)) = false →
      canvas_draw_text ext base canvas bbox clip text =
        Except.ok (canvas, [Event.region_fini_back, Event.warn, Event.region_fini_dest])) ∧
    (base.rect_is_empty text.back_area = true →
      canvas_draw_text ext base canvas bbox clip text =
        Except.ok (canvas, [Event.warn, Event.region_fini_dest])) ∧
    ∃ canvas' events, canvas_draw_text ext base canvas bbox clip text =
        Except.ok (canvas', events) ∧
      Event.composite ∉ events ∧
      ((∃ region brush rop, Event.draw_brush region brush rop ∈ events) ↔
        ¬ (base.rect_is_empty text.back_area = true ∨
          pixman_region32_not_empty
            (pixman_region32_intersect
              (pixman_region32_init_rect text.back_area.left text.back_area.top
                (text.back_area.right - text.back_area.left)
                (text.back_area.bottom - text.back_area.top))
              (base.canvas_clip_pixman
                (pixman_region32_init_rect bbox.left bbox.top (bbox.right - bbox.left)
                  (bbox.bottom - bbox.top)) clip)) = false)) := by
  have hdepth := text_depth_none h1 h4 h8
  have hA := fun he hi =>
    (draw_text_unsupported ext base canvas bbox clip text hdepth hregion _
      (background_fill base canvas _ text hput he hi))
  have hB := fun he hi =>
    (draw_text_unsupported ext base canvas bbox clip text hdepth hregion _
      (background_skip_intersection base canvas _ text hput he hi))
  have hC := fun he =>
    (draw_text_unsupported ext base canvas bbox clip text hdepth hregion _
      (background_skip_empty base canvas _ text he))
  refine ⟨hA, hB, hC, ?_⟩
  cases he : base.rect_is_empty text.back_area with
  | true =>
    refine ⟨_, _, hC he, by simp, ?_⟩
    simp
  | false =>
    cases hi : pixman_region32_not_empty
        (pixman_region32_intersect
          (pixman_region32_init_rect text.back_area.left text.back_area.top
            (text.back_area.right - text.back_area.left)
            (text.back_area.bottom - text.back_area.top))
          (base.canvas_clip_pixman
            (pixman_region32_init_rect bbox.left bbox.top (bbox.right - bbox.left)
              (bbox.bottom - bbox.top)) clip)) with
    | true =>
      refine ⟨_, _, hA he hi, by simp, ?_⟩
      simp
    | false =>
      refine ⟨_, _, hB he hi, by simp, ?_⟩
      simp

/-- Claim C22 on the 4 × 4 surface: a text command without raster flag and with
the background area `[1, 3) × [1, 3)` in colour 7.  The call returns after the
background fill and the warning, and the pixel `(1, 1)`, which held 11, now
holds 7, while the pixel `(0, 0)` outside the background area keeps 0. -/
theorem draw_text_background_without_glyphs_witness :
    ∃ canvas', canvas_draw_text demo_ext demo_base demo_canvas ⟨0, 0, 4, 4⟩ ⟨0, []⟩
        demo_text_background =
        Except.ok (canvas',
          [Event.draw_brush [⟨1, 1, 3, 3⟩] demo_text_background.back_brush SPICE_ROP_COPY,
            Event.region_fini_back, Event.warn, Event.region_fini_dest]) ∧
      demo_canvas.image.pix 1 1 = 11 ∧ canvas'.image.pix 1 1 = 7 ∧
      canvas'.image.pix 0 0 = 0 :=
  have h := (draw_text_background_without_glyphs demo_ext demo_base demo_canvas ⟨0, 0, 4, 4⟩
    ⟨0, []⟩ demo_text_background (by decide) (by decide) (by decide) (by decide)
    (by decide)).1 (by decide) (by decide)
  ⟨_, h, by decide, by decide, by decide⟩

theorem cairo_canvas_init_need_init (lib : Library) (g : Globals) :
    (cairo_canvas_init lib g).need_init = 0 := by
  unfold cairo_canvas_init
  by_cases h : g.need_init = 0
  · simp only [h, if_true]
  · simp only [h, if_false]

theorem cairo_canvas_init_again (lib : Library) (g : Globals) (h : g.need_init = 0) :
    cairo_canvas_init lib g = g := by
  unfold cairo_canvas_init
  simp only [h, if_true]

theorem globals_after_need_init (lib : Library) :
    ∀ calls, (globals_after lib calls).need_init ≠ 0 ↔ calls = 0 := by
  intro calls
  cases calls with
  | zero => simp [globals_after, globals_at_start]
  | succ k => simp [globals_after, cairo_canvas_init_need_init]

theorem canvas_create_common_none (lib : Library) (g : Globals) (image : Image) (format : Nat) :
    canvas_create_common lib g image format = none ↔ g.need_init ≠ 0 := by
  unfold canvas_create_common
  by_cases h : g.need_init = 0
  · simp [h]
  · simp [h]

theorem canvas_create_common_some (lib : Library) (g : Globals) (image : Image) (format : Nat)
    (h : g.need_init = 0) :
    ∃ canvas, canvas_create_common lib g image format = some canvas ∧
      canvas.image = image ∧ canvas.private_data = none ∧ canvas.private_data_size = 0 := by
  unfold canvas_create_common
  simp only [h, ne_eq, not_true_eq_false, if_false]
  exact ⟨_, rfl, rfl, rfl, rfl⟩

/-- Claim C25.  `canvas_create` and `canvas_create_for_data` return `NULL`
exactly when `need_init` is still set, which is the case exactly when
`cairo_canvas_init` has not been called since program start.  After at least
one call they return a canvas whose `image` is the pixel buffer that the call
just created, whose `private_data` is `NULL` and whose `private_data_size` is
0, whatever `canvas_base_init` returns.  A further call of `cairo_canvas_init`
leaves the statics as they are. -/
theorem create_needs_init (lib : Library) (width height : Int) (format : Nat)
    (data : Int → Nat) (stride : Int) :
    (∀ g, canvas_create lib g width height format = none ↔ g.need_init ≠ 0) ∧
    (∀ g, canvas_create_for_data lib g width height format data stride = none ↔
      g.need_init ≠ 0) ∧
    (∀ calls, canvas_create lib (globals_after lib calls) width height format = none ↔
      calls = 0) ∧
    (∀ calls, canvas_create_for_data lib (globals_after lib calls) width height format data
      stride = none ↔ calls = 0) ∧
    (∀ calls, 0 < calls →
      ∃ canvas, canvas_create lib (globals_after lib calls) width height format = some canvas ∧
        canvas.image = lib.pixman_image_create_bits (lib.spice_surface_format_to_pixman format)
          width height none 0 ∧
        canvas.private_data = none ∧ canvas.private_data_size = 0) ∧
    (∀ calls, 0 < calls →
      ∃ canvas, canvas_create_for_data lib (globals_after lib calls) width height format data
          stride = some canvas ∧
        canvas.image = lib.pixman_image_create_bits (lib.spice_surface_format_to_pixman format)
          width height (some data) stride ∧
        canvas.private_data = none ∧ canvas.private_data_size = 0) ∧
    (∀ calls, 0 < calls →
      cairo_canvas_init lib (globals_after lib calls) = globals_after lib calls) ∧
    (∀ g, cairo_canvas_init lib (cairo_canvas_init lib g) = cairo_canvas_init lib g) := by
  have hzero : ∀ calls, 0 < calls → (globals_after lib calls).need_init = 0 := by
    intro calls hc
    by_contra hne
    have := (globals_after_need_init lib calls).1 hne
    omega
  refine ⟨fun g => canvas_create_common_none lib g _ format,
    fun g => canvas_create_common_none lib g _ format, ?_, ?_, ?_, ?_, ?_, ?_⟩
  · intro calls
    exact (canvas_create_common_none lib _ _ format).trans (globals_after_need_init lib calls)
  · intro calls
    exact (canvas_create_common_none lib _ _ format).trans (globals_after_need_init lib calls)
  · intro calls hc
    exact canvas_create_common_some lib _ _ format (hzero calls hc)
  · intro calls hc
    exact canvas_create_common_some lib _ _ format (hzero calls hc)
  · intro calls hc
    exact cairo_canvas_init_again lib _ (hzero calls hc)
  · intro g
    exact cairo_canvas_init_again lib _ (cairo_canvas_init_need_init lib g)

/-- Claim C25 with a base canvas whose initialisation fails (`init_ok = 0`):
before the first `cairo_canvas_init` a 2 × 2 canvas is refused, after it the
canvas is created on a zero-filled buffer of width 2 without private data, and
the second `cairo_canvas_init` has made one call of `rop3_init` in total. -/
theorem create_needs_init_witness :
    (demo_library.canvas_base_init (globals_after demo_library 1).cairo_canvas_ops 2 2 0).init_ok
      = 0 ∧
    canvas_create demo_library (globals_after demo_library 0) 2 2 0 = none ∧
    (∃ canvas, canvas_create demo_library (globals_after demo_library 1) 2 2 0 = some canvas ∧
      canvas.image.width = 2 ∧ canvas.image.pix 1 1 = 0 ∧ canvas.private_data = none ∧
      canvas.private_data_size = 0) ∧
    (globals_after demo_library 2).rop3_init_calls = 1 :=
  have h := create_needs_init demo_library 2 2 0 (fun _ => 0) 8
  ⟨rfl, (h.2.2.1 0).2 rfl,
    (h.2.2.2.2.1 1 (by decide)).elim fun canvas hc =>
      ⟨canvas, hc.1, by rw [hc.2.1]; rfl, by rw [hc.2.1]; rfl, hc.2.2.1, hc.2.2.2⟩,
    by
      have h2 := h.2.2.2.2.2.2.1 1 (by decide)
      show (cairo_canvas_init demo_library (globals_after demo_library 1)).rop3_init_calls = 1
      rw [h2]
      rfl⟩

theorem copy_region_run_fold (rects : List pixman_box32_t) (dx dy : Int) :
    ∀ (order : List Int) (cur : Image),
      (∀ k ∈ order, 0 ≤ k ∧ k < (rects.length : Int)) →
      copy_region_run rects dx dy cur order =
        some ((order.filterMap (rect_at rects)).foldl
          (fun image r =>
            spice_pixman_copy_rect image (r.x1 - dx) (r.y1 - dy) (r.x2 - r.x1) (r.y2 - r.y1)
              r.x1 r.y1)
          cur) := by
  intro order
  induction order with
  | nil => intro cur _; rfl
  | cons i rest ih =>
    intro cur h
    obtain ⟨r, hr⟩ := rect_at_isSome (h i (List.mem_cons_self _ _)).1
      (h i (List.mem_cons_self _ _)).2
    rw [copy_region_run, copy_region_body_eq rects dx dy cur i r hr,
      List.filterMap_cons_some hr, List.foldl_cons]
    exact ih _ (fun k hk => h k (List.mem_cons_of_mem _ hk))

theorem filterMap_rect_at_length (rects : List pixman_box32_t) :
    ∀ (order : List Int), (∀ k ∈ order, 0 ≤ k ∧ k < (rects.length : Int)) →
      (order.filterMap (rect_at rects)).length = order.length := by
  intro order
  induction order with
  | nil => intro _; rfl
  | cons i rest ih =>
    intro h
    obtain ⟨r, hr⟩ := rect_at_isSome (h i (List.mem_cons_self _ _)).1
      (h i (List.mem_cons_self _ _)).2
    rw [List.filterMap_cons_some hr, List.length_cons, List.length_cons,
      ih (fun k hk => h k (List.mem_cons_of_mem _ hk))]

theorem filterMap_rect_at_suffix : ∀ (l pre : List pixman_box32_t),
    (int_range pre.length l.length).filterMap (rect_at (pre ++ l)) = l := by
  intro l
  induction l with
  | nil => intro pre; rfl
  | cons a t ih =>
    intro pre
    have ha : rect_at (pre ++ a :: t) (pre.length : Int) = some a := by
      rw [rect_at_eq_some]
      refine ⟨by omega, ?_⟩
      rw [Int.toNat_ofNat, List.getElem?_append_right (le_refl _), Nat.sub_self,
        List.getElem?_cons_zero]
    rw [List.length_cons, int_range, List.filterMap_cons_some ha]
    have h := ih (pre ++ [a])
    rw [List.append_assoc, List.singleton_append, List.length_append, List.length_singleton] at h
    push_cast at h
    rw [h]

theorem filterMap_rect_at_int_range (rects : List pixman_box32_t) :
    (int_range 0 rects.length).filterMap (rect_at rects) = rects := by
  have h := filterMap_rect_at_suffix rects []
  simpa using h

/-- C15: for a shift with `dy > 0` and `dx ≥ 0` (south-east), `copy_region`
issues the rectangle copies in the index order `n - 1, n - 2, ..., 0`: the
surface it returns is the result of the calls of `spice_pixman_copy_rect` for
the rectangles of the list taken from the last to the first, each call reading
the `(x2 - x1) × (y2 - y1)` block at `(x1 - dx, y1 - dy)` and writing it at
`(x1, y1)`. -/
theorem copy_region_south_east (image : Image) (rects : List pixman_box32_t) (dx dy : Int)
    (hdy : dy > 0) (hdx : dx ≥ 0) :
    copy_region_order rects dx dy = some (int_range 0 rects.length).reverse ∧
    (int_range 0 rects.length).reverse.filterMap (rect_at rects) = rects.reverse ∧
    copy_region image rects dx dy =
      some (rects.reverse.foldl
        (fun image r =>
          spice_pixman_copy_rect image (r.x1 - dx) (r.y1 - dy) (r.x2 - r.x1) (r.y2 - r.y1)
            r.x1 r.y1)
        image) ∧
    ∀ (cur : Image) (i : Int) (r : pixman_box32_t), rect_at rects i = some r →
      copy_region_body rects dx dy cur i =
        some (spice_pixman_copy_rect cur (r.x1 - dx) (r.y1 - dy) (r.x2 - r.x1) (r.y2 - r.y1)
          r.x1 r.y1) := by
  have horder : copy_region_order rects dx dy = some (int_range 0 rects.length).reverse := by
    unfold copy_region_order
    simp only [hdy, hdx, if_true]
    rw [copy_region_se_exact (rects.length + 1) ((rects.length : Int) - 1) (by omega)
      (by push_cast; omega)]
    have : ((rects.length : Int) - 1 + 1).toNat = rects.length := by omega
    rw [this]
  have hboxes : (int_range 0 rects.length).reverse.filterMap (rect_at rects) = rects.reverse := by
    rw [List.filterMap_reverse, filterMap_rect_at_int_range]
  refine ⟨horder, hboxes, ?_, copy_region_body_eq rects dx dy⟩
  unfold copy_region
  rw [horder, Option.some_bind, copy_region_run_fold rects dx dy _ image, hboxes]
  intro k hk
  have := (mem_int_range rects.length 0 k).1 (List.mem_reverse.1 hk)
  omega

/-- C15, the scenario of section 8 and a second one in which the order shows.
On the 4 × 4 surface filled with one colour, the self-copy of the top-left
2 × 2 block to the bottom-right block with `dx = 2`, `dy = 2` takes the
south-east branch, issues the one copy, and leaves the bottom-right block equal
to the original top-left block.  On the 4 × 4 surface whose pixel `(x, y)` holds
`10 * y + x`, moving rows 0 and 1 down by one row copies row 1 first: row 2
receives the old row 1 and row 1 the old row 0. -/
theorem copy_region_south_east_witness :
    copy_region_order [⟨2, 2, 4, 4⟩] 2 2 = some [0] ∧
    (∃ after, copy_region demo_filled [⟨2, 2, 4, 4⟩] 2 2 = some after ∧
      ∀ x y, 2 ≤ x → x < 4 → 2 ≤ y → y < 4 →
        after.pix x y = demo_filled.pix (x - 2) (y - 2)) ∧
    copy_region_order [⟨0, 1, 4, 2⟩, ⟨0, 2, 4, 3⟩] 0 1 = some [1, 0] ∧
    ∃ after, copy_region demo_image [⟨0, 1, 4, 2⟩, ⟨0, 2, 4, 3⟩] 0 1 = some after ∧
      after.pix 0 1 = 0 ∧ after.pix 1 1 = 1 ∧ after.pix 0 2 = 10 ∧ after.pix 1 2 = 11 ∧
      demo_image.pix 0 1 = 10 ∧ demo_image.pix 0 2 = 20 :=
  have h := copy_region_south_east demo_filled [⟨2, 2, 4, 4⟩] 2 2 (by decide) (by decide)
  have h' := copy_region_south_east demo_image [⟨0, 1, 4, 2⟩, ⟨0, 2, 4, 3⟩] 0 1 (by decide)
    (by decide)
  ⟨h.1,
    ⟨_, h.2.2.1, fun x y hx0 hx1 hy0 hy1 => by
      have hin : 2 ≤ x ∧ x < 2 + (4 - 2) ∧ 2 ≤ y ∧ y < 2 + (4 - 2) := by omega
      have e1 : x - 2 + (2 - 2) = x - 2 := by omega
      have e2 : y - 2 + (2 - 2) = y - 2 := by omega
      simp only [List.reverse_cons, List.reverse_nil, List.nil_append, List.foldl_cons,
        List.foldl_nil, spice_pixman_copy_rect, hin, and_self, if_true, e1, e2]⟩,
    h'.1, _, h'.2.2.1, by decide, by decide, by decide, by decide, by decide, by decide⟩

/-- C18: for a shift with `dy ≤ 0` and `dx ≤ 0` (north-west, the zero shift
included), `copy_region` issues the rectangle copies in the given index order
`0, 1, ..., n - 1`: the surface it returns is the result of the calls of
`spice_pixman_copy_rect` for the rectangles of the list taken from the first to
the last, each call reading the block at `(x1 - dx, y1 - dy)` and writing it at
`(x1, y1)`. -/
theorem copy_region_north_west (image : Image) (rects : List pixman_box32_t) (dx dy : Int)
    (hdy : dy ≤ 0) (hdx : dx ≤ 0) :
    copy_region_order rects dx dy = some (int_range 0 rects.length) ∧
    (int_range 0 rects.length).filterMap (rect_at rects) = rects ∧
    copy_region image rects dx dy =
      some (rects.foldl
        (fun image r =>
          spice_pixman_copy_rect image (r.x1 - dx) (r.y1 - dy) (r.x2 - r.x1) (r.y2 - r.y1)
            r.x1 r.y1)
        image) ∧
    ∀ (cur : Image) (i : Int) (r : pixman_box32_t), rect_at rects i = some r →
      copy_region_body rects dx dy cur i =
        some (spice_pixman_copy_rect cur (r.x1 - dx) (r.y1 - dy) (r.x2 - r.x1) (r.y2 - r.y1)
          r.x1 r.y1) := by
  have horder : copy_region_order rects dx dy = some (int_range 0 rects.length) := by
    unfold copy_region_order
    have h1 : ¬ dy > 0 := by omega
    have h2 : ¬ dx > 0 := by omega
    simp only [h1, h2, if_false]
    rw [copy_region_nw_exact (rects.length : Int) (rects.length + 1) 0 (by omega)
      (by push_cast; omega)]
    have : ((rects.length : Int) - 0).toNat = rects.length := by omega
    rw [this]
  refine ⟨horder, filterMap_rect_at_int_range rects, ?_, copy_region_body_eq rects dx dy⟩
  unfold copy_region
  rw [horder, Option.some_bind, copy_region_run_fold rects dx dy _ image,
    filterMap_rect_at_int_range]
  intro k hk
  have := (mem_int_range rects.length 0 k).1 hk
  omega

/-- C18, the five rectangles of two bands shifted up and to the left, and three
rectangles of row 1 of the 4 × 4 surface (pixel `(x, y)` holds `10 * y + x`)
moved one pixel to the left: the copies run from the first rectangle to the
last, so each pixel receives the old value of its right neighbour. -/
theorem copy_region_north_west_witness :
    copy_region_order demo_rects (-1) (-1) = some [0, 1, 2, 3, 4] ∧
    copy_region_order demo_rects 0 0 = some [0, 1, 2, 3, 4] ∧
    ∃ after, copy_region demo_image [⟨0, 1, 1, 2⟩, ⟨1, 1, 2, 2⟩, ⟨2, 1, 3, 2⟩] (-1) 0 =
        some after ∧
      after.pix 0 1 = 11 ∧ after.pix 1 1 = 12 ∧ after.pix 2 1 = 13 ∧ after.pix 3 1 = 13 ∧
      demo_image.pix 0 1 = 10 :=
  ⟨(copy_region_north_west demo_image demo_rects (-1) (-1) (by decide) (by decide)).1,
    (copy_region_north_west demo_image demo_rects 0 0 (by decide) (by decide)).1,
    _, (copy_region_north_west demo_image [⟨0, 1, 1, 2⟩, ⟨1, 1, 2, 2⟩, ⟨2, 1, 3, 2⟩] (-1) 0
      (by decide) (by decide)).2.2.1,
    by decide, by decide, by decide, by decide, by decide⟩

/-- C16: for a shift with `dy > 0` and `dx < 0` (south-west), `copy_region`
issues the rectangle copies run by run, where the runs are the maximal runs of
consecutive rectangles with the same top `y1`: the runs are visited from the
last to the first and each run in ascending index order.  Every index of that
order denotes a rectangle of the list, and the surface returned is the result
of the calls of `spice_pixman_copy_rect` for these rectangles in that order,
each call reading the block at `(x1 - dx, y1 - dy)` and writing it at
`(x1, y1)`. -/
theorem copy_region_south_west (image : Image) (rects : List pixman_box32_t) (dx dy : Int)
    (hdy : dy > 0) (hdx : dx < 0) :
    copy_region_order rects dx dy = some (south_west_order rects) ∧
    ((south_west_order rects).filterMap (rect_at rects)).length =
      (south_west_order rects).length ∧
    (south_west_order rects).length = rects.length ∧
    copy_region image rects dx dy =
      some (((south_west_order rects).filterMap (rect_at rects)).foldl
        (fun image r =>
          spice_pixman_copy_rect image (r.x1 - dx) (r.y1 - dy) (r.x2 - r.x1) (r.y2 - r.y1)
            r.x1 r.y1)
        image) ∧
    ∀ (cur : Image) (i : Int) (r : pixman_box32_t), rect_at rects i = some r →
      copy_region_body rects dx dy cur i =
        some (spice_pixman_copy_rect cur (r.x1 - dx) (r.y1 - dy) (r.x2 - r.x1) (r.y2 - r.y1)
          r.x1 r.y1) := by
  have horder : copy_region_order rects dx dy = some (south_west_order rects) := by
    unfold copy_region_order south_west_order
    have h2 : ¬ dx ≥ 0 := by omega
    simp only [hdy, h2, if_true, if_false]
    have h := copy_region_sw_exact rects (rects.length + 1) rects.length (le_refl _) (by omega)
    have htake : (rects.map fun r => r.y1).take rects.length = rects.map fun r => r.y1 :=
      List.take_of_length_le (by rw [List.length_map])
    rw [htake] at h
    exact h
  obtain ⟨order, horder', hperm⟩ := copy_region_order_perm rects dx dy
  rw [horder] at horder'
  have heq : south_west_order rects = order := Option.some.inj horder'
  rw [← heq] at hperm
  have hrange : ∀ k ∈ south_west_order rects, 0 ≤ k ∧ k < (rects.length : Int) := by
    intro k hk
    have := (mem_int_range rects.length 0 k).1 (hperm.mem_iff.1 hk)
    omega
  refine ⟨horder, filterMap_rect_at_length rects _ hrange, ?_, ?_,
    copy_region_body_eq rects dx dy⟩
  · rw [hperm.length_eq, int_range_length]
  · unfold copy_region
    rw [horder, Option.some_bind, copy_region_run_fold rects dx dy _ image hrange]

/-- C16, the rectangles with tops `[0, 0, 5, 5, 5]`: the runs are `[0, 1]` and
`[2, 3, 4]` and the copies are issued in the index order `2, 3, 4, 0, 1`.  On
the 4 × 4 surface whose pixel `(x, y)` holds `10 * y + x`, three rectangles of
row 1 and two of row 2 shifted by `(-1, 1)` are copied in the order
`3, 4, 0, 1, 2`: row 2 receives the old pixels of row 1 before row 1 is
overwritten. -/
theorem copy_region_south_west_witness :
    top_runs (demo_rects.map fun r => r.y1) 0 = [[0, 1], [2, 3, 4]] ∧
    copy_region_order demo_rects (-1) 1 = some [2, 3, 4, 0, 1] ∧
    copy_region_order
      [⟨0, 1, 1, 2⟩, ⟨1, 1, 2, 2⟩, ⟨2, 1, 3, 2⟩, ⟨0, 2, 1, 3⟩, ⟨1, 2, 2, 3⟩] (-1) 1 =
      some [3, 4, 0, 1, 2] ∧
    ∃ after, copy_region demo_image
        [⟨0, 1, 1, 2⟩, ⟨1, 1, 2, 2⟩, ⟨2, 1, 3, 2⟩, ⟨0, 2, 1, 3⟩, ⟨1, 2, 2, 3⟩] (-1) 1 =
        some after ∧
      after.pix 0 2 = 11 ∧ after.pix 1 2 = 12 ∧ after.pix 0 1 = 1 ∧ after.pix 1 1 = 2 ∧
      after.pix 2 1 = 3 ∧ demo_image.pix 0 2 = 20 :=
  have h := copy_region_south_west demo_image
    [⟨0, 1, 1, 2⟩, ⟨1, 1, 2, 2⟩, ⟨2, 1, 3, 2⟩, ⟨0, 2, 1, 3⟩, ⟨1, 2, 2, 3⟩] (-1) 1 (by decide)
    (by decide)
  ⟨by decide, (copy_region_south_west demo_image demo_rects (-1) 1 (by decide) (by decide)).1,
    h.1, _, h.2.2.2.1, by decide, by decide, by decide, by decide, by decide, by decide⟩

/-- C17: for a shift with `dy ≤ 0` and `dx > 0` (north-east), `copy_region`
issues the rectangle copies run by run, where the runs are the maximal runs of
consecutive rectangles with the same top `y1`: the runs are visited from the
first to the last and each run in descending index order.  Every index of that
order denotes a rectangle of the list, and the surface returned is the result
of the calls of `spice_pixman_copy_rect` for these rectangles in that order,
each call reading the block at `(x1 - dx, y1 - dy)` and writing it at
`(x1, y1)`. -/
theorem copy_region_north_east (image : Image) (rects : List pixman_box32_t) (dx dy : Int)
    (hdy : dy ≤ 0) (hdx : dx > 0) :
    copy_region_order rects dx dy = some (north_east_order rects) ∧
    ((north_east_order rects).filterMap (rect_at rects)).length =
      (north_east_order rects).length ∧
    (north_east_order rects).length = rects.length ∧
    copy_region image rects dx dy =
      some (((north_east_order rects).filterMap (rect_at rects)).foldl
        (fun image r =>
          spice_pixman_copy_rect image (r.x1 - dx) (r.y1 - dy) (r.x2 - r.x1) (r.y2 - r.y1)
            r.x1 r.y1)
        image) ∧
    ∀ (cur : Image) (i : Int) (r : pixman_box32_t), rect_at rects i = some r →
      copy_region_body rects dx dy cur i =
        some (spice_pixman_copy_rect cur (r.x1 - dx) (r.y1 - dy) (r.x2 - r.x1) (r.y2 - r.y1)
          r.x1 r.y1) := by
  have horder : copy_region_order rects dx dy = some (north_east_order rects) := by
    unfold copy_region_order north_east_order
    have h1 : ¬ dy > 0 := by omega
    simp only [h1, hdx, if_true, if_false]
    have h := copy_region_ne_exact rects (rects.length + 1) 0 (Nat.zero_le _)
      (by push_cast; omega)
    simpa using h
  obtain ⟨order, horder', hperm⟩ := copy_region_order_perm rects dx dy
  rw [horder] at horder'
  have heq : north_east_order rects = order := Option.some.inj horder'
  rw [← heq] at hperm
  have hrange : ∀ k ∈ north_east_order rects, 0 ≤ k ∧ k < (rects.length : Int) := by
    intro k hk
    have := (mem_int_range rects.length 0 k).1 (hperm.mem_iff.1 hk)
    omega
  refine ⟨horder, filterMap_rect_at_length rects _ hrange, ?_, ?_,
    copy_region_body_eq rects dx dy⟩
  · rw [hperm.length_eq, int_range_length]
  · unfold copy_region
    rw [horder, Option.some_bind, copy_region_run_fold rects dx dy _ image hrange]

/-- C17, the rectangles with tops `[0, 0, 5, 5, 5]`: the copies are issued in
the index order `1, 0, 4, 3, 2`.  On the 4 × 4 surface whose pixel `(x, y)`
holds `10 * y + x`, three rectangles of row 1 moved one pixel to the right are
copied from the last to the first, so each pixel receives the old value of its
left neighbour. -/
theorem copy_region_north_east_witness :
    copy_region_order demo_rects 1 0 = some [1, 0, 4, 3, 2] ∧
    copy_region_order [⟨1, 1, 2, 2⟩, ⟨2, 1, 3, 2⟩, ⟨3, 1, 4, 2⟩] 1 0 = some [2, 1, 0] ∧
    ∃ after, copy_region demo_image [⟨1, 1, 2, 2⟩, ⟨2, 1, 3, 2⟩, ⟨3, 1, 4, 2⟩] 1 0 =
        some after ∧
      after.pix 0 1 = 10 ∧ after.pix 1 1 = 10 ∧ after.pix 2 1 = 11 ∧ after.pix 3 1 = 12 ∧
      demo_image.pix 3 1 = 13 :=
  have h := copy_region_north_east demo_image [⟨1, 1, 2, 2⟩, ⟨2, 1, 3, 2⟩, ⟨3, 1, 4, 2⟩] 1 0
    (by decide) (by decide)
  ⟨(copy_region_north_east demo_image demo_rects 1 0 (by decide) (by decide)).1,
    h.1, _, h.2.2.2.1, by decide, by decide, by decide, by decide, by decide⟩

end Spice
